import Mathlib

/-!
Verification of the MIPS assembler / disassembler / simulator backend.

This file is a shallow embedding, in Lean 4, of the Python sources
`backend/mips_consts.py`, `backend/mips_assembler.py`,
`backend/mips_disassembler.py` and `backend/mips_simulator.py`.

Conventions used throughout the embedding:
* Python arbitrary-precision integers become `Int`; values that are known
  to be non-negative (machine words, register numbers, addresses produced
  by the assembler) become `Nat`.
* Python's bit operations on non-negative values are rendered
  arithmetically: `x << k` is `x * 2^k`, `x >> k` is `x / 2^k` (`Int.fdiv`
  for possibly-negative `x`, matching Python's floor semantics), and
  `x & (2^k - 1)` is `x % 2^k` (`Int.emod` for possibly-negative `x`,
  matching Python's non-negative `%`).  Where disjoint bit fields are
  combined with `|` in the source, the embedding uses `+`, which is equal
  because the fields do not overlap.
* Python dictionaries whose iteration order matters become association
  lists (`List (α × β)`) looked up with `List.lookup`.
* Python functions that append an error and return `None` become
  `Except`-valued functions; the error payloads are structured values in
  bijection with the distinct formatted message strings of the source.
* Strings are processed as `List Char` (via `String.data`), mirroring the
  character-level behaviour of the Python string/regex operations used by
  the sources.
-/

namespace Mips

/-- Memory region constants from `mips_simulator.py` (TEXT_START, DATA_START,
STACK_START) and the assembler's base addresses. -/
def TEXT_START : Nat := 0x00400000

/-- Data segment base constant `DATA_START = 0x10010000`. -/
def DATA_START : Nat := 0x10010000

/-- Stack pointer initial value `STACK_START = 0x7ffffffc`. -/
def STACK_START : Nat := 0x7ffffffc

/-- `REGISTER_MAP` from `mips_consts.py`: register name to number. -/
def REGISTER_MAP : List (String × Nat) :=
  [("$zero", 0), ("$0", 0), ("$at", 1), ("$1", 1), ("$v0", 2), ("$2", 2),
   ("$v1", 3), ("$3", 3), ("$a0", 4), ("$4", 4), ("$a1", 5), ("$5", 5),
   ("$a2", 6), ("$6", 6), ("$a3", 7), ("$7", 7), ("$t0", 8), ("$8", 8),
   ("$t1", 9), ("$9", 9), ("$t2", 10), ("$10", 10), ("$t3", 11), ("$11", 11),
   ("$t4", 12), ("$12", 12), ("$t5", 13), ("$13", 13), ("$t6", 14), ("$14", 14),
   ("$t7", 15), ("$15", 15), ("$s0", 16), ("$16", 16), ("$s1", 17), ("$17", 17),
   ("$s2", 18), ("$18", 18), ("$s3", 19), ("$19", 19), ("$s4", 20), ("$20", 20),
   ("$s5", 21), ("$21", 21), ("$s6", 22), ("$22", 22), ("$s7", 23), ("$23", 23),
   ("$t8", 24), ("$24", 24), ("$t9", 25), ("$25", 25), ("$k0", 26), ("$26", 26),
   ("$k1", 27), ("$27", 27), ("$gp", 28), ("$28", 28), ("$sp", 29), ("$29", 29),
   ("$fp", 30), ("$30", 30), ("$ra", 31), ("$31", 31)]

/-- `R_TYPE_FORMATS` from `mips_consts.py`: ordered operand roles. -/
def R_TYPE_FORMATS : List (String × List String) :=
  [("add", ["rd", "rs", "rt"]), ("addu", ["rd", "rs", "rt"]),
   ("sub", ["rd", "rs", "rt"]), ("subu", ["rd", "rs", "rt"]),
   ("and", ["rd", "rs", "rt"]), ("or", ["rd", "rs", "rt"]),
   ("xor", ["rd", "rs", "rt"]), ("nor", ["rd", "rs", "rt"]),
   ("slt", ["rd", "rs", "rt"]), ("sltu", ["rd", "rs", "rt"]),
   ("sllv", ["rd", "rt", "rs"]), ("srlv", ["rd", "rt", "rs"]),
   ("srav", ["rd", "rt", "rs"]),
   ("sll", ["rd", "rt", "shamt"]), ("srl", ["rd", "rt", "shamt"]),
   ("sra", ["rd", "rt", "shamt"]),
   ("jr", ["rs"]), ("mthi", ["rs"]), ("mtlo", ["rs"]),
   ("mfhi", ["rd"]), ("mflo", ["rd"]),
   ("mult", ["rs", "rt"]), ("multu", ["rs", "rt"]),
   ("div", ["rs", "rt"]), ("divu", ["rs", "rt"]),
   ("jalr", ["rd", "rs"]), ("syscall", []), ("break", [])]

/-- `I_TYPE_FORMATS` from `mips_consts.py`. -/
def I_TYPE_FORMATS : List (String × List String) :=
  [("addi", ["rt", "rs", "imm"]), ("addiu", ["rt", "rs", "imm"]),
   ("slti", ["rt", "rs", "imm"]), ("sltiu", ["rt", "rs", "imm"]),
   ("andi", ["rt", "rs", "imm"]), ("ori", ["rt", "rs", "imm"]),
   ("xori", ["rt", "rs", "imm"]),
   ("lw", ["rt", "imm", "rs"]), ("sw", ["rt", "imm", "rs"]),
   ("lb", ["rt", "imm", "rs"]), ("lbu", ["rt", "imm", "rs"]),
   ("lh", ["rt", "imm", "rs"]), ("lhu", ["rt", "imm", "rs"]),
   ("sb", ["rt", "imm", "rs"]), ("sh", ["rt", "imm", "rs"]),
   ("lui", ["rt", "imm"]),
   ("beq", ["rs", "rt", "label"]), ("bne", ["rs", "rt", "label"]),
   ("blez", ["rs", "label"]), ("bgtz", ["rs", "label"]),
   ("bltz", ["rs", "label"]), ("bgez", ["rs", "label"]),
   ("bltzal", ["rs", "label"]), ("bgezal", ["rs", "label"])]

/-- `J_TYPE_FORMATS` from `mips_consts.py`. -/
def J_TYPE_FORMATS : List (String × List String) :=
  [("j", ["target"]), ("jal", ["target"])]

/-- `R_TYPE_FUNCT` from `mips_consts.py`. -/
def R_TYPE_FUNCT : List (String × Nat) :=
  [("add", 0x20), ("addu", 0x21), ("sub", 0x22), ("subu", 0x23),
   ("and", 0x24), ("or", 0x25), ("xor", 0x26), ("nor", 0x27),
   ("slt", 0x2a), ("sltu", 0x2b),
   ("sll", 0x00), ("srl", 0x02), ("sra", 0x03),
   ("sllv", 0x04), ("srlv", 0x06), ("srav", 0x07),
   ("jr", 0x08), ("jalr", 0x09),
   ("syscall", 0x0c), ("break", 0x0d),
   ("mfhi", 0x10), ("mthi", 0x11), ("mflo", 0x12), ("mtlo", 0x13),
   ("mult", 0x18), ("multu", 0x19), ("div", 0x1a), ("divu", 0x1b)]

/-- `I_TYPE_OPCODE` from `mips_consts.py`. -/
def I_TYPE_OPCODE : List (String × Nat) :=
  [("addi", 0x8), ("addiu", 0x9), ("slti", 0xa), ("sltiu", 0xb),
   ("andi", 0xc), ("ori", 0xd), ("xori", 0xe), ("lui", 0xf),
   ("lw", 0x23), ("lb", 0x20), ("lh", 0x21), ("lbu", 0x24), ("lhu", 0x25),
   ("sw", 0x2b), ("sb", 0x28), ("sh", 0x29),
   ("beq", 0x4), ("bne", 0x5),
   ("blez", 0x6), ("bgtz", 0x7),
   ("bltz", 0x1), ("bgez", 0x1), ("bltzal", 0x1), ("bgezal", 0x1)]

/-- `J_TYPE_OPCODE` from `mips_consts.py`. -/
def J_TYPE_OPCODE : List (String × Nat) :=
  [("j", 0x2), ("jal", 0x3)]

/-- `OPCODE_MAP_REV` from `mips_consts.py`, written out as the association
list that the source's dict comprehension produces (inversion of
`I_TYPE_OPCODE` without the four REGIMM mnemonics, plus J-type entries and
the final `blez`/`bgtz` overrides; the `0x0`/`0x1` placeholder entries are
never looked up by the disassembler, which tests those opcodes first). -/
def OPCODE_MAP_REV : List (Nat × String) :=
  [(0x0, "R-type"), (0x1, "REGIMM"),
   (0x8, "addi"), (0x9, "addiu"), (0xa, "slti"), (0xb, "sltiu"),
   (0xc, "andi"), (0xd, "ori"), (0xe, "xori"), (0xf, "lui"),
   (0x23, "lw"), (0x20, "lb"), (0x21, "lh"), (0x24, "lbu"), (0x25, "lhu"),
   (0x2b, "sw"), (0x28, "sb"), (0x29, "sh"),
   (0x4, "beq"), (0x5, "bne"),
   (0x2, "j"), (0x3, "jal"),
   (0x6, "blez"), (0x7, "bgtz")]

/-- `FUNCT_MAP_REV` from `mips_consts.py`: inversion of `R_TYPE_FUNCT`
(all funct values are distinct, so the inversion is exact). -/
def FUNCT_MAP_REV : List (Nat × String) :=
  [(0x20, "add"), (0x21, "addu"), (0x22, "sub"), (0x23, "subu"),
   (0x24, "and"), (0x25, "or"), (0x26, "xor"), (0x27, "nor"),
   (0x2a, "slt"), (0x2b, "sltu"),
   (0x00, "sll"), (0x02, "srl"), (0x03, "sra"),
   (0x04, "sllv"), (0x06, "srlv"), (0x07, "srav"),
   (0x08, "jr"), (0x09, "jalr"),
   (0x0c, "syscall"), (0x0d, "break"),
   (0x10, "mfhi"), (0x11, "mthi"), (0x12, "mflo"), (0x13, "mtlo"),
   (0x18, "mult"), (0x19, "multu"), (0x1a, "div"), (0x1b, "divu")]

/-- `REGIMM_RT_MAP_REV` from `mips_consts.py`. -/
def REGIMM_RT_MAP_REV : List (Nat × String) :=
  [(0x0, "bltz"), (0x1, "bgez"), (0x10, "bltzal"), (0x11, "bgezal")]

/-- `PSEUDO_INSTRUCTIONS` from `mips_consts.py`: pseudo name to handler key. -/
def PSEUDO_INSTRUCTIONS : List (String × String) :=
  [("move", "_expand_move"), ("clear", "_expand_clear"), ("nop", "_expand_nop"),
   ("li", "_expand_li"), ("la", "_expand_la"),
   ("blt", "_expand_blt"), ("bgt", "_expand_bgt"),
   ("ble", "_expand_ble"), ("bge", "_expand_bge")]

/-! ### Integer helpers mirroring Python semantics -/

/-- Python `x & (2^k - 1)` for an arbitrary integer `x` (two's-complement
truncation to `k` bits, always non-negative). -/
def maskBits (x : Int) (k : Nat) : Nat := (x.emod (2 ^ k)).toNat

/-- `_sign_extend_imm` from `mips_simulator.py`/`mips_disassembler.py`
(specialised to its only use, `bits = 16`). -/
def sign_extend_imm (imm : Nat) (bits : Nat := 16) : Int :=
  if imm / 2 ^ (bits - 1) % 2 = 1 then (imm : Int) - (2 : Int) ^ bits else (imm : Int)

/-- `to_signed_32` from `mips_simulator.py`. -/
def to_signed_32 (unsigned_val : Nat) : Int :=
  let u : Nat := unsigned_val % 2 ^ 32
  if u ≥ 2 ^ 31 then (u : Int) - 2 ^ 32 else (u : Int)

/-! ### Character-level string helpers

The Python sources manipulate strings with `str.strip`, `str.split`,
`re.split(r'\s+', ...)`, and small regular expressions.  The embedding
processes `List Char` directly. -/

/-- Python `str.lower()` restricted to the ASCII fragment used by the
sources (`Char.toLower` on each character). -/
def lowerString (s : String) : String := String.mk (s.data.map Char.toLower)

/-- Whitespace test used for `strip` / `\s`. -/
def isSpaceChar (c : Char) : Bool :=
  c = ' ' || c = '\t' || c = '\n' || c = '\r' || c = '\x0b' || c = '\x0c'

/-- Left-trim. -/
def trimLeft (cs : List Char) : List Char := cs.dropWhile isSpaceChar

/-- Python `str.strip()`. -/
def trimChars (cs : List Char) : List Char :=
  ((trimLeft cs).reverse.dropWhile isSpaceChar).reverse

/-- First character of an identifier: `[a-zA-Z_]`. -/
def isIdentStart (c : Char) : Bool :=
  ('a' ≤ c && c ≤ 'z') || ('A' ≤ c && c ≤ 'Z') || c = '_'

/-- Subsequent identifier characters: `[a-zA-Z0-9_]`. -/
def isIdentChar (c : Char) : Bool :=
  isIdentStart c || ('0' ≤ c && c ≤ '9')

/-- Decimal digit test. -/
def isDigitChar (c : Char) : Bool := '0' ≤ c && c ≤ '9'

/-- Value of a digit character in base up to 16 (upper or lower case),
`none` for non-digits. -/
def digitVal (c : Char) : Option Nat :=
  if '0' ≤ c && c ≤ '9' then some (c.toNat - 48)
  else if 'a' ≤ c && c ≤ 'f' then some (c.toNat - 87)
  else if 'A' ≤ c && c ≤ 'F' then some (c.toNat - 55)
  else none

/-- Parse a non-empty run of digits in the given base. -/
def parseDigits (base : Nat) : List Char → Nat → Option Nat
  | [], acc => some acc
  | c :: cs, acc =>
    match digitVal c with
    | some d => if d < base then parseDigits base cs (acc * base + d) else none
    | none => none

/-- Non-empty digit check helper: `parseDigits` on an empty list returns the
accumulator, so callers require the digit list to be non-empty. -/
def parseDigitsNE (base : Nat) (cs : List Char) : Option Nat :=
  if cs.isEmpty then none else parseDigits base cs 0

/-- Python `int(s, 0)`: optional sign, then `0x`/`0X` hex, `0o`/`0O` octal,
`0b`/`0B` binary, or decimal with no leading zero (unless the value is
zero).  Surrounding whitespace is tolerated as in Python. -/
def pyParseIntBase0 (s : String) : Option Int :=
  let cs := trimChars s.data
  let (sign, cs) :=
    match cs with
    | '-' :: rest => ((-1 : Int), rest)
    | '+' :: rest => ((1 : Int), rest)
    | _ => ((1 : Int), cs)
  let mag : Option Nat :=
    match cs with
    | '0' :: x :: rest =>
      if x = 'x' || x = 'X' then parseDigitsNE 16 rest
      else if x = 'o' || x = 'O' then parseDigitsNE 8 rest
      else if x = 'b' || x = 'B' then parseDigitsNE 2 rest
      else
        -- decimal with a leading zero: Python accepts only if all digits
        -- are zero (e.g. "00"), otherwise raises ValueError
        if (x :: rest).all (fun c => c = '0') then some 0 else none
    | _ =>
      if cs.all isDigitChar then parseDigitsNE 10 cs else none
  match mag with
  | some m => some (sign * m)
  | none => none

/-- Python `int(s, 16)` as used by the simulator's loader: optional sign,
optional `0x`/`0X` prefix, then hex digits. -/
def pyParseInt16 (s : String) : Option Int :=
  let cs := trimChars s.data
  let (sign, cs) :=
    match cs with
    | '-' :: rest => ((-1 : Int), rest)
    | '+' :: rest => ((1 : Int), rest)
    | _ => ((1 : Int), cs)
  let cs :=
    match cs with
    | '0' :: x :: rest => if x = 'x' || x = 'X' then rest else '0' :: x :: rest
    | _ => cs
  match parseDigitsNE 16 cs with
  | some m => some (sign * m)
  | none => none

/-- Python `int(s)` (base 10) as used by `_parse_memory_operand`:
optional sign then decimal digits (leading zeros allowed in base 10). -/
def pyParseInt10 (s : String) : Option Int :=
  let cs := trimChars s.data
  let (sign, cs) :=
    match cs with
    | '-' :: rest => ((-1 : Int), rest)
    | '+' :: rest => ((1 : Int), rest)
    | _ => ((1 : Int), cs)
  if cs.all isDigitChar then
    match parseDigitsNE 10 cs with
    | some m => some (sign * m)
    | none => none
  else none

end Mips

namespace Mips

/-! ### Assembler error model

Structured counterparts of the distinct formatted error-message strings
added via `MipsAssembler._add_error`. -/

/-- Error messages of `mips_assembler.py`, one constructor per distinct
message format string. -/
inductive AsmMsg where
  | emptyRegister
  | invalidRegister (r : String)
  | emptyImmediate
  | invalidImmediate (s : String)
  | immOutOfRange (s : String) (bits : Nat) (signed : Bool)
  | invalidMemoryOperand (s : String)
  | duplicateLabel (l : String)
  | unknownInstruction (s : String)
  | undefinedLabel (l : String)
  | branchNotAligned (l : String)
  | branchTooFar (l : String)
  | operandCount (instr : String) (expected got : Nat)
  | internalUnknownInstr (s : String)
  | internalUnknownRegimm (s : String)
  | internalEncodingExn (s : String)
  | invalidJumpTarget (s : String)
  | jumpNotAligned (target : Int)
deriving DecidableEq

/-- An entry of `self.errors`: line number plus message. -/
structure AsmErr where
  line : Nat
  msg : AsmMsg
deriving DecidableEq

/-- `MipsAssembler._add_error`: append unless an identical (line, message)
pair is already present. -/
def add_error (errors : List AsmErr) (e : AsmErr) : List AsmErr :=
  if errors.contains e then errors else errors ++ [e]

/-- `MipsAssembler._parse_register`. -/
def parse_register (reg_str : String) : Except AsmMsg Nat :=
  if reg_str = "" then .error .emptyRegister
  else
    match List.lookup (lowerString reg_str) REGISTER_MAP with
    | some n => .ok n
    | none => .error (.invalidRegister reg_str)

/-- `MipsAssembler._parse_immediate`: parse a dec/hex immediate and
range-check it; for signed immediates the returned value is the
two's-complement `bits`-bit pattern. -/
def parse_immediate (imm_str : String) (bits : Nat) (signed : Bool) :
    Except AsmMsg Nat :=
  if imm_str = "" then .error .emptyImmediate
  else
    match pyParseIntBase0 imm_str with
    | none => .error (.invalidImmediate imm_str)
    | some val =>
      if signed then
        if -((2 : Int) ^ (bits - 1)) ≤ val ∧ val ≤ 2 ^ (bits - 1) - 1 then
          .ok (maskBits val bits)
        else .error (.immOutOfRange imm_str bits signed)
      else
        if 0 ≤ val ∧ val ≤ (2 : Int) ^ bits - 1 then .ok val.toNat
        else .error (.immOutOfRange imm_str bits signed)

/-- Alphanumeric test `[a-zA-Z0-9]` for register names inside memory
operands. -/
def isAlnumChar (c : Char) : Bool :=
  ('a' ≤ c && c ≤ 'z') || ('A' ≤ c && c ≤ 'Z') || isDigitChar c

/-- `MipsAssembler._parse_memory_operand`: parse `offset($reg)` or
`($reg)`, mirroring the source's regular expression
`^\s*(-?\d+)?\s*\(\s*(\$[a-zA-Z0-9]+)\s*\)\s*$`. -/
def parse_memory_operand (s : String) : Option (Int × String) :=
  let cs := trimLeft s.data
  let (numPart, rest) :=
    match cs with
    | '-' :: cs2 =>
      let ds := cs2.takeWhile isDigitChar
      if ds.isEmpty then ((none : Option Int), cs)
      else ((pyParseInt10 (String.mk ('-' :: ds))), cs2.drop ds.length)
    | _ =>
      let ds := cs.takeWhile isDigitChar
      if ds.isEmpty then ((none : Option Int), cs)
      else ((pyParseInt10 (String.mk ds)), cs.drop ds.length)
  match trimLeft rest with
  | '(' :: rest2 =>
    match trimLeft rest2 with
    | '$' :: rest3 =>
      let nm := rest3.takeWhile isAlnumChar
      if nm.isEmpty then none
      else
        match trimLeft (rest3.drop nm.length) with
        | ')' :: rest4 =>
          if (trimLeft rest4).isEmpty then
            some (numPart.getD 0, String.mk ('$' :: nm))
          else none
        | _ => none
    | _ => none
  | _ => none

/-! ### Parsed lines (`MipsAssembler._parse_line`)

Directive lines (the `.data`/`.word`/... machinery) are outside the
fragment exercised here: the embedding parses them to `none`.  All the
programs reasoned about below are directive-free `.text` programs, for
which the address/segment bookkeeping of the source degenerates to the
instruction-only path embedded in `first_pass_go` and `pass_2a_go`. -/

/-- A parsed source line (label-only or instruction). -/
inductive ParsedLine where
  | labelOnly (label : String) (line_num : Nat)
  | instr (label : Option String) (instruction : String)
      (operands : List String) (line_num : Nat)
deriving DecidableEq

/-- Label attached to a parsed line, if any. -/
def ParsedLine.labelOf : ParsedLine → Option String
  | .labelOnly l _ => some l
  | .instr l _ _ _ => l

/-- Source line number of a parsed line. -/
def ParsedLine.lineOf : ParsedLine → Nat
  | .labelOnly _ n => n
  | .instr _ _ _ n => n

/-- Split a character list at commas (Python `str.split(',')`). -/
def splitOnComma : List Char → List (List Char)
  | [] => [[]]
  | c :: cs =>
    let r := splitOnComma cs
    if c = ',' then [] :: r
    else
      match r with
      | h :: t => (c :: h) :: t
      | [] => [[c]]

/-- Comma-split, trim each piece, drop empty pieces (operand splitting in
`_parse_line`). -/
def splitCommasTrim (cs : List Char) : List String :=
  ((splitOnComma cs).map (fun p => String.mk (trimChars p))).filter
    (fun s => s ≠ "")

/-- Mnemonics whose second operand is rewritten from `offset($reg)` form
(`is_memory_op` list in `_parse_line`). -/
def MEMORY_OP_MNEMONICS : List String :=
  ["lw", "sw", "lb", "sb", "lh", "sh", "lbu", "lhu", "lwl", "lwr", "swl", "swr"]

/-- `MipsAssembler._parse_line`: comment stripping, optional label,
instruction/operand tokenization, and the memory-operand rewrite
`rt, offset($rs)` into `[rt, offset, rs]`.  The second component is the
error (if any) added by `_parse_memory_operand` during parsing. -/
def parse_line (line : String) (line_num : Nat) :
    Option ParsedLine × Option AsmMsg :=
  let cs := trimChars (line.data.takeWhile (fun c => c ≠ '#'))
  if cs.isEmpty then (none, none)
  else
    let (label, cs2) :=
      match cs with
      | c :: rest =>
        if isIdentStart c then
          let nm := rest.takeWhile isIdentChar
          match rest.drop nm.length with
          | ':' :: after => (some (String.mk (c :: nm)), trimChars after)
          | _ => ((none : Option String), c :: rest)
        else ((none : Option String), c :: rest)
      | [] => ((none : Option String), ([] : List Char))
    if cs2.isEmpty then
      match label with
      | some l => (some (.labelOnly l line_num), none)
      | none => (none, none)
    else
      match cs2 with
      | '.' :: _ => (none, none)
      | _ =>
        let instrCs := cs2.takeWhile (fun c => !(isSpaceChar c))
        let restCs := trimLeft (cs2.drop instrCs.length)
        let instruction := lowerString (String.mk instrCs)
        let operands := splitCommasTrim restCs
        if MEMORY_OP_MNEMONICS.contains instruction ∧ operands.length = 2 then
          match operands with
          | [regOp, memOp] =>
            match parse_memory_operand memOp with
            | some (off, baseReg) =>
              (some (.instr label instruction [regOp, toString off, baseReg]
                line_num), none)
            | none =>
              (some (.instr label instruction operands line_num),
               some (.invalidMemoryOperand memOp))
          | _ => (some (.instr label instruction operands line_num), none)
        else (some (.instr label instruction operands line_num), none)

end Mips

namespace Mips

/-! ### Instruction encoders (`mips_assembler.py`, pass 2b) -/

/-- A base instruction descriptor as consumed by the encoders
(`instr_details` dictionaries of pass 2a/2b). -/
structure InstrDetails where
  instruction : String
  operands : List String
  address : Nat
  line_num : Nat
deriving DecidableEq

/-- Operand values accumulated by `_encode_r_type`'s parsing loop
(the `vals` dictionary). -/
structure RVals where
  rd : Option Nat := none
  rs : Option Nat := none
  rt : Option Nat := none
  shamt : Option Nat := none
deriving DecidableEq

/-- Store a parsed operand under its role name (`vals[op_type] = ...`). -/
def RVals.setField (v : RVals) (name : String) (n : Nat) : RVals :=
  if name = "rd" then { v with rd := some n }
  else if name = "rs" then { v with rs := some n }
  else if name = "rt" then { v with rt := some n }
  else if name = "shamt" then { v with shamt := some n }
  else v

/-- The operand-parsing loop of `_encode_r_type`.  An operand list shorter
than the expected format produces `internalEncodingExn`, modelling the
`IndexError` that pass 2b catches and converts into an error entry. -/
def parseROps : List String → List String → RVals → Except AsmMsg RVals
  | [], _, acc => .ok acc
  | opType :: restT, ops, acc =>
    match ops with
    | [] => .error (.internalEncodingExn "r-type")
    | opStr :: restO =>
      if opType = "rd" || opType = "rs" || opType = "rt" then
        match parse_register opStr with
        | .ok n => parseROps restT restO (acc.setField opType n)
        | .error e => .error e
      else if opType = "shamt" then
        match parse_immediate opStr 5 false with
        | .ok n => parseROps restT restO (acc.setField "shamt" n)
        | .error e => .error e
      else parseROps restT restO acc

/-- `MipsAssembler._encode_r_type`.  The word layout is
`opcode(=0) rs rt rd shamt funct`, rendered arithmetically. -/
def encode_r_type (d : InstrDetails) : Except AsmMsg Nat :=
  let instr := d.instruction
  let functO : Option Nat :=
    if instr = "syscall" then some 0x0c
    else if instr = "break" then some 0x0d
    else List.lookup instr R_TYPE_FUNCT
  match functO with
  | none => .error (.internalUnknownInstr instr)
  | some funct =>
    let expected := (List.lookup instr R_TYPE_FORMATS).getD []
    if instr = "jalr" then
      match d.operands with
      | [rsOp] =>
        match parse_register rsOp with
        | .ok rs => .ok (rs * 2 ^ 21 + 31 * 2 ^ 11 + funct)
        | .error e => .error e
      | [rdOp, rsOp] =>
        match parse_register rdOp, parse_register rsOp with
        | .ok rd, .ok rs => .ok (rs * 2 ^ 21 + rd * 2 ^ 11 + funct)
        | .error e, _ => .error e
        | .ok _, .error e => .error e
      | _ => .error (.operandCount instr 2 d.operands.length)
    else
      if d.operands.length ≠ expected.length then
        .error (.operandCount instr expected.length d.operands.length)
      else
        match parseROps expected d.operands {} with
        | .error e => .error e
        | .ok vals =>
          .ok ((vals.rs.getD 0) * 2 ^ 21 + (vals.rt.getD 0) * 2 ^ 16 +
               (vals.rd.getD 0) * 2 ^ 11 + (vals.shamt.getD 0) * 2 ^ 6 + funct)

/-- Mnemonics whose 16-bit immediate is parsed unsigned
(`instr not in ['andi','ori','xori','lui','sltiu']` in the source). -/
def UNSIGNED_IMM_MNEMONICS : List String := ["andi", "ori", "xori", "lui", "sltiu"]

/-- Memory-access mnemonics recognized by `_encode_i_type`'s operand-count
exception. -/
def I_MEM_MNEMONICS : List String := ["lw", "sw", "lb", "sb", "lh", "sh", "lbu", "lhu"]

/-- Operand values accumulated by `_encode_i_type`'s parsing loop. -/
structure IVals where
  rs : Option Nat := none
  rt : Option Nat := none
  imm : Option Nat := none
deriving DecidableEq

/-- Store a parsed operand under its role name. -/
def IVals.setField (v : IVals) (name : String) (n : Nat) : IVals :=
  if name = "rt" then { v with rt := some n }
  else if name = "rs" then { v with rs := some n }
  else if name = "imm" then { v with imm := some n }
  else v

/-- `MipsAssembler._resolve_label`. -/
def resolve_label (st : List (String × Nat)) (label_name : String) : Option Nat :=
  List.lookup label_name st

/-- The operand-parsing loop of `_encode_i_type`: registers, immediates
(signedness depending on the mnemonic), and branch labels resolved to a
16-bit two's-complement word offset `(target - (address + 4)) / 4`. -/
def parseIOps (instr : String) (st : List (String × Nat)) (address : Nat) :
    List String → List String → IVals → Except AsmMsg IVals
  | [], _, acc => .ok acc
  | opType :: restT, ops, acc =>
    match ops with
    | [] => .error (.internalEncodingExn instr)
    | opStr :: restO =>
      if opType = "rt" || opType = "rs" then
        match parse_register opStr with
        | .ok n => parseIOps instr st address restT restO (acc.setField opType n)
        | .error e => .error e
      else if opType = "imm" then
        match parse_immediate opStr 16 (!(UNSIGNED_IMM_MNEMONICS.contains instr)) with
        | .ok n => parseIOps instr st address restT restO (acc.setField "imm" n)
        | .error e => .error e
      else if opType = "label" then
        match resolve_label st opStr with
        | none => .error (.undefinedLabel opStr)
        | some target =>
          let pc4 : Int := (address : Int) + 4
          let byte_offset : Int := (target : Int) - pc4
          if byte_offset.emod 4 ≠ 0 then .error (.branchNotAligned opStr)
          else
            let word_offset : Int := byte_offset.fdiv 4
            if -(2 ^ 15) ≤ word_offset ∧ word_offset ≤ 2 ^ 15 - 1 then
              parseIOps instr st address restT restO
                (acc.setField "imm" (maskBits word_offset 16))
            else .error (.branchTooFar opStr)
      else parseIOps instr st address restT restO acc

/-- `MipsAssembler._encode_i_type`.  The word layout is
`opcode rs rt imm16`; REGIMM mnemonics overwrite the `rt` field with their
fixed selector value, `blez`/`bgtz` force `rt = 0`. -/
def encode_i_type (st : List (String × Nat)) (d : InstrDetails) :
    Except AsmMsg Nat :=
  match List.lookup d.instruction I_TYPE_OPCODE with
  | none => .error (.internalUnknownInstr d.instruction)
  | some opcode =>
    let expected := (List.lookup d.instruction I_TYPE_FORMATS).getD []
    if d.operands.length ≠ expected.length ∧
        ¬(I_MEM_MNEMONICS.contains d.instruction = true ∧ expected.length = 3 ∧
          0 < d.operands.length) then
      .error (.operandCount d.instruction expected.length d.operands.length)
    else
      match parseIOps d.instruction st d.address expected d.operands {} with
      | .error e => .error e
      | .ok vals =>
        let rs_val := vals.rs.getD 0
        let imm_val := vals.imm.getD 0
        if opcode = 0x1 then
          if d.instruction = "bltz" then
            .ok (opcode * 2 ^ 26 + rs_val * 2 ^ 21 + 0x00 * 2 ^ 16 + imm_val)
          else if d.instruction = "bgez" then
            .ok (opcode * 2 ^ 26 + rs_val * 2 ^ 21 + 0x01 * 2 ^ 16 + imm_val)
          else if d.instruction = "bltzal" then
            .ok (opcode * 2 ^ 26 + rs_val * 2 ^ 21 + 0x10 * 2 ^ 16 + imm_val)
          else if d.instruction = "bgezal" then
            .ok (opcode * 2 ^ 26 + rs_val * 2 ^ 21 + 0x11 * 2 ^ 16 + imm_val)
          else .error (.internalUnknownRegimm d.instruction)
        else if d.instruction = "blez" ∨ d.instruction = "bgtz" then
          .ok (opcode * 2 ^ 26 + rs_val * 2 ^ 21 + 0 * 2 ^ 16 + imm_val)
        else
          .ok (opcode * 2 ^ 26 + rs_val * 2 ^ 21 + (vals.rt.getD 0) * 2 ^ 16 + imm_val)

/-- `MipsAssembler._encode_j_type`: resolve the target as a label or a
literal absolute address, require word alignment, and encode
`(target >> 2) & 0x3FFFFFF` under opcode.  (The 256MB segment-crossing
check of the source is a log-only warning with no effect on the result.) -/
def encode_j_type (st : List (String × Nat)) (d : InstrDetails) :
    Except AsmMsg Nat :=
  match List.lookup d.instruction J_TYPE_OPCODE with
  | none => .error (.internalUnknownInstr d.instruction)
  | some opcode =>
    let expected := (List.lookup d.instruction J_TYPE_FORMATS).getD []
    if d.operands.length ≠ expected.length then
      .error (.operandCount d.instruction expected.length d.operands.length)
    else
      match d.operands with
      | [] => .error (.internalEncodingExn d.instruction)
      | target_str :: _ =>
        let targetO : Option Int :=
          match List.lookup target_str st with
          | some a => some (a : Int)
          | none => pyParseIntBase0 target_str
        match targetO with
        | none => .error (.invalidJumpTarget target_str)
        | some target_addr =>
          if target_addr.emod 4 ≠ 0 then .error (.jumpNotAligned target_addr)
          else .ok (opcode * 2 ^ 26 + maskBits (target_addr.fdiv 4) 26)

/-- The per-instruction dispatch of pass 2b: choose the encoder by table
membership of the mnemonic. -/
def encode_instruction (st : List (String × Nat)) (d : InstrDetails) :
    Except AsmMsg Nat :=
  if (List.lookup d.instruction R_TYPE_FUNCT).isSome then encode_r_type d
  else if (List.lookup d.instruction I_TYPE_OPCODE).isSome then encode_i_type st d
  else if (List.lookup d.instruction J_TYPE_OPCODE).isSome then encode_j_type st d
  else .error (.internalUnknownInstr d.instruction)

/-- Pass 2b (`second_pass`, encoding loop): encode instructions in order,
appending one word per instruction; the first encoding failure records the
error and stops, emitting no word for the failing instruction nor for any
later one. -/
def pass_2b (st : List (String × Nat)) : List InstrDetails → List Nat × List AsmErr
  | [] => ([], [])
  | d :: rest =>
    match encode_instruction st d with
    | .ok w =>
      let (ws, es) := pass_2b st rest
      (w :: ws, es)
    | .error e => ([], [⟨d.line_num, e⟩])

end Mips

namespace Mips

/-! ### Pseudo-instruction expansion (`mips_consts.py` handlers) -/

/-- `_expand_move`: `move dst, src` becomes `add dst, src, $zero`. -/
def expand_move (ops : List String) : Option (List (String × List String)) :=
  match ops with
  | [dst, src] => some [("add", [dst, src, "$zero"])]
  | _ => none

/-- `_expand_clear`: `clear dst` becomes `add dst, $zero, $zero`. -/
def expand_clear (ops : List String) : Option (List (String × List String)) :=
  match ops with
  | [dst] => some [("add", [dst, "$zero", "$zero"])]
  | _ => none

/-- `_expand_nop`: always `sll $zero, $zero, 0` (operands are ignored). -/
def expand_nop (_ : List String) : Option (List (String × List String)) :=
  some [("sll", ["$zero", "$zero", "0"])]

/-- `_expand_li`: `addiu` for 16-bit signed immediates, `ori` for 16-bit
unsigned, otherwise `lui` (plus `ori` when the low half is non-zero;
a zero low half retargets the `lui` to the destination). -/
def expand_li (ops : List String) : Option (List (String × List String)) :=
  match ops with
  | [dst, immStr] =>
    match pyParseIntBase0 immStr with
    | none => none
    | some imm_val =>
      if -(2 ^ 15) ≤ imm_val ∧ imm_val ≤ 2 ^ 15 - 1 then
        some [("addiu", [dst, "$zero", toString imm_val])]
      else if 0 ≤ imm_val ∧ imm_val ≤ 0xFFFF then
        some [("ori", [dst, "$zero", toString imm_val])]
      else
        let upper := maskBits (imm_val.fdiv (2 ^ 16)) 16
        let lower := maskBits imm_val 16
        if lower ≠ 0 then
          some [("lui", ["$at", toString upper]), ("ori", [dst, "$at", toString lower])]
        else some [("lui", [dst, toString upper])]
  | _ => none

/-- `_expand_la`: identical upper/lower splitting applied to a label's
address; an unknown label makes the handler return `None`. -/
def expand_la (st : List (String × Nat)) (ops : List String) :
    Option (List (String × List String)) :=
  match ops with
  | [dst, label] =>
    match List.lookup label st with
    | none => none
    | some addr =>
      let upper := addr / 2 ^ 16 % 2 ^ 16
      let lower := addr % 2 ^ 16
      if lower ≠ 0 then
        some [("lui", ["$at", toString upper]), ("ori", [dst, "$at", toString lower])]
      else some [("lui", [dst, toString upper])]
  | _ => none

/-- `_expand_branch_pseudo`: comparison (`slt`) into `$at` followed by
`bne`/`beq` against `$zero`. -/
def expand_branch_pseudo (condition_instr : String) (invert_branch : Bool)
    (ops : List String) : Option (List (String × List String)) :=
  match ops with
  | [rs, rt, label] =>
    some [(condition_instr, ["$at", rs, rt]),
          (if invert_branch then "beq" else "bne", ["$at", "$zero", label])]
  | _ => none

/-- `_expand_blt`. -/
def expand_blt (ops : List String) : Option (List (String × List String)) :=
  expand_branch_pseudo "slt" false ops

/-- `_expand_bgt` (swaps the compared registers). -/
def expand_bgt (ops : List String) : Option (List (String × List String)) :=
  match ops with
  | [rs, rt, label] => expand_branch_pseudo "slt" false [rt, rs, label]
  | _ => none

/-- `_expand_ble` (swaps the compared registers and inverts the branch). -/
def expand_ble (ops : List String) : Option (List (String × List String)) :=
  match ops with
  | [rs, rt, label] => expand_branch_pseudo "slt" true [rt, rs, label]
  | _ => none

/-- `_expand_bge` (inverts the branch). -/
def expand_bge (ops : List String) : Option (List (String × List String)) :=
  expand_branch_pseudo "slt" true ops

/-- `PSEUDO_HANDLERS` dispatch: handler key to expansion function.  Every
key appearing in `PSEUDO_INSTRUCTIONS` has a handler, so the source's
"no handler found" error path is unreachable and not modelled. -/
def run_pseudo_handler (key : String) (st : List (String × Nat))
    (ops : List String) : Option (List (String × List String)) :=
  if key = "_expand_move" then expand_move ops
  else if key = "_expand_clear" then expand_clear ops
  else if key = "_expand_nop" then expand_nop ops
  else if key = "_expand_li" then expand_li ops
  else if key = "_expand_la" then expand_la st ops
  else if key = "_expand_blt" then expand_blt ops
  else if key = "_expand_bgt" then expand_bgt ops
  else if key = "_expand_ble" then expand_ble ops
  else if key = "_expand_bge" then expand_bge ops
  else none

/-! ### Pass 1 and pass 2a (`first_pass` / `second_pass` of
`mips_assembler.py`, restricted to the directive-free `.text` fragment) -/

/-- Size estimate used by pass 1's address cursor: 8 bytes for the
pseudo-instructions known to expand to two base instructions, 4 bytes
otherwise. -/
def instrEstimate (name : String) : Nat :=
  match List.lookup name PSEUDO_INSTRUCTIONS with
  | some hk =>
    if hk = "_expand_li" ∨ hk = "_expand_la" ∨ hk = "_expand_blt" ∨
        hk = "_expand_bgt" ∨ hk = "_expand_ble" ∨ hk = "_expand_bge" then 8
    else 4
  | none => 4

/-- Append an optional parse-time error. -/
def addOptErr (errs : List AsmErr) (ln : Nat) : Option AsmMsg → List AsmErr
  | some m => add_error errs ⟨ln, m⟩
  | none => errs

/-- Pass 1 over the raw source lines: parse each line, record labels at
the current (estimated) address, flag duplicate labels, and advance the
address cursor by the per-instruction estimate.  Returns the parsed
lines, the symbol table, and the accumulated errors. -/
def first_pass_go : List (List Char) → Nat → List (String × Nat) → Nat →
    List AsmErr → List ParsedLine → List ParsedLine × List (String × Nat) × List AsmErr
  | [], _, st, _, errs, acc => (acc, st, errs)
  | l :: rest, ln, st, addr, errs, acc =>
    match parse_line (String.mk l) ln with
    | (none, eOpt) => first_pass_go rest (ln + 1) st addr (addOptErr errs ln eOpt) acc
    | (some pl, eOpt) =>
      let errs := addOptErr errs ln eOpt
      let (st, errs) :=
        match pl.labelOf with
        | some lbl =>
          if (List.lookup lbl st).isSome then
            (st, add_error errs ⟨ln, .duplicateLabel lbl⟩)
          else (st ++ [(lbl, addr)], errs)
        | none => (st, errs)
      match pl with
      | .labelOnly _ _ => first_pass_go rest (ln + 1) st addr errs (acc ++ [pl])
      | .instr _ name _ _ =>
        first_pass_go rest (ln + 1) st (addr + instrEstimate name) errs (acc ++ [pl])

/-- Attach exact addresses to an expansion result (the inner loop of pass
2a that appends base instructions 4 bytes apart). -/
def attachAddrs (ln : Nat) : List (String × List String) → Nat → List InstrDetails
  | [], _ => []
  | (name, ops) :: rest, addr => ⟨name, ops, addr, ln⟩ :: attachAddrs ln rest (addr + 4)

/-- Pass 2a: expand pseudo-instructions, pass base instructions through,
flag unknown mnemonics, and assign exact running addresses (4 bytes per
base instruction).  Once any error has been recorded, no further base
instructions are collected (`if not base_instr or self.errors: continue`). -/
def pass_2a_go (st : List (String × Nat)) : List ParsedLine → Nat →
    List InstrDetails → List AsmErr → List InstrDetails × List AsmErr
  | [], _, acc, errs => (acc, errs)
  | pl :: rest, addr, acc, errs =>
    match pl with
    | .labelOnly _ _ => pass_2a_go st rest addr acc errs
    | .instr _ name ops ln =>
      let (expanded, errs) :=
        match List.lookup name PSEUDO_INSTRUCTIONS with
        | some hk =>
          match run_pseudo_handler hk st ops with
          | some lst => (lst, errs)
          | none => (([] : List (String × List String)), errs)
        | none =>
          if (List.lookup name R_TYPE_FUNCT).isSome ∨
              (List.lookup name I_TYPE_OPCODE).isSome ∨
              (List.lookup name J_TYPE_OPCODE).isSome then
            ([(name, ops)], errs)
          else (([] : List (String × List String)), add_error errs ⟨ln, .unknownInstruction name⟩)
      if errs.isEmpty then
        pass_2a_go st rest (addr + 4 * expanded.length)
          (acc ++ attachAddrs ln expanded addr) errs
      else pass_2a_go st rest addr acc errs

/-- Assembly result: machine words (as 32-bit integers) and errors. -/
structure AsmResult where
  machine_code : List Nat
  errors : List AsmErr
deriving DecidableEq

/-- `second_pass`: pass 2a (expansion and addressing), aborting code
emission when errors exist, then pass 2b (encoding). -/
def second_pass (st : List (String × Nat)) (lines : List ParsedLine)
    (errs0 : List AsmErr) : List Nat × List AsmErr :=
  let (finalInstrs, errs) := pass_2a_go st lines 0x00400000 [] errs0
  if errs.isEmpty then pass_2b st finalInstrs
  else ([], errs)

/-- Split source text into lines at newline characters. -/
def splitOnNewline : List Char → List (List Char)
  | [] => [[]]
  | c :: cs =>
    let r := splitOnNewline cs
    if c = '\n' then [] :: r
    else
      match r with
      | h :: t => (c :: h) :: t
      | [] => [[c]]

/-- `MipsAssembler.assemble`: run both passes over the source text and
return the machine words and the accumulated errors. -/
def assemble (src : String) : AsmResult :=
  let (parsed, st, errs1) := first_pass_go (splitOnNewline src.data) 1 [] 0x00400000 [] []
  let (ws, errs) := second_pass st parsed errs1
  ⟨ws, errs⟩

end Mips

namespace Mips

/-! ### Disassembler (`mips_disassembler.py`)

`disassemble_instruction` returns formatted strings whose shape is fixed
per mnemonic; the embedding represents each distinct `return` statement by
a constructor carrying exactly the values interpolated into that string
(register numbers stand for their canonical `REGISTER_MAP_REV` names,
which are in bijection with the numbers 0..31). -/

/-- Structured image of `MipsDisassembler.disassemble_instruction`'s
output string, one constructor per return site. -/
inductive Disasm where
  | nop
  | syscall
  | breakI
  | r3 (m : String) (rd rs rt : Nat)
  | rshiftv (m : String) (rd rt rs : Nat)
  | rshift (m : String) (rd rt shamt : Nat)
  | jr (rs : Nat)
  | jalrOne (rs : Nat)
  | jalrTwo (rd rs : Nat)
  | moveToSpecial (m : String) (rs : Nat)
  | moveFromSpecial (m : String) (rd : Nat)
  | multdiv (m : String) (rs rt : Nat)
  | unknownRFormat (m : String) (rd rs rt shamt : Nat)
  | unknownRType (funct : Nat)
  | jump (m : String) (target : Nat)
  | regimm (m : String) (rs : Nat) (target : Int)
  | unknownRegimm (rt : Nat)
  | iSigned (m : String) (rt rs : Nat) (imm : Int)
  | iUnsigned (m : String) (rt rs : Nat) (imm : Nat)
  | iHex (m : String) (rt rs : Nat) (imm : Nat)
  | lui (rt : Nat) (imm : Nat)
  | memAccess (m : String) (rt : Nat) (offset : Int) (rs : Nat)
  | branch2 (m : String) (rs rt : Nat) (target : Int)
  | branch1 (m : String) (rs : Nat) (target : Int)
  | unknownIFormat (m : String) (rs rt imm : Nat)
  | unknownOpcode (opcode : Nat)
deriving DecidableEq

/-- Bit-field extraction `(instruction >> 26) & 0x3F`, shared by the
disassembler and the simulator's decode step. -/
def opcodeOf (w : Nat) : Nat := w / 2 ^ 26 % 64

/-- Field `rs`: bits 25-21. -/
def rsOf (w : Nat) : Nat := w / 2 ^ 21 % 32

/-- Field `rt`: bits 20-16. -/
def rtOf (w : Nat) : Nat := w / 2 ^ 16 % 32

/-- Field `rd`: bits 15-11. -/
def rdOf (w : Nat) : Nat := w / 2 ^ 11 % 32

/-- Field `shamt`: bits 10-6. -/
def shamtOf (w : Nat) : Nat := w / 2 ^ 6 % 32

/-- Field `funct`: bits 5-0. -/
def functOf (w : Nat) : Nat := w % 64

/-- Field `imm`: bits 15-0. -/
def immOf (w : Nat) : Nat := w % 2 ^ 16

/-- Field `addr`: bits 25-0 (J-type). -/
def jaddrOf (w : Nat) : Nat := w % 2 ^ 26

/-- R-type mnemonics rendered as `m rd, rs, rt`. -/
def R3_MNEMONICS : List String :=
  ["add", "addu", "sub", "subu", "and", "or", "xor", "nor", "slt", "sltu"]

/-- R-type mnemonics rendered as `m rd, rt, rs`. -/
def RSHIFTV_MNEMONICS : List String := ["sllv", "srlv", "srav"]

/-- R-type mnemonics rendered as `m rd, rt, shamt`. -/
def RSHIFT_MNEMONICS : List String := ["sll", "srl", "sra"]

/-- R-type mnemonics rendered as `m rs` (`mthi`, `mtlo`). -/
def MOVETO_MNEMONICS : List String := ["mthi", "mtlo"]

/-- R-type mnemonics rendered as `m rd` (`mfhi`, `mflo`). -/
def MOVEFROM_MNEMONICS : List String := ["mfhi", "mflo"]

/-- R-type mnemonics rendered as `m rs, rt`. -/
def MULTDIV_MNEMONICS : List String := ["mult", "multu", "div", "divu"]

/-- I-type mnemonics rendered with a signed decimal immediate. -/
def ISIGNED_MNEMONICS : List String := ["addi", "slti"]

/-- I-type mnemonics rendered with a hex unsigned immediate. -/
def IHEX_MNEMONICS : List String := ["andi", "ori", "xori"]

/-- Memory-access mnemonics rendered as `m rt, offset(rs)`. -/
def DISASM_MEM_MNEMONICS : List String :=
  ["lw", "sw", "lb", "lbu", "lh", "lhu", "sb", "sh"]

/-- Two-register branches rendered with a computed target. -/
def BRANCH2_MNEMONICS : List String := ["beq", "bne"]

/-- One-register branches rendered with a computed target. -/
def BRANCH1_MNEMONICS : List String := ["blez", "bgtz"]

/-- REGIMM branch mnemonics (encoded with opcode 1). -/
def REGIMM_MNEMONICS : List String := ["bltz", "bgez", "bltzal", "bgezal"]

/-- `MipsDisassembler.disassemble_instruction`: decode one 32-bit word,
using `pc` only for branch/jump target reconstruction.  The decoded
fields (`opcode`, `rs`, `rt`, `rd`, `shamt`, `funct`, `imm`, `addr`,
`signed_imm`) are written inline via the shared extraction functions. -/
def disassemble_instruction (w : Nat) (pc : Nat := 0x00400000) : Disasm :=
  if opcodeOf w = 0 then
    if w = 0 then .nop
    else
      match List.lookup (functOf w) FUNCT_MAP_REV with
      | some m =>
        if m = "syscall" then .syscall
        else if m = "break" then .breakI
        else if m ∈ R3_MNEMONICS then .r3 m (rdOf w) (rsOf w) (rtOf w)
        else if m ∈ RSHIFTV_MNEMONICS then .rshiftv m (rdOf w) (rtOf w) (rsOf w)
        else if m ∈ RSHIFT_MNEMONICS then .rshift m (rdOf w) (rtOf w) (shamtOf w)
        else if m = "jr" then .jr (rsOf w)
        else if m = "jalr" then
          (if rdOf w = 31 then .jalrOne (rsOf w) else .jalrTwo (rdOf w) (rsOf w))
        else if m ∈ MOVETO_MNEMONICS then .moveToSpecial m (rsOf w)
        else if m ∈ MOVEFROM_MNEMONICS then .moveFromSpecial m (rdOf w)
        else if m ∈ MULTDIV_MNEMONICS then .multdiv m (rsOf w) (rtOf w)
        else .unknownRFormat m (rdOf w) (rsOf w) (rtOf w) (shamtOf w)
      | none => .unknownRType (functOf w)
  else if opcodeOf w = 2 ∨ opcodeOf w = 3 then
    .jump ((List.lookup (opcodeOf w) OPCODE_MAP_REV).getD "?")
      (jaddrOf w * 4 + pc / 2 ^ 28 % 16 * 2 ^ 28)
  else if opcodeOf w = 1 then
    match List.lookup (rtOf w) REGIMM_RT_MAP_REV with
    | some m => .regimm m (rsOf w) ((pc : Int) + 4 + sign_extend_imm (immOf w) * 4)
    | none => .unknownRegimm (rtOf w)
  else
    match List.lookup (opcodeOf w) OPCODE_MAP_REV with
    | some m =>
      if m ∈ ISIGNED_MNEMONICS then .iSigned m (rtOf w) (rsOf w) (sign_extend_imm (immOf w))
      else if m = "addiu" then .iSigned m (rtOf w) (rsOf w) (sign_extend_imm (immOf w))
      else if m = "sltiu" then .iUnsigned m (rtOf w) (rsOf w) (immOf w)
      else if m ∈ IHEX_MNEMONICS then .iHex m (rtOf w) (rsOf w) (immOf w)
      else if m = "lui" then .lui (rtOf w) (immOf w)
      else if m ∈ DISASM_MEM_MNEMONICS then
        .memAccess m (rtOf w) (sign_extend_imm (immOf w)) (rsOf w)
      else if m ∈ BRANCH2_MNEMONICS then
        .branch2 m (rsOf w) (rtOf w) ((pc : Int) + 4 + sign_extend_imm (immOf w) * 4)
      else if m ∈ BRANCH1_MNEMONICS then
        .branch1 m (rsOf w) ((pc : Int) + 4 + sign_extend_imm (immOf w) * 4)
      else .unknownIFormat m (rsOf w) (rtOf w) (immOf w)
    | none => .unknownOpcode (opcodeOf w)

end Mips

namespace Mips

/-! ### Round-trip expectation (claim side)

`specRoundTripForm` is NOT translated from the source: it formalises the
specification's round-trip property ("an instruction semantically
equivalent to the input: same mnemonic, same register numbers modulo
canonical register-name choice, same immediate/target value"), as the
`Disasm` value the claim predicts for a given assembler input line.  It
parses the input operands with the assembler's own operand parsers and
reassembles them into the decoded shape dictated by the mnemonic's
format; branch targets are the resolved label addresses, jump targets the
resolved absolute addresses, and `jalr` with `rd = 31` is the canonical
one-operand rendering. -/

/-- Result of `parse_register` as an `Option`. -/
def regNum (s : String) : Option Nat := (parse_register s).toOption

/-- Claim-side expected disassembly of an assembler input line. -/
def specRoundTripForm (st : List (String × Nat)) (d : InstrDetails) :
    Option Disasm :=
  let m := d.instruction
  if m = "syscall" then some .syscall
  else if m = "break" then some .breakI
  else if m ∈ R3_MNEMONICS then
    match d.operands with
    | [a, b, c] => do
      let rd ← regNum a
      let rs ← regNum b
      let rt ← regNum c
      some (.r3 m rd rs rt)
    | _ => none
  else if m ∈ RSHIFTV_MNEMONICS then
    match d.operands with
    | [a, b, c] => do
      let rd ← regNum a
      let rt ← regNum b
      let rs ← regNum c
      some (.rshiftv m rd rt rs)
    | _ => none
  else if m ∈ RSHIFT_MNEMONICS then
    match d.operands with
    | [a, b, c] => do
      let rd ← regNum a
      let rt ← regNum b
      let sh ← (parse_immediate c 5 false).toOption
      some (.rshift m rd rt sh)
    | _ => none
  else if m = "jr" then
    match d.operands with
    | [a] => do
      let rs ← regNum a
      some (.jr rs)
    | _ => none
  else if m = "jalr" then
    match d.operands with
    | [a] => do
      let rs ← regNum a
      some (.jalrOne rs)
    | [a, b] => do
      let rd ← regNum a
      let rs ← regNum b
      some (if rd = 31 then .jalrOne rs else .jalrTwo rd rs)
    | _ => none
  else if m ∈ MOVETO_MNEMONICS then
    match d.operands with
    | [a] => do
      let rs ← regNum a
      some (.moveToSpecial m rs)
    | _ => none
  else if m ∈ MOVEFROM_MNEMONICS then
    match d.operands with
    | [a] => do
      let rd ← regNum a
      some (.moveFromSpecial m rd)
    | _ => none
  else if m ∈ MULTDIV_MNEMONICS then
    match d.operands with
    | [a, b] => do
      let rs ← regNum a
      let rt ← regNum b
      some (.multdiv m rs rt)
    | _ => none
  else if m = "addi" ∨ m = "addiu" ∨ m = "slti" then
    match d.operands with
    | [a, b, c] => do
      let rt ← regNum a
      let rs ← regNum b
      let v ← pyParseIntBase0 c
      some (.iSigned m rt rs v)
    | _ => none
  else if m = "sltiu" then
    match d.operands with
    | [a, b, c] => do
      let rt ← regNum a
      let rs ← regNum b
      let v ← pyParseIntBase0 c
      some (.iUnsigned m rt rs v.toNat)
    | _ => none
  else if m ∈ IHEX_MNEMONICS then
    match d.operands with
    | [a, b, c] => do
      let rt ← regNum a
      let rs ← regNum b
      let v ← pyParseIntBase0 c
      some (.iHex m rt rs v.toNat)
    | _ => none
  else if m = "lui" then
    match d.operands with
    | [a, b] => do
      let rt ← regNum a
      let v ← pyParseIntBase0 b
      some (.lui rt v.toNat)
    | _ => none
  else if m ∈ I_MEM_MNEMONICS then
    match d.operands with
    | [a, b, c] => do
      let rt ← regNum a
      let v ← pyParseIntBase0 b
      let rs ← regNum c
      some (.memAccess m rt v rs)
    | _ => none
  else if m ∈ BRANCH2_MNEMONICS then
    match d.operands with
    | [a, b, lab] => do
      let rs ← regNum a
      let rt ← regNum b
      let t ← resolve_label st lab
      some (.branch2 m rs rt (t : Int))
    | _ => none
  else if m ∈ BRANCH1_MNEMONICS then
    match d.operands with
    | [a, lab] => do
      let rs ← regNum a
      let t ← resolve_label st lab
      some (.branch1 m rs (t : Int))
    | _ => none
  else if m ∈ REGIMM_MNEMONICS then
    match d.operands with
    | [a, lab] => do
      let rs ← regNum a
      let t ← resolve_label st lab
      some (.regimm m rs (t : Int))
    | _ => none
  else if m = "j" ∨ m = "jal" then
    match d.operands with
    | [tgt] =>
      match List.lookup tgt st with
      | some a => some (.jump m a)
      | none =>
        match pyParseIntBase0 tgt with
        | some v => if 0 ≤ v then some (.jump m v.toNat) else none
        | none => none
    | _ => none
  else none

end Mips

deriving instance DecidableEq for Except

namespace Mips

/-! ### Simulator (`mips_simulator.py`) -/

/-- Runtime error messages of the simulator, one constructor per distinct
formatted message.  `fetchIndexFault` stands for the `IndexError` that an
inconsistent instruction map would raise at the fetch
`self.instructions[instr_index]` (reachable only through the loader's
empty-hex-string enumeration quirk; unreachable in everything proved
below). -/
inductive SimErr where
  | pcUnaligned (pc : Int)
  | unalignedRead (addr : Int) (n : Nat)
  | unalignedWrite (addr : Int) (n : Nat)
  | writeOutOfRange (addr : Int) (value : Int) (n : Nat)
  | invalidWriteSize (n : Nat)
  | invalidReadSize (n : Nat)
  | memoryRuntimeFault
  | executeNonCode (pc : Int)
  | jrUnaligned (t : Nat)
  | jalrUnaligned (t : Nat)
  | printStringTooLong (addr : Nat)
  | printStringNonAscii (addr : Nat)
  | unimplementedSyscall (code : Nat)
  | unimplementedRType (pc : Int) (w : Nat) (funct : Nat)
  | unimplementedRegimm (pc : Int) (w : Nat) (rt : Nat)
  | unimplementedIJ (pc : Int) (w : Nat) (opcode : Nat)
  | invalidMachineCodeHex (s : String)
  | invalidDataHex (s : String)
  | fetchIndexFault (idx : Nat)
deriving DecidableEq

/-- Termination reasons recorded in `self.termination_reason`. -/
inductive TermReason where
  | ranOffEnd
  | exitSyscall
deriving DecidableEq

/-- Outcome of `load_program`: normal `True`, normal `False`, or an
uncaught Python exception propagating to the caller. -/
inductive LoadOutcome where
  | success
  | failure
  | raised
deriving DecidableEq

/-- The mutable fields of a `MipsSimulator` instance.  Memory is the
sparse byte map (`defaultdict(lambda: 0)`), embedded as a total function
defaulting to 0.  The `pc` is an `Int` because branch arithmetic in the
source can drive it negative. -/
structure SimState where
  registers : List Nat
  pc : Int
  hi : Nat
  lo : Nat
  memory : Int → Nat
  instructions : List Nat
  instruction_map : List (Int × Nat)
  text_segment : List Nat
  data_segment : List Nat
  text_base : Nat
  data_base : Nat
  state : String
  error_message : Option SimErr
  exit_code : Option Nat
  termination_reason : Option TermReason
  persistent_output : String
  output_buffer : String
  input_needed : Bool
  input_buffer : String
  program_break : Nat

/-- `MipsSimulator.reset` (also the state built by `__init__`). -/
def resetState : SimState where
  registers := List.replicate 32 0
  pc := (TEXT_START : Int)
  hi := 0
  lo := 0
  memory := fun _ => 0
  instructions := []
  instruction_map := []
  text_segment := []
  data_segment := []
  text_base := TEXT_START
  data_base := DATA_START
  state := "idle"
  error_message := none
  exit_code := none
  termination_reason := none
  persistent_output := ""
  output_buffer := ""
  input_needed := false
  input_buffer := ""
  program_break := DATA_START

/-- Register read `self.registers[i]` (decoded indices are below 32). -/
def regGet (s : SimState) (i : Nat) : Nat := s.registers.getD i 0

/-- `MipsSimulator._set_register`: mask to the unsigned 32-bit pattern,
silently discarding writes to index 0 (and to out-of-range indices). -/
def set_register (s : SimState) (reg_index : Nat) (value : Int) : SimState :=
  if 0 < reg_index ∧ reg_index < 32 then
    { s with registers := s.registers.set reg_index (maskBits value 32) }
  else s

/-- `MipsSimulator._check_alignment`. -/
def check_alignment (address : Int) (num_bytes : Nat) : Bool :=
  if num_bytes = 2 ∧ address.emod 2 ≠ 0 then false
  else if num_bytes = 4 ∧ address.emod 4 ≠ 0 then false
  else true

/-- Little-endian value of a byte list. -/
def byteListValue : List Nat → Nat
  | [] => 0
  | b :: rest => b + 256 * byteListValue rest

/-- Store `n` bytes of `v` (little-endian) at `address`
(the byte-store loops of `write_memory` / `load_program`). -/
def writeBytes (mem : Int → Nat) (address : Int) (v n : Nat) : Int → Nat :=
  fun x => if address ≤ x ∧ x < address + n then v / 256 ^ (x - address).toNat % 256 else mem x

/-- Store a byte list at `base` (the data-segment copy loop). -/
def writeList (mem : Int → Nat) (base : Int) (bs : List Nat) : Int → Nat :=
  fun x => if base ≤ x ∧ x < base + bs.length then bs.getD (x - base).toNat 0 else mem x

/-- `MipsSimulator.read_memory`: aligned signed read of 1/2/4 bytes;
errors return 0 and set the error state.  (`read_memory_unsigned` has no
caller in the executed fragment and is not embedded.) -/
def read_memory (s : SimState) (address : Int) (num_bytes : Nat) :
    SimState × Int :=
  if !(check_alignment address num_bytes) then
    ({ s with state := "error"
              error_message := some (.unalignedRead address num_bytes) }, 0)
  else
    let bytes := (List.range num_bytes).map (fun i => s.memory (address + i))
    if bytes.all (fun b => b < 256) then
      let u := byteListValue bytes
      if num_bytes = 1 then (s, if u ≥ 2 ^ 7 then (u : Int) - 2 ^ 8 else (u : Int))
      else if num_bytes = 2 then (s, if u ≥ 2 ^ 15 then (u : Int) - 2 ^ 16 else (u : Int))
      else if num_bytes = 4 then (s, if u ≥ 2 ^ 31 then (u : Int) - 2 ^ 32 else (u : Int))
      else ({ s with state := "error"
                     error_message := some (.invalidReadSize num_bytes) }, 0)
    else ({ s with state := "error"
                   error_message := some .memoryRuntimeFault }, 0)

/-- `MipsSimulator.write_memory`: aligned write of 1/2/4 bytes of a value
within the signed range for that size; the packed two's-complement bytes
are stored little-endian.  Misalignment, out-of-range values
(`struct.error`), and invalid sizes (`ValueError`) set the error state
and return `false`. -/
def write_memory (s : SimState) (address : Int) (value : Int) (num_bytes : Nat) :
    SimState × Bool :=
  if !(check_alignment address num_bytes) then
    ({ s with state := "error"
              error_message := some (.unalignedWrite address num_bytes) }, false)
  else if num_bytes = 1 ∨ num_bytes = 2 ∨ num_bytes = 4 then
    if -((2 : Int) ^ (8 * num_bytes - 1)) ≤ value ∧
        value ≤ 2 ^ (8 * num_bytes - 1) - 1 then
      ({ s with memory := writeBytes s.memory address (maskBits value (8 * num_bytes)) num_bytes }, true)
    else
      ({ s with state := "error"
                error_message := some (.writeOutOfRange address value num_bytes) }, false)
  else
    ({ s with state := "error"
              error_message := some (.invalidWriteSize num_bytes) }, false)

end Mips

namespace Mips

/-! ### Program loading (`MipsSimulator.load_program`) -/

/-- Does the hex string start with `0x`? -/
def startsWith0x (s : String) : Bool :=
  match s.data with
  | '0' :: 'x' :: _ => true
  | _ => false

/-- The four little-endian bytes of a 32-bit word. -/
def wordBytes (v : Nat) : List Nat :=
  [v % 256, v / 256 % 256, v / 2 ^ 16 % 256, v / 2 ^ 24 % 256]

/-- `bytearray.fromhex`: whitespace-tolerant pairs of hex digits. -/
def parseHexPairs : List Char → Option (List Nat)
  | [] => some []
  | [_] => none
  | a :: b :: rest =>
    match digitVal a, digitVal b with
    | some x, some y =>
      match parseHexPairs rest with
      | some r => some ((x * 16 + y) :: r)
      | none => none
    | _, _ => none

/-- Hex string to byte list (Python `bytearray.fromhex`). -/
def parseHexBytes (s : String) : Option (List Nat) :=
  parseHexPairs (s.data.filter (fun c => !(isSpaceChar c)))

/-- Result of the instruction-loading loop of `load_program`. -/
inductive LoadInstrsResult where
  | done (s : SimState) (current_addr : Int)
  | aborted (s : SimState) (o : LoadOutcome)

/-- The instruction-loading loop of `load_program`.  Mirrors the source
exactly, including: the enumeration index `i` (not the instruction count)
being stored in the address map; the append to `instructions` happening
before `int.to_bytes`, so that a word of more than 32 bits leaves the
partially updated state behind while `to_bytes` raises an uncaught
`OverflowError` (`LoadOutcome.raised` — only `ValueError` is caught). -/
def load_instrs_go : SimState → List String → Nat → Int → LoadInstrsResult
  | s, [], _, addr => .done s addr
  | s, hx :: rest, i, addr =>
    if hx = "" then load_instrs_go s rest (i + 1) addr
    else
      let clean := if startsWith0x hx then hx else String.mk ('0' :: 'x' :: hx.data)
      match pyParseInt16 clean with
      | none =>
        .aborted { s with state := "error"
                          error_message := some (.invalidMachineCodeHex clean) } .failure
      | some int_code =>
        let s := { s with instructions := s.instructions ++ [int_code.toNat]
                          instruction_map := s.instruction_map ++ [(addr, i)] }
        if int_code < 0 ∨ 2 ^ 32 ≤ int_code then .aborted s .raised
        else
          let s := { s with memory := writeBytes s.memory addr int_code.toNat 4
                            text_segment := s.text_segment ++ wordBytes int_code.toNat }
          load_instrs_go s rest (i + 1) (addr + 4)

/-- `MipsSimulator.load_program`: reset, load code words into the
instruction list / address map / byte memory, copy the data segment,
set the program break and the stack pointer, and enter the `loaded`
state. -/
def load_program (_s0 : SimState) (machine_code_hex : List String)
    (data_segment_hex : String) (base_text : Nat := TEXT_START)
    (base_data : Nat := DATA_START) : SimState × LoadOutcome :=
  let s1 := { resetState with text_base := base_text
                              data_base := base_data
                              pc := (base_text : Int) }
  match load_instrs_go s1 machine_code_hex 0 (base_text : Int) with
  | .aborted s o => (s, o)
  | .done s _ =>
    match parseHexBytes data_segment_hex with
    | none =>
      ({ s with state := "error"
                error_message := some (.invalidDataHex data_segment_hex) }, .failure)
    | some ds =>
      let s := { s with data_segment := ds
                        memory := writeList s.memory (base_data : Int) ds
                        program_break := base_data + ds.length }
      let s := { s with registers := s.registers.set 29 STACK_START }
      ({ s with state := "loaded" }, .success)

/-! ### Syscalls and execution (`MipsSimulator._execute_syscall` / `step`) -/

/-- The byte-collection loop of syscall 4 (`print_string`): read bytes
until a null terminator, giving up (`none`) after `fuel` bytes
(`max_len = 1024` at the call site). -/
def collect_print_string (mem : Int → Nat) (address : Int) : Nat → Option (List Nat)
  | 0 => none
  | fuel + 1 =>
    let b := mem address
    if b = 0 then some []
    else
      match collect_print_string mem (address + 1) fuel with
      | some rest => some (b :: rest)
      | none => none

/-- `MipsSimulator._execute_syscall`: dispatch on `$v0`; returns the
updated state and the next pc (syscall 10 leaves the pc unchanged). -/
def execute_syscall (s : SimState) : SimState × Int :=
  let syscall_code := regGet s 2
  let pc_next : Int := s.pc + 4
  if syscall_code = 1 then
    let out := toString (to_signed_32 (regGet s 4))
    ({ s with persistent_output := s.persistent_output ++ out
              output_buffer := out }, pc_next)
  else if syscall_code = 4 then
    let address := regGet s 4
    match collect_print_string s.memory (address : Int) 1024 with
    | none =>
      ({ s with state := "error"
                error_message := some (.printStringTooLong address) }, pc_next)
    | some bytes =>
      if bytes.all (fun b => b < 128) then
        let out := String.mk (bytes.map (fun b => Char.ofNat b))
        ({ s with persistent_output := s.persistent_output ++ out
                  output_buffer := out }, pc_next)
      else
        ({ s with state := "error"
                  error_message := some (.printStringNonAscii address) }, pc_next)
  else if syscall_code = 10 then
    ({ s with state := "finished"
              exit_code := some 0
              termination_reason := some .exitSyscall }, s.pc)
  else
    ({ s with state := "error"
              error_message := some (.unimplementedSyscall syscall_code) }, pc_next)

/-- `pc & 0xF0000000` for a Python integer pc (used by `j`/`jal`). -/
def maskTop (x : Int) : Nat := (x.emod (2 ^ 32)).toNat / 2 ^ 28 * 2 ^ 28

/-- The execute dispatch of `MipsSimulator.step` (the body of the `try`
block): returns the updated state and the computed next pc.  The decoded
fields (`opcode`, `rs`, `rt`, `rd`, `shamt`, `funct`, `imm`, `addr`) are
written inline via the shared extraction functions. -/
def execute_instruction (s : SimState) (instruction : Nat) : SimState × Int :=
  if opcodeOf instruction = 0 then
    if functOf instruction = 0x21 then
      (set_register s (rdOf instruction)
        (((regGet s (rsOf instruction) + regGet s (rtOf instruction)) % 2 ^ 32 : Nat) : Int),
       s.pc + 4)
    else if functOf instruction = 0x23 then
      (set_register s (rdOf instruction)
        ((maskBits ((regGet s (rsOf instruction) : Int) - (regGet s (rtOf instruction) : Int)) 32 : Nat) : Int),
       s.pc + 4)
    else if functOf instruction = 0x24 then
      (set_register s (rdOf instruction)
        ((Nat.land (regGet s (rsOf instruction)) (regGet s (rtOf instruction)) : Nat) : Int),
       s.pc + 4)
    else if functOf instruction = 0x25 then
      (set_register s (rdOf instruction)
        ((Nat.lor (regGet s (rsOf instruction)) (regGet s (rtOf instruction)) : Nat) : Int),
       s.pc + 4)
    else if functOf instruction = 0x00 then
      if instruction ≠ 0 then
        (set_register s (rdOf instruction)
          ((regGet s (rtOf instruction) * 2 ^ shamtOf instruction % 2 ^ 32 : Nat) : Int),
         s.pc + 4)
      else (s, s.pc + 4)
    else if functOf instruction = 0x02 then
      (set_register s (rdOf instruction)
        ((regGet s (rtOf instruction) % 2 ^ 32 / 2 ^ shamtOf instruction : Nat) : Int),
       s.pc + 4)
    else if functOf instruction = 0x08 then
      if regGet s (rsOf instruction) % 4 ≠ 0 then
        ({ s with state := "error"
                  error_message := some (.jrUnaligned (regGet s (rsOf instruction))) },
         s.pc + 4)
      else (s, (regGet s (rsOf instruction) : Int))
    else if functOf instruction = 0x09 then
      if regGet s (rsOf instruction) % 4 ≠ 0 then
        ({ s with state := "error"
                  error_message := some (.jalrUnaligned (regGet s (rsOf instruction))) },
         s.pc + 4)
      else
        (set_register s (if rdOf instruction ≠ 0 then rdOf instruction else 31) (s.pc + 8),
         (regGet s (rsOf instruction) : Int))
    else if functOf instruction = 0x0c then execute_syscall s
    else
      ({ s with state := "error"
                error_message := some (.unimplementedRType s.pc instruction (functOf instruction)) },
       s.pc + 4)
  else if opcodeOf instruction = 2 ∨ opcodeOf instruction = 3 then
    (if opcodeOf instruction = 3 then set_register s 31 (s.pc + 8) else s,
     ((jaddrOf instruction * 4 + maskTop s.pc : Nat) : Int))
  else if opcodeOf instruction = 4 then
    if regGet s (rsOf instruction) = regGet s (rtOf instruction) then
      (s, s.pc + 4 + sign_extend_imm (immOf instruction) * 4)
    else (s, s.pc + 4)
  else if opcodeOf instruction = 5 then
    if regGet s (rsOf instruction) ≠ regGet s (rtOf instruction) then
      (s, s.pc + 4 + sign_extend_imm (immOf instruction) * 4)
    else (s, s.pc + 4)
  else if opcodeOf instruction = 6 then
    if to_signed_32 (regGet s (rsOf instruction)) ≤ 0 then
      (s, s.pc + 4 + sign_extend_imm (immOf instruction) * 4)
    else (s, s.pc + 4)
  else if opcodeOf instruction = 7 then
    if 0 < to_signed_32 (regGet s (rsOf instruction)) then
      (s, s.pc + 4 + sign_extend_imm (immOf instruction) * 4)
    else (s, s.pc + 4)
  else if opcodeOf instruction = 1 then
    if rtOf instruction = 0x0 then
      if to_signed_32 (regGet s (rsOf instruction)) < 0 then
        (s, s.pc + 4 + sign_extend_imm (immOf instruction) * 4)
      else (s, s.pc + 4)
    else if rtOf instruction = 0x1 then
      if 0 ≤ to_signed_32 (regGet s (rsOf instruction)) then
        (s, s.pc + 4 + sign_extend_imm (immOf instruction) * 4)
      else (s, s.pc + 4)
    else
      ({ s with state := "error"
                error_message := some (.unimplementedRegimm s.pc instruction (rtOf instruction)) },
       s.pc + 4)
  else if opcodeOf instruction = 0x9 then
    (set_register s (rtOf instruction)
      ((maskBits ((regGet s (rsOf instruction) : Int) + sign_extend_imm (immOf instruction)) 32 : Nat) : Int),
     s.pc + 4)
  else if opcodeOf instruction = 0xd then
    (set_register s (rtOf instruction)
      ((Nat.lor (regGet s (rsOf instruction)) (immOf instruction) : Nat) : Int),
     s.pc + 4)
  else if opcodeOf instruction = 0xf then
    (set_register s (rtOf instruction)
      ((immOf instruction * 2 ^ 16 % 2 ^ 32 : Nat) : Int),
     s.pc + 4)
  else if opcodeOf instruction = 0x23 then
    if (read_memory s
        ((maskBits ((regGet s (rsOf instruction) : Int) + sign_extend_imm (immOf instruction)) 32 : Nat) : Int)
        4).1.state ≠ "error" then
      (set_register
        (read_memory s
          ((maskBits ((regGet s (rsOf instruction) : Int) + sign_extend_imm (immOf instruction)) 32 : Nat) : Int)
          4).1
        (rtOf instruction)
        (read_memory s
          ((maskBits ((regGet s (rsOf instruction) : Int) + sign_extend_imm (immOf instruction)) 32 : Nat) : Int)
          4).2,
       s.pc + 4)
    else
      ((read_memory s
          ((maskBits ((regGet s (rsOf instruction) : Int) + sign_extend_imm (immOf instruction)) 32 : Nat) : Int)
          4).1,
       s.pc + 4)
  else if opcodeOf instruction = 0x2b then
    ((write_memory s
        ((maskBits ((regGet s (rsOf instruction) : Int) + sign_extend_imm (immOf instruction)) 32 : Nat) : Int)
        ((regGet s (rtOf instruction) : Nat) : Int) 4).1,
     s.pc + 4)
  else
    ({ s with state := "error"
              error_message := some (.unimplementedIJ s.pc instruction (opcodeOf instruction)) },
     s.pc + 4)

/-- The states from which `step` is allowed to execute. -/
def ALLOWED_STEP_STATES : List String := ["loaded", "paused", "running", "input_wait"]

/-- `MipsSimulator.step`: guard on the state machine, check pc alignment,
fetch via the address map (absent entries terminate or error depending on
`DATA_START`), execute, force register 0 back to zero, and advance the pc
unless the state became `error`/`finished`/`input_wait`. -/
def step (s : SimState) : SimState :=
  if s.state ∈ ALLOWED_STEP_STATES then
    if s.pc.emod 4 ≠ 0 then
      { s with state := "error"
               error_message := some (.pcUnaligned s.pc) }
    else
      match List.lookup s.pc s.instruction_map with
      | none =>
        if s.pc ≥ (DATA_START : Int) then
          { s with state := "error"
                   error_message := some (.executeNonCode s.pc) }
        else
          { s with state := "finished"
                   exit_code := some 0
                   termination_reason := some .ranOffEnd }
      | some instr_index =>
        match s.instructions.get? instr_index with
        | none =>
          { s with state := "error"
                   error_message := some (.fetchIndexFault instr_index) }
        | some instruction =>
          let s1 := { s with output_buffer := ""
                             error_message := none }
          let r := execute_instruction s1 instruction
          let s3 := { r.1 with registers := r.1.registers.set 0 0 }
          if s3.state ≠ "error" ∧ s3.state ≠ "finished" ∧ s3.state ≠ "input_wait" then
            { s3 with pc := r.2
                      state := "paused" }
          else s3
  else s

/-- The snapshot dictionary returned by `MipsSimulator.get_state`.  The
bounded `memory_view` rendering is a derived window over `memory` that no
claim references; it is omitted from the snapshot. -/
structure Snapshot where
  pc : Int
  registers : List Nat
  hi : Nat
  lo : Nat
  state : String
  error : Option SimErr
  exit_code : Option Nat
  output : String
  input_needed : Bool
  termination_reason : Option TermReason
deriving DecidableEq

/-- `MipsSimulator.get_state` (the termination reason is included only in
the `finished` state, as in the source). -/
def get_state (s : SimState) : Snapshot where
  pc := s.pc
  registers := s.registers
  hi := s.hi
  lo := s.lo
  state := s.state
  error := s.error_message
  exit_code := s.exit_code
  output := s.persistent_output
  input_needed := s.input_needed
  termination_reason := if s.state = "finished" then s.termination_reason else none

/-- Simulator states reachable through `reset`, `load_program`, and
`step` (claims C4/C10 quantify over exactly these). -/
inductive Reachable : SimState → Prop
  | reset : Reachable resetState
  | load (s : SimState) (code : List String) (data : String) (bt bd : Nat) :
      Reachable s → Reachable (load_program s code data bt bd).1
  | step (s : SimState) : Reachable s → Reachable (step s)

end Mips


namespace Mips

/-! ### Claim-side predicates for the memory-write contract (C8) -/

/-- Claim side: `addr` is aligned for an access of `n` bytes (size 1 is
always aligned). -/
def WriteAligned (addr : Int) (n : Nat) : Prop :=
  (n = 2 → addr.emod 2 = 0) ∧ (n = 4 → addr.emod 4 = 0)

/-- Claim side: `v` lies in the representable signed range for `n`
bytes. -/
def WriteInRange (v : Int) (n : Nat) : Prop :=
  -((2 : Int) ^ (8 * n - 1)) ≤ v ∧ v ≤ 2 ^ (8 * n - 1) - 1

/-- Register-file well-formedness, the induction invariant behind C4 and
C10: 32 entries, every entry an unsigned 32-bit pattern, entry 0 zero. -/
def RegsWF (l : List Nat) : Prop :=
  l.length = 32 ∧ (∀ r ∈ l, r < 2 ^ 32) ∧ l.getD 0 0 = 0

/-- A mnemonic is a base (non-pseudo) instruction exactly when it appears
in one of the three encoder tables (the pass 2b dispatch test). -/
def isBaseMnemonic (m : String) : Bool :=
  (List.lookup m R_TYPE_FUNCT).isSome || (List.lookup m I_TYPE_OPCODE).isSome ||
    (List.lookup m J_TYPE_OPCODE).isSome

/-- The jump-target resolution of `_encode_j_type`: symbol-table label or
literal absolute address. -/
def resolveJTarget (st : List (String × Nat)) (ops : List String) : Option Int :=
  match ops with
  | [] => none
  | target_str :: _ =>
    match List.lookup target_str st with
    | some a => some ((a : Nat) : Int)
    | none => pyParseIntBase0 target_str

/-- The keys of the three encoder tables: exactly the base mnemonics. -/
def BASE_MNEMONIC_LIST : List String :=
  R_TYPE_FUNCT.map Prod.fst ++ I_TYPE_OPCODE.map Prod.fst ++
    J_TYPE_OPCODE.map Prod.fst

/-- The simulator state carried by a `LoadInstrsResult`. -/
def LoadInstrsResult.stateOf : LoadInstrsResult → SimState
  | .done s _ => s
  | .aborted s _ => s

end Mips

namespace Mips

/-! ### Theorems -/

/-- C2: the assembler produces exactly the fixture encodings:
`addi $t0, $zero, 100` yields the single word 0x20080064 and no errors;
`add $s0, $t1, $t2` yields 0x012a8020; `li $t0, 65537` yields exactly
0x3c010001 then 0x34280001; `nop` yields 0x00000000; and the four-line
loop/end program yields 0x11090002, 0x21080001, 0x08100000, 0x00008020
in that order. -/
theorem encoding_fixtures :
    assemble "addi $t0, $zero, 100" = ⟨[0x20080064], []⟩ ∧
    assemble "add $s0, $t1, $t2" = ⟨[0x012a8020], []⟩ ∧
    assemble "li $t0, 65537" = ⟨[0x3c010001, 0x34280001], []⟩ ∧
    assemble "nop" = ⟨[0x00000000], []⟩ ∧
    assemble "loop: beq $t0,$t1,end\naddi $t0,$t0,1\nj loop\nend: add $s0,$zero,$zero" =
      ⟨[0x11090002, 0x21080001, 0x08100000, 0x00008020], []⟩ := by
  decide

/-- C5 (code bug): `load_program` propagates an uncaught `OverflowError`
to its caller when a machine-code hex string encodes a value of more than
32 bits: `int_code.to_bytes(4, ...)` raises `OverflowError`, and the
surrounding handler catches only `ValueError`.  Input
`load_program(["123456789"], "")` therefore raises instead of returning a
result structure, contradicting the claim that no public entry point ever
propagates an exception. -/
theorem load_program_raises_on_long_hex :
    (load_program resetState ["123456789"] "" TEXT_START DATA_START).2 =
      LoadOutcome.raised := by
  decide

/-- C6 (counterexample): loading an empty program with
`base_text = 0x00400000` and `base_data = 0x00100000` and stepping once.
The pc (0x00400000) is 4-byte aligned, absent from the instruction map,
and at or above the data base passed to `load_program` (0x00100000), so
the claim predicts state `error`; the code instead compares the pc with
the fixed constant `DATA_START = 0x10010000` and finishes normally. -/
theorem run_off_end_counterexample :
    (load_program resetState [] "" 0x00400000 0x00100000).2 = .success ∧
    (load_program resetState [] "" 0x00400000 0x00100000).1.state = "loaded" ∧
    (load_program resetState [] "" 0x00400000 0x00100000).1.pc = 0x00400000 ∧
    List.lookup (0x00400000 : Int)
      (load_program resetState [] "" 0x00400000 0x00100000).1.instruction_map = none ∧
    (load_program resetState [] "" 0x00400000 0x00100000).1.data_base = 0x00100000 ∧
    (step (load_program resetState [] "" 0x00400000 0x00100000).1).state = "finished" ∧
    "finished" ≠ "error" := by
  decide

/-- C6 (amended): when `step` finds a 4-byte-aligned pc with no entry in
the instruction map, it compares the pc against the fixed constant
`DATA_START = 0x10010000` (not the data base passed to `load_program`):
below it, the step finishes normally with exit code 0 and the
ran-off-the-end termination reason; at or above it, the step errors with
the executing-from-non-code-region message. -/
theorem run_off_end_amended (s : SimState)
    (hstate : s.state ∈ ALLOWED_STEP_STATES)
    (halign : s.pc.emod 4 = 0)
    (hmap : List.lookup s.pc s.instruction_map = none) :
    (s.pc < (DATA_START : Int) →
      (step s).state = "finished" ∧ (step s).exit_code = some 0 ∧
      (step s).termination_reason = some .ranOffEnd ∧ (step s).pc = s.pc) ∧
    ((DATA_START : Int) ≤ s.pc →
      (step s).state = "error" ∧
      (step s).error_message = some (.executeNonCode s.pc) ∧ (step s).pc = s.pc) := by
  unfold step
  rw [if_pos hstate, if_neg (by simp [halign]), hmap]
  constructor
  · intro hlt
    rw [if_neg (by omega)]
    exact ⟨rfl, rfl, rfl, rfl⟩
  · intro hge
    rw [if_pos (by omega)]
    exact ⟨rfl, rfl, rfl⟩

/-- C6 (witness for the amended theorem): the empty default-base program
of the simulator fixtures, stepped once, finishes with exit code 0. -/
theorem run_off_end_amended_witness :
    ((load_program resetState [] "" TEXT_START DATA_START).1.pc < (DATA_START : Int)) ∧
    (step (load_program resetState [] "" TEXT_START DATA_START).1).state = "finished" ∧
    (step (load_program resetState [] "" TEXT_START DATA_START).1).exit_code = some 0 ∧
    (step (load_program resetState [] "" TEXT_START DATA_START).1).termination_reason =
      some .ranOffEnd ∧
    (step (load_program resetState [] "" TEXT_START DATA_START).1).pc =
      (load_program resetState [] "" TEXT_START DATA_START).1.pc := by
  refine ⟨by decide, ?_⟩
  have h := run_off_end_amended (load_program resetState [] "" TEXT_START DATA_START).1
    (by decide) (by decide) (by decide)
  exact ⟨(h.1 (by decide)).1, (h.1 (by decide)).2.1, (h.1 (by decide)).2.2.1,
    (h.1 (by decide)).2.2.2⟩

/-- C9: calling `step` in a state outside
`{loaded, paused, running, input_wait}` (in particular `idle`, `finished`,
or `error`) changes nothing at all — the state record, hence pc,
registers, hi/lo, memory, state tag and output, is returned unchanged —
and the snapshot is the current one; `finished` and `error` therefore
persist until an explicit `reset`/`load_program`. -/
theorem step_noop_outside_allowed (s : SimState)
    (h : s.state = "idle" ∨ s.state = "finished" ∨ s.state = "error") :
    step s = s ∧ get_state (step s) = get_state s := by
  have hna : ¬ s.state ∈ ALLOWED_STEP_STATES := by
    rcases h with h | h | h <;> simp [h, ALLOWED_STEP_STATES]
  unfold step
  rw [if_neg hna]
  exact ⟨rfl, rfl⟩

/-- C9 (witness): stepping the freshly reset (idle) simulator changes
nothing. -/
theorem step_noop_outside_allowed_witness :
    (resetState.state = "idle" ∨ resetState.state = "finished" ∨
      resetState.state = "error") ∧
    step resetState = resetState := by
  exact ⟨Or.inl rfl, (step_noop_outside_allowed resetState (Or.inl rfl)).1⟩

end Mips

namespace Mips

/-- The source's alignment check agrees with the claim-side alignment
predicate. -/
theorem check_alignment_iff (addr : Int) (n : Nat) :
    check_alignment addr n = true ↔ WriteAligned addr n := by
  unfold check_alignment WriteAligned
  split_ifs with h1 h2 <;> simp_all

/-- C8: `write_memory(addr, value, size)` (size 1, 2 or 4) succeeds
exactly when the address is aligned for the size and the value lies in
the representable signed range for that size; on any failure it returns
`false` and sets the `error` state (so e.g. value 200 with size 1 fails),
and on success it returns `true` and stores the two's-complement bytes of
the value little-endian, leaving all other memory unchanged. -/
theorem write_memory_contract (s : SimState) (addr v : Int) (n : Nat)
    (hn : n = 1 ∨ n = 2 ∨ n = 4) :
    ((write_memory s addr v n).2 = true ↔ WriteAligned addr n ∧ WriteInRange v n) ∧
    (¬(WriteAligned addr n ∧ WriteInRange v n) →
      (write_memory s addr v n).2 = false ∧
      (write_memory s addr v n).1.state = "error") ∧
    (WriteAligned addr n ∧ WriteInRange v n →
      (∀ i : Nat, i < n →
        (write_memory s addr v n).1.memory (addr + (i : Int)) =
          maskBits v (8 * n) / 256 ^ i % 256) ∧
      ∀ x : Int, x < addr ∨ addr + (n : Int) ≤ x →
        (write_memory s addr v n).1.memory x = s.memory x) := by
  by_cases hal : WriteAligned addr n
  · have hc : check_alignment addr n = true := (check_alignment_iff addr n).mpr hal
    by_cases hr : WriteInRange v n
    · have hw : write_memory s addr v n =
          ({ s with memory := writeBytes s.memory addr (maskBits v (8 * n)) n }, true) := by
        unfold write_memory
        rw [hc]
        simp only [Bool.not_true, Bool.false_eq_true, if_false]
        unfold WriteInRange at hr
        rw [if_pos hn, if_pos hr]
      rw [hw]
      refine ⟨by simp [hal, hr], fun h => absurd ⟨hal, hr⟩ h, fun _ => ⟨?_, ?_⟩⟩
      · intro i hi
        show writeBytes s.memory addr (maskBits v (8 * n)) n (addr + (i : Int)) = _
        unfold writeBytes
        rw [if_pos (by constructor <;> omega)]
        have he : (addr + (i : Int) - addr).toNat = i := by omega
        rw [he]
      · intro x hx
        show writeBytes s.memory addr (maskBits v (8 * n)) n x = s.memory x
        unfold writeBytes
        rw [if_neg (by omega)]
    · have hw : write_memory s addr v n =
          ({ s with state := "error"
                    error_message := some (.writeOutOfRange addr v n) }, false) := by
        unfold write_memory
        rw [hc]
        simp only [Bool.not_true, Bool.false_eq_true, if_false]
        unfold WriteInRange at hr
        rw [if_pos hn, if_neg hr]
      rw [hw]
      refine ⟨by simp [hr], fun _ => ⟨rfl, rfl⟩, fun h => absurd h.2 hr⟩
  · have hc : check_alignment addr n = false := by
      cases hb : check_alignment addr n
      · rfl
      · exact absurd ((check_alignment_iff addr n).mp hb) hal
    have hw : write_memory s addr v n =
        ({ s with state := "error"
                  error_message := some (.unalignedWrite addr n) }, false) := by
      unfold write_memory
      rw [hc]
      simp only [Bool.not_false, if_true]
    rw [hw]
    refine ⟨by simp [hal], fun _ => ⟨rfl, rfl⟩, fun h => absurd h.1 hal⟩

/-- C8 (witness): the claim's own example — writing byte value 200 with
size 1 — fails with the `error` state at a concrete address, and an
in-range byte write succeeds. -/
theorem write_memory_contract_witness :
    ((1 : Nat) = 1 ∨ (1 : Nat) = 2 ∨ (1 : Nat) = 4) ∧
    (write_memory resetState (DATA_START : Int) 200 1).2 = false ∧
    (write_memory resetState (DATA_START : Int) 200 1).1.state = "error" ∧
    (write_memory resetState (DATA_START : Int) 100 1).2 = true := by
  refine ⟨Or.inl rfl, ?_, ?_, ?_⟩
  · exact ((write_memory_contract resetState (DATA_START : Int) 200 1 (Or.inl rfl)).2.1
      (by intro h; exact absurd h.2.2 (by decide))).1
  · exact ((write_memory_contract resetState (DATA_START : Int) 200 1 (Or.inl rfl)).2.1
      (by intro h; exact absurd h.2.2 (by decide))).2
  · exact ((write_memory_contract resetState (DATA_START : Int) 100 1 (Or.inl rfl)).1).mpr
      ⟨⟨by omega, by omega⟩, by decide, by decide⟩

end Mips

namespace Mips

/-- Shape of `step` when the guards pass and a word is fetched. -/
theorem step_exec (s : SimState) (idx w : Nat)
    (hst : s.state ∈ ALLOWED_STEP_STATES) (hal : s.pc.emod 4 = 0)
    (hmap : List.lookup s.pc s.instruction_map = some idx)
    (hget : s.instructions.get? idx = some w) :
    step s =
      (let s1 := { s with output_buffer := ""
                          error_message := none }
       let r := execute_instruction s1 w
       let s3 := { r.1 with registers := r.1.registers.set 0 0 }
       if s3.state ≠ "error" ∧ s3.state ≠ "finished" ∧ s3.state ≠ "input_wait" then
         { s3 with pc := r.2
                   state := "paused" }
       else s3) := by
  unfold step
  rw [if_pos hst, if_neg (by simp [hal]), hmap]
  simp only [hget]

/-- A word with opcode 0 and funct 0x0c dispatches to the syscall
handler. -/
theorem execute_syscall_dispatch (s : SimState) (w : Nat)
    (hO : opcodeOf w = 0) (hF : functOf w = 0x0c) :
    execute_instruction s w = execute_syscall s := by
  unfold execute_instruction
  rw [hO, hF]
  simp

/-- Syscall with `$v0 = 10`: finish with exit code 0, pc unchanged. -/
theorem execute_syscall_exit (s : SimState) (h : regGet s 2 = 10) :
    execute_syscall s =
      ({ s with state := "finished"
                exit_code := some 0
                termination_reason := some .exitSyscall }, s.pc) := by
  unfold execute_syscall
  rw [h]
  simp

/-- Syscall with an unrecognized `$v0`: error state naming the code. -/
theorem execute_syscall_unknown (s : SimState) (c : Nat) (h : regGet s 2 = c)
    (h1 : c ≠ 1) (h4 : c ≠ 4) (h10 : c ≠ 10) :
    execute_syscall s =
      ({ s with state := "error"
                error_message := some (.unimplementedSyscall c) }, s.pc + 4) := by
  unfold execute_syscall
  rw [h]
  rw [if_neg h1, if_neg h4, if_neg h10]

/-- C7: executing a `syscall` word while `$v0 = 10` moves the simulator to
`finished` with exit code 0, records the termination reason, and leaves
the pc unchanged; executing it with any `$v0` other than 1, 4, 10 moves
the simulator to `error` with a message naming that code; and the
concrete two-word fixture `["0x2402000a","0x0000000c"]` stepped twice is
`finished` with exit code 0. -/
theorem syscall_exit_behavior :
    (∀ (s : SimState) (idx w : Nat),
      s.state ∈ ALLOWED_STEP_STATES → s.pc.emod 4 = 0 →
      List.lookup s.pc s.instruction_map = some idx →
      s.instructions.get? idx = some w →
      opcodeOf w = 0 → functOf w = 0x0c → regGet s 2 = 10 →
      (step s).state = "finished" ∧ (step s).exit_code = some 0 ∧
      (step s).termination_reason = some .exitSyscall ∧ (step s).pc = s.pc) ∧
    (∀ (s : SimState) (idx w c : Nat),
      s.state ∈ ALLOWED_STEP_STATES → s.pc.emod 4 = 0 →
      List.lookup s.pc s.instruction_map = some idx →
      s.instructions.get? idx = some w →
      opcodeOf w = 0 → functOf w = 0x0c →
      regGet s 2 = c → c ≠ 1 → c ≠ 4 → c ≠ 10 →
      (step s).state = "error" ∧
      (step s).error_message = some (.unimplementedSyscall c)) ∧
    ((step (step (load_program resetState ["0x2402000a", "0x0000000c"] ""
        TEXT_START DATA_START).1)).state = "finished" ∧
     (step (step (load_program resetState ["0x2402000a", "0x0000000c"] ""
        TEXT_START DATA_START).1)).exit_code = some 0) := by
  refine ⟨?_, ?_, by decide, by decide⟩
  · intro s idx w hst hal hmap hget hO hF h10
    rw [step_exec s idx w hst hal hmap hget]
    simp only
    rw [execute_syscall_dispatch _ w hO hF]
    generalize hq : ({ s with output_buffer := ""
                              error_message := none } : SimState) = s1
    have h10s : regGet s1 2 = 10 := by rw [← hq]; exact h10
    have hpc : s1.pc = s.pc := by rw [← hq]
    rw [execute_syscall_exit s1 h10s]
    simp [hpc]
  · intro s idx w c hst hal hmap hget hO hF hc h1 h4 h10
    rw [step_exec s idx w hst hal hmap hget]
    simp only
    rw [execute_syscall_dispatch _ w hO hF]
    generalize hq : ({ s with output_buffer := ""
                              error_message := none } : SimState) = s1
    have hcs : regGet s1 2 = c := by rw [← hq]; exact hc
    rw [execute_syscall_unknown s1 c hcs h1 h4 h10]
    simp

/-- C7 (witness): the fixture program, applied through the theorem's
first clause at its second step. -/
theorem syscall_exit_behavior_witness :
    (step (step (load_program resetState ["0x2402000a", "0x0000000c"] ""
      TEXT_START DATA_START).1)).state = "finished" ∧
    (step (step (load_program resetState ["0x2402000a", "0x0000000c"] ""
      TEXT_START DATA_START).1)).pc =
      (step (load_program resetState ["0x2402000a", "0x0000000c"] ""
        TEXT_START DATA_START).1).pc := by
  have h := syscall_exit_behavior.1
    (step (load_program resetState ["0x2402000a", "0x0000000c"] "" TEXT_START DATA_START).1)
    1 0x0000000c (by decide) (by decide) (by decide) (by decide) (by decide)
    (by decide) (by decide)
  exact ⟨h.1, h.2.2.2⟩

end Mips

namespace Mips

/-- Two's-complement truncation is bounded by the field width. -/
theorem maskBits_lt (v : Int) (k : Nat) : maskBits v k < 2 ^ k := by
  unfold maskBits
  have hpos : (0 : Int) < (2 : Int) ^ k := by positivity
  have h1 : 0 ≤ v.emod ((2 : Int) ^ k) := Int.emod_nonneg v hpos.ne'
  have h2 : v.emod ((2 : Int) ^ k) < (2 : Int) ^ k := Int.emod_lt_of_pos v hpos
  have hc : ((2 : Int) ^ k) = ((2 ^ k : Nat) : Int) := by push_cast; ring
  omega

/-- Setting a non-zero register index to an in-range value preserves
register-file well-formedness. -/
theorem regswf_set (l : List Nat) (i v : Nat) (hi : i ≠ 0) (hv : v < 2 ^ 32)
    (h : RegsWF l) : RegsWF (l.set i v) := by
  obtain ⟨hlen, hmem, h0⟩ := h
  refine ⟨by simpa using hlen, ?_, ?_⟩
  · intro r hr
    rcases List.mem_or_eq_of_mem_set hr with hr' | rfl
    · exact hmem r hr'
    · exact hv
  · rw [List.getD_eq_getElem?_getD, List.getElem?_set_ne hi,
      ← List.getD_eq_getElem?_getD]
    exact h0

/-- Zeroing register 0 preserves register-file well-formedness. -/
theorem regswf_set_zero (l : List Nat) (h : RegsWF l) : RegsWF (l.set 0 0) := by
  obtain ⟨hlen, hmem, _⟩ := h
  refine ⟨by simpa using hlen, ?_, ?_⟩
  · intro r hr
    rcases List.mem_or_eq_of_mem_set hr with hr' | rfl
    · exact hmem r hr'
    · positivity
  · rw [List.getD_eq_getElem?_getD,
      List.getElem?_set_eq_of_lt 0 (by simp [hlen])]
    rfl

/-- `_set_register` preserves register-file well-formedness. -/
theorem regswf_set_register (s : SimState) (i : Nat) (v : Int)
    (h : RegsWF s.registers) : RegsWF (set_register s i v).registers := by
  unfold set_register
  split_ifs with hi
  · exact regswf_set _ i _ (by omega) (maskBits_lt v 32) h
  · exact h

/-- `read_memory` never touches the register file. -/
theorem read_memory_registers (s : SimState) (a : Int) (n : Nat) :
    (read_memory s a n).1.registers = s.registers := by
  unfold read_memory
  try dsimp only
  repeat' split
  all_goals rfl

/-- `write_memory` never touches the register file. -/
theorem write_memory_registers (s : SimState) (a v : Int) (n : Nat) :
    (write_memory s a v n).1.registers = s.registers := by
  unfold write_memory
  try dsimp only
  repeat' split
  all_goals rfl

/-- `_execute_syscall` never touches the register file. -/
theorem execute_syscall_registers (s : SimState) :
    (execute_syscall s).1.registers = s.registers := by
  unfold execute_syscall
  try dsimp only
  repeat' split
  all_goals rfl

/-- Case split over a branch of the execute dispatch (result pair). -/
theorem regswf_ite (c : Prop) [Decidable c] (A B : SimState × Int)
    (hA : RegsWF A.1.registers) (hB : RegsWF B.1.registers) :
    RegsWF (if c then A else B).1.registers := by
  split_ifs <;> assumption

/-- Case split over a branch of the execute dispatch (state position). -/
theorem regswf_ite_state (c : Prop) [Decidable c] (A B : SimState)
    (hA : RegsWF A.registers) (hB : RegsWF B.registers) :
    RegsWF (ite c A B).registers := by
  split_ifs <;> assumption

/-- One execute dispatch preserves register-file well-formedness. -/
theorem execute_regswf (s : SimState) (w : Nat) (h : RegsWF s.registers) :
    RegsWF (execute_instruction s w).1.registers := by
  unfold execute_instruction
  repeat' first
    | exact (execute_syscall_registers _).symm ▸ h
    | apply regswf_ite
  all_goals first
    | exact h
    | exact regswf_set_register _ _ _ h
    | exact regswf_ite_state _ _ _ (regswf_set_register _ _ _ h) h
    | exact (execute_syscall_registers _).symm ▸ h
    | exact (read_memory_registers _ _ _).symm ▸ h
    | exact (write_memory_registers _ _ _ _).symm ▸ h
    | exact regswf_set_register _ _ _ ((read_memory_registers _ _ _).symm ▸ h)

/-- One `step` preserves register-file well-formedness. -/
theorem step_regswf (s : SimState) (h : RegsWF s.registers) :
    RegsWF (step s).registers := by
  unfold step
  try dsimp only
  repeat' split
  all_goals first
    | exact h
    | exact regswf_set_zero _ (execute_regswf _ _ h)

/-- The loader's instruction loop never touches the register file. -/
theorem load_instrs_go_registers (code : List String) :
    ∀ (s : SimState) (i : Nat) (a : Int),
      (load_instrs_go s code i a).stateOf.registers = s.registers := by
  induction code with
  | nil => intro s i a; rfl
  | cons hx rest ih =>
    intro s i a
    unfold load_instrs_go
    try dsimp only
    repeat' split
    all_goals first
      | rfl
      | exact ih _ _ _

/-- The register file produced by `load_program`: all zeros, or all
zeros with the stack pointer set. -/
theorem load_program_registers (s : SimState) (code : List String)
    (data : String) (bt bd : Nat) :
    (load_program s code data bt bd).1.registers = List.replicate 32 0 ∨
    (load_program s code data bt bd).1.registers =
      (List.replicate 32 0).set 29 STACK_START := by
  unfold load_program
  have hgo := load_instrs_go_registers code
    { resetState with text_base := bt
                      data_base := bd
                      pc := (bt : Int) } 0 (bt : Int)
  rcases hres : load_instrs_go
      { resetState with text_base := bt
                        data_base := bd
                        pc := (bt : Int) } code 0 (bt : Int) with ⟨s2, a⟩ | ⟨s2, o⟩
  · rw [hres] at hgo
    simp only [hres]
    rcases hd : parseHexBytes data with _ | ds
    · left
      exact hgo
    · right
      exact congrArg (fun l => l.set 29 STACK_START) hgo
  · rw [hres] at hgo
    simp only [hres]
    left
    exact hgo

/-- `load_program` always leaves a well-formed register file. -/
theorem load_regswf (s : SimState) (code : List String) (data : String)
    (bt bd : Nat) : RegsWF (load_program s code data bt bd).1.registers := by
  rcases load_program_registers s code data bt bd with h | h <;> rw [h]
  · exact ⟨by simp, by decide, by decide⟩
  · refine ⟨by simp, ?_, by decide⟩
    intro r hr
    rcases List.mem_or_eq_of_mem_set hr with hr' | rfl
    · have : r = 0 := by simpa using hr'
      omega
    · decide

/-- Every reachable state has a well-formed register file. -/
theorem reachable_regswf (s : SimState) (h : Reachable s) : RegsWF s.registers := by
  induction h with
  | reset => exact ⟨by simp [resetState], by decide, by decide⟩
  | load s code data bt bd _ _ => exact load_regswf s code data bt bd
  | step s _ ih => exact step_regswf s ih

/-- C4: in every simulator state reachable by any sequence of `reset`,
`load_program`, and `step` calls, register 0 reads as zero — every write
to index 0 is discarded, including immediately after an instruction whose
destination field is register 0. -/
theorem zero_register_invariant (s : SimState) (h : Reachable s) :
    s.registers.getD 0 0 = 0 :=
  (reachable_regswf s h).2.2

/-- C4 (witness): after loading and executing `addiu $zero, $zero, 5`
(word 0x24000005), whose destination field is register 0, register 0 is
still zero. -/
theorem zero_register_invariant_witness :
    (step (load_program resetState ["0x24000005"] "" TEXT_START
      DATA_START).1).registers.getD 0 0 = 0 :=
  zero_register_invariant _ (.step _ (.load _ _ _ _ _ .reset))

/-- C10: in every reachable simulator state every general-purpose
register holds an integer in 0 .. 2^32 - 1 (writes store the value masked
to its unsigned 32-bit pattern); concretely, executing
`lui $t0,0x1001; lw $t1,0($t0)` over a data word whose signed value is -1
leaves `$t1` holding 0xFFFFFFFF, and the `get_state` snapshot reports the
registers exactly as stored (never negative). -/
theorem registers_unsigned32_invariant :
    (∀ s : SimState, Reachable s → ∀ i : Nat, i < 32 →
      s.registers.getD i 0 < 2 ^ 32) ∧
    (step (step (load_program resetState ["0x3c081001", "0x8d090000"]
      "ffffffff" TEXT_START DATA_START).1)).registers.getD 9 0 = 0xFFFFFFFF ∧
    (get_state (step (step (load_program resetState ["0x3c081001", "0x8d090000"]
      "ffffffff" TEXT_START DATA_START).1))).registers =
      (step (step (load_program resetState ["0x3c081001", "0x8d090000"]
        "ffffffff" TEXT_START DATA_START).1)).registers := by
  refine ⟨?_, by decide, rfl⟩
  intro s hs i hi
  obtain ⟨hlen, hmem, _⟩ := reachable_regswf s hs
  rw [List.getD_eq_getElem s.registers 0 (by omega)]
  exact hmem _ (List.getElem_mem _)

/-- C10 (witness): the invariant applied to the stepped
`addiu $t0, $zero, 100` fixture state at register 8. -/
theorem registers_unsigned32_invariant_witness :
    (step (load_program resetState ["0x24080064"] "" TEXT_START
      DATA_START).1).registers.getD 8 0 < 2 ^ 32 :=
  registers_unsigned32_invariant.1 _ (.step _ (.load _ _ _ _ _ .reset)) 8
    (by decide)

end Mips

namespace Mips

/-- Characterization of `_encode_i_type` on `beq` with valid registers. -/
theorem encode_char_beq (a b lab : String) (A ln : Nat) (st : List (String × Nat))
    (rsv rtv : Nat) (ha : parse_register a = .ok rsv)
    (hb : parse_register b = .ok rtv) :
    encode_i_type st ⟨"beq", [a, b, lab], A, ln⟩ =
      (match resolve_label st lab with
       | none => Except.error (.undefinedLabel lab)
       | some T =>
         if ((T : Int) - ((A : Int) + 4)).emod 4 = 0 then
           (if -(2 ^ 15) ≤ ((T : Int) - ((A : Int) + 4)).fdiv 4 ∧
               ((T : Int) - ((A : Int) + 4)).fdiv 4 ≤ 2 ^ 15 - 1 then
             Except.ok (4 * 2 ^ 26 + rsv * 2 ^ 21 + rtv * 2 ^ 16 +
               maskBits (((T : Int) - ((A : Int) + 4)).fdiv 4) 16)
           else Except.error (.branchTooFar lab))
         else Except.error (.branchNotAligned lab)) := by
  simp only [encode_i_type, parseIOps, ha, hb]
  simp only [List.lookup, IVals.setField]
  simp
  cases resolve_label st lab with
  | none => rfl
  | some T =>
    dsimp only
    split_ifs <;> rfl

/-- Characterization of `_encode_i_type` on `bne` with valid registers. -/
theorem encode_char_bne (a b lab : String) (A ln : Nat) (st : List (String × Nat))
    (rsv rtv : Nat) (ha : parse_register a = .ok rsv)
    (hb : parse_register b = .ok rtv) :
    encode_i_type st ⟨"bne", [a, b, lab], A, ln⟩ =
      (match resolve_label st lab with
       | none => Except.error (.undefinedLabel lab)
       | some T =>
         if ((T : Int) - ((A : Int) + 4)).emod 4 = 0 then
           (if -(2 ^ 15) ≤ ((T : Int) - ((A : Int) + 4)).fdiv 4 ∧
               ((T : Int) - ((A : Int) + 4)).fdiv 4 ≤ 2 ^ 15 - 1 then
             Except.ok (5 * 2 ^ 26 + rsv * 2 ^ 21 + rtv * 2 ^ 16 +
               maskBits (((T : Int) - ((A : Int) + 4)).fdiv 4) 16)
           else Except.error (.branchTooFar lab))
         else Except.error (.branchNotAligned lab)) := by
  simp only [encode_i_type, parseIOps, ha, hb]
  simp only [List.lookup, IVals.setField]
  simp
  cases resolve_label st lab with
  | none => rfl
  | some T =>
    dsimp only
    split_ifs <;> rfl

/-- Characterization of `_encode_i_type` on `blez` with a valid register. -/
theorem encode_char_blez (a lab : String) (A ln : Nat) (st : List (String × Nat))
    (rsv : Nat) (ha : parse_register a = .ok rsv) :
    encode_i_type st ⟨"blez", [a, lab], A, ln⟩ =
      (match resolve_label st lab with
       | none => Except.error (.undefinedLabel lab)
       | some T =>
         if ((T : Int) - ((A : Int) + 4)).emod 4 = 0 then
           (if -(2 ^ 15) ≤ ((T : Int) - ((A : Int) + 4)).fdiv 4 ∧
               ((T : Int) - ((A : Int) + 4)).fdiv 4 ≤ 2 ^ 15 - 1 then
             Except.ok (6 * 2 ^ 26 + rsv * 2 ^ 21 + 0 * 2 ^ 16 +
               maskBits (((T : Int) - ((A : Int) + 4)).fdiv 4) 16)
           else Except.error (.branchTooFar lab))
         else Except.error (.branchNotAligned lab)) := by
  simp only [encode_i_type, parseIOps, ha]
  simp only [List.lookup, IVals.setField]
  simp
  cases resolve_label st lab with
  | none => rfl
  | some T =>
    dsimp only
    split_ifs <;> rfl

/-- Characterization of `_encode_i_type` on `bgtz` with a valid register. -/
theorem encode_char_bgtz (a lab : String) (A ln : Nat) (st : List (String × Nat))
    (rsv : Nat) (ha : parse_register a = .ok rsv) :
    encode_i_type st ⟨"bgtz", [a, lab], A, ln⟩ =
      (match resolve_label st lab with
       | none => Except.error (.undefinedLabel lab)
       | some T =>
         if ((T : Int) - ((A : Int) + 4)).emod 4 = 0 then
           (if -(2 ^ 15) ≤ ((T : Int) - ((A : Int) + 4)).fdiv 4 ∧
               ((T : Int) - ((A : Int) + 4)).fdiv 4 ≤ 2 ^ 15 - 1 then
             Except.ok (7 * 2 ^ 26 + rsv * 2 ^ 21 + 0 * 2 ^ 16 +
               maskBits (((T : Int) - ((A : Int) + 4)).fdiv 4) 16)
           else Except.error (.branchTooFar lab))
         else Except.error (.branchNotAligned lab)) := by
  simp only [encode_i_type, parseIOps, ha]
  simp only [List.lookup, IVals.setField]
  simp
  cases resolve_label st lab with
  | none => rfl
  | some T =>
    dsimp only
    split_ifs <;> rfl

/-- Characterization of `_encode_i_type` on `bltz` with a valid register. -/
theorem encode_char_bltz (a lab : String) (A ln : Nat) (st : List (String × Nat))
    (rsv : Nat) (ha : parse_register a = .ok rsv) :
    encode_i_type st ⟨"bltz", [a, lab], A, ln⟩ =
      (match resolve_label st lab with
       | none => Except.error (.undefinedLabel lab)
       | some T =>
         if ((T : Int) - ((A : Int) + 4)).emod 4 = 0 then
           (if -(2 ^ 15) ≤ ((T : Int) - ((A : Int) + 4)).fdiv 4 ∧
               ((T : Int) - ((A : Int) + 4)).fdiv 4 ≤ 2 ^ 15 - 1 then
             Except.ok (1 * 2 ^ 26 + rsv * 2 ^ 21 + 0 * 2 ^ 16 +
               maskBits (((T : Int) - ((A : Int) + 4)).fdiv 4) 16)
           else Except.error (.branchTooFar lab))
         else Except.error (.branchNotAligned lab)) := by
  simp only [encode_i_type, parseIOps, ha]
  simp only [List.lookup, IVals.setField]
  simp
  cases resolve_label st lab with
  | none => rfl
  | some T =>
    dsimp only
    split_ifs <;> rfl

/-- Characterization of `_encode_i_type` on `bgez` with a valid register. -/
theorem encode_char_bgez (a lab : String) (A ln : Nat) (st : List (String × Nat))
    (rsv : Nat) (ha : parse_register a = .ok rsv) :
    encode_i_type st ⟨"bgez", [a, lab], A, ln⟩ =
      (match resolve_label st lab with
       | none => Except.error (.undefinedLabel lab)
       | some T =>
         if ((T : Int) - ((A : Int) + 4)).emod 4 = 0 then
           (if -(2 ^ 15) ≤ ((T : Int) - ((A : Int) + 4)).fdiv 4 ∧
               ((T : Int) - ((A : Int) + 4)).fdiv 4 ≤ 2 ^ 15 - 1 then
             Except.ok (1 * 2 ^ 26 + rsv * 2 ^ 21 + 1 * 2 ^ 16 +
               maskBits (((T : Int) - ((A : Int) + 4)).fdiv 4) 16)
           else Except.error (.branchTooFar lab))
         else Except.error (.branchNotAligned lab)) := by
  simp only [encode_i_type, parseIOps, ha]
  simp only [List.lookup, IVals.setField]
  simp
  cases resolve_label st lab with
  | none => rfl
  | some T =>
    dsimp only
    split_ifs <;> rfl

/-- Characterization of `_encode_i_type` on `bltzal` with a valid register. -/
theorem encode_char_bltzal (a lab : String) (A ln : Nat) (st : List (String × Nat))
    (rsv : Nat) (ha : parse_register a = .ok rsv) :
    encode_i_type st ⟨"bltzal", [a, lab], A, ln⟩ =
      (match resolve_label st lab with
       | none => Except.error (.undefinedLabel lab)
       | some T =>
         if ((T : Int) - ((A : Int) + 4)).emod 4 = 0 then
           (if -(2 ^ 15) ≤ ((T : Int) - ((A : Int) + 4)).fdiv 4 ∧
               ((T : Int) - ((A : Int) + 4)).fdiv 4 ≤ 2 ^ 15 - 1 then
             Except.ok (1 * 2 ^ 26 + rsv * 2 ^ 21 + 16 * 2 ^ 16 +
               maskBits (((T : Int) - ((A : Int) + 4)).fdiv 4) 16)
           else Except.error (.branchTooFar lab))
         else Except.error (.branchNotAligned lab)) := by
  simp only [encode_i_type, parseIOps, ha]
  simp only [List.lookup, IVals.setField]
  simp
  cases resolve_label st lab with
  | none => rfl
  | some T =>
    dsimp only
    split_ifs <;> rfl

/-- Characterization of `_encode_i_type` on `bgezal` with a valid register. -/
theorem encode_char_bgezal (a lab : String) (A ln : Nat) (st : List (String × Nat))
    (rsv : Nat) (ha : parse_register a = .ok rsv) :
    encode_i_type st ⟨"bgezal", [a, lab], A, ln⟩ =
      (match resolve_label st lab with
       | none => Except.error (.undefinedLabel lab)
       | some T =>
         if ((T : Int) - ((A : Int) + 4)).emod 4 = 0 then
           (if -(2 ^ 15) ≤ ((T : Int) - ((A : Int) + 4)).fdiv 4 ∧
               ((T : Int) - ((A : Int) + 4)).fdiv 4 ≤ 2 ^ 15 - 1 then
             Except.ok (1 * 2 ^ 26 + rsv * 2 ^ 21 + 17 * 2 ^ 16 +
               maskBits (((T : Int) - ((A : Int) + 4)).fdiv 4) 16)
           else Except.error (.branchTooFar lab))
         else Except.error (.branchNotAligned lab)) := by
  simp only [encode_i_type, parseIOps, ha]
  simp only [List.lookup, IVals.setField]
  simp
  cases resolve_label st lab with
  | none => rfl
  | some T =>
    dsimp only
    split_ifs <;> rfl

/-- From a branch characterization, derive C3's success/failure and
immediate-field facts. -/
theorem branch_char_spec (st : List (String × Nat)) (d : InstrDetails)
    (lab : String) (opc rsv rtf : Nat)
    (hchar : encode_i_type st d =
      (match resolve_label st lab with
       | none => Except.error (.undefinedLabel lab)
       | some T =>
         if ((T : Int) - ((d.address : Int) + 4)).emod 4 = 0 then
           (if -(2 ^ 15) ≤ ((T : Int) - ((d.address : Int) + 4)).fdiv 4 ∧
               ((T : Int) - ((d.address : Int) + 4)).fdiv 4 ≤ 2 ^ 15 - 1 then
             Except.ok (opc * 2 ^ 26 + rsv * 2 ^ 21 + rtf * 2 ^ 16 +
               maskBits (((T : Int) - ((d.address : Int) + 4)).fdiv 4) 16)
           else Except.error (.branchTooFar lab))
         else Except.error (.branchNotAligned lab)))
    (hdisp : encode_instruction st d = encode_i_type st d) :
    ((∃ w, encode_i_type st d = .ok w) ↔
      (∃ T, resolve_label st lab = some T ∧
        ((T : Int) - ((d.address : Int) + 4)).emod 4 = 0 ∧
        -(2 ^ 15) ≤ ((T : Int) - ((d.address : Int) + 4)).fdiv 4 ∧
        ((T : Int) - ((d.address : Int) + 4)).fdiv 4 ≤ 2 ^ 15 - 1)) ∧
    (∀ w T, encode_i_type st d = .ok w → resolve_label st lab = some T →
      w % 2 ^ 16 = maskBits (((T : Int) - ((d.address : Int) + 4)).fdiv 4) 16) ∧
    (∀ e, encode_i_type st d = .error e →
      pass_2b st [d] = ([], [⟨d.line_num, e⟩])) := by
  refine ⟨?_, ?_, ?_⟩
  · rw [hchar]
    cases hT : resolve_label st lab with
    | none => simp
    | some T =>
      dsimp only
      split_ifs with h1 h2
      · constructor
        · intro _
          exact ⟨T, rfl, h1, h2.1, h2.2⟩
        · intro _
          exact ⟨_, rfl⟩
      · constructor
        · rintro ⟨w, hw⟩
          exact hw.elim
        · rintro ⟨T2, hT2, _, hr1, hr2⟩
          injection hT2 with hT2e
          subst hT2e
          exact absurd ⟨hr1, hr2⟩ h2
      · constructor
        · rintro ⟨w, hw⟩
          exact hw.elim
        · rintro ⟨T2, hT2, hal, _⟩
          injection hT2 with hT2e
          subst hT2e
          exact absurd hal h1
  · intro w T hw hT
    rw [hchar, hT] at hw
    dsimp only at hw
    split_ifs at hw with h1 h2
    · injection hw with hwe
      have hm := maskBits_lt (((T : Int) - ((d.address : Int) + 4)).fdiv 4) 16
      omega
  · intro e he
    unfold pass_2b
    rw [hdisp, he]

/-- C3: for every branch mnemonic (`beq`, `bne`, `blez`, `bgtz`, `bltz`,
`bgez`, `bltzal`, `bgezal`) with valid register operands, the encoder
succeeds exactly when the label resolves to some address T with
T - (A + 4) a multiple of 4 and the word offset (T - (A + 4)) / 4 within
-32768..32767; on success the immediate field (low 16 bits of the word)
holds that word offset in 16-bit two's-complement form; and on any
failure the error is recorded and pass 2b emits no machine word for the
instruction. -/
theorem branch_offset_encoding (m a b lab : String) (ops : List String)
    (A ln : Nat) (st : List (String × Nat)) (rsv rtv : Nat)
    (hcase :
      ((m = "beq" ∨ m = "bne") ∧ ops = [a, b, lab] ∧
        parse_register a = .ok rsv ∧ parse_register b = .ok rtv) ∨
      ((m = "blez" ∨ m = "bgtz" ∨ m = "bltz" ∨ m = "bgez" ∨ m = "bltzal" ∨
        m = "bgezal") ∧ ops = [a, lab] ∧ parse_register a = .ok rsv)) :
    ((∃ w, encode_i_type st ⟨m, ops, A, ln⟩ = .ok w) ↔
      (∃ T, resolve_label st lab = some T ∧
        ((T : Int) - ((A : Int) + 4)).emod 4 = 0 ∧
        -(2 ^ 15) ≤ ((T : Int) - ((A : Int) + 4)).fdiv 4 ∧
        ((T : Int) - ((A : Int) + 4)).fdiv 4 ≤ 2 ^ 15 - 1)) ∧
    (∀ w T, encode_i_type st ⟨m, ops, A, ln⟩ = .ok w →
      resolve_label st lab = some T →
      w % 2 ^ 16 = maskBits (((T : Int) - ((A : Int) + 4)).fdiv 4) 16) ∧
    (∀ e, encode_i_type st ⟨m, ops, A, ln⟩ = .error e →
      pass_2b st [⟨m, ops, A, ln⟩] = ([], [⟨ln, e⟩])) := by
  rcases hcase with ⟨hm, hops, ha, hb⟩ | ⟨hm, hops, ha⟩
  · subst hops
    rcases hm with rfl | rfl
    · exact branch_char_spec st ⟨"beq", [a, b, lab], A, ln⟩ lab 4 rsv rtv
        (encode_char_beq a b lab A ln st rsv rtv ha hb) rfl
    · exact branch_char_spec st ⟨"bne", [a, b, lab], A, ln⟩ lab 5 rsv rtv
        (encode_char_bne a b lab A ln st rsv rtv ha hb) rfl
  · subst hops
    rcases hm with rfl | rfl | rfl | rfl | rfl | rfl
    · exact branch_char_spec st ⟨"blez", [a, lab], A, ln⟩ lab 6 rsv 0
        (encode_char_blez a lab A ln st rsv ha) rfl
    · exact branch_char_spec st ⟨"bgtz", [a, lab], A, ln⟩ lab 7 rsv 0
        (encode_char_bgtz a lab A ln st rsv ha) rfl
    · exact branch_char_spec st ⟨"bltz", [a, lab], A, ln⟩ lab 1 rsv 0
        (encode_char_bltz a lab A ln st rsv ha) rfl
    · exact branch_char_spec st ⟨"bgez", [a, lab], A, ln⟩ lab 1 rsv 1
        (encode_char_bgez a lab A ln st rsv ha) rfl
    · exact branch_char_spec st ⟨"bltzal", [a, lab], A, ln⟩ lab 1 rsv 16
        (encode_char_bltzal a lab A ln st rsv ha) rfl
    · exact branch_char_spec st ⟨"bgezal", [a, lab], A, ln⟩ lab 1 rsv 17
        (encode_char_bgezal a lab A ln st rsv ha) rfl

/-- C3 (witness): the fixture branch `beq $t0, $t1, end` at address
0x00400000 with `end` at 0x0040000c encodes successfully with immediate
field 2; `beq $t0, $t1, far` with `far` out of the 16-bit window fails
and pass 2b emits no machine word. -/
theorem branch_offset_encoding_witness :
    (∃ w, encode_i_type [("end", 0x0040000c)]
      ⟨"beq", ["$t0", "$t1", "end"], 0x00400000, 1⟩ = .ok w) ∧
    (0x11090002 : Nat) % 2 ^ 16 =
      maskBits ((((0x0040000c : Nat) : Int) - (((0x00400000 : Nat) : Int) + 4)).fdiv 4) 16 ∧
    pass_2b [("far", 0x00600000)]
      [⟨"beq", ["$t0", "$t1", "far"], 0x00400000, 1⟩] =
      ([], [⟨1, .branchTooFar "far"⟩]) := by
  have h1 := branch_offset_encoding "beq" "$t0" "$t1" "end" ["$t0", "$t1", "end"]
    0x00400000 1 [("end", 0x0040000c)] 8 9
    (Or.inl ⟨Or.inl rfl, rfl, by decide, by decide⟩)
  have h2 := branch_offset_encoding "beq" "$t0" "$t1" "far" ["$t0", "$t1", "far"]
    0x00400000 1 [("far", 0x00600000)] 8 9
    (Or.inl ⟨Or.inl rfl, rfl, by decide, by decide⟩)
  refine ⟨h1.1.mpr ⟨0x0040000c, by decide, by decide, by decide, by decide⟩,
    by decide, h2.2.2 (.branchTooFar "far") (by decide)⟩

end Mips

namespace Mips

theorem lookup_val_lt {β : Type} (P : β → Prop) (l : List (String × β)) (a : String) (v : β)
    (hall : ∀ p ∈ l, P p.2) (h : List.lookup a l = some v) : P v := by
  induction l with
  | nil => simp [List.lookup] at h
  | cons p rest ih =>
    rw [List.lookup] at h
    cases he : (a == p.1) with
    | true =>
      rw [he] at h
      injection h with h2
      exact h2 ▸ hall p (by simp)
    | false =>
      rw [he] at h
      exact ih (fun q hq => hall q (by simp [hq])) h

theorem parse_register_lt (s : String) (r : Nat) (h : parse_register s = .ok r) :
    r < 32 := by
  unfold parse_register at h
  split at h
  · exact Except.noConfusion h
  · split at h
    · injection h with h2
      subst h2
      exact lookup_val_lt (fun v => v < 32) REGISTER_MAP _ _ (by decide) (by assumption)
    · exact Except.noConfusion h

theorem parse_immediate_ok_signed16 (s : String) (v : Nat)
    (h : parse_immediate s 16 true = .ok v) :
    ∃ val : Int, pyParseIntBase0 s = some val ∧ -(2 ^ 15) ≤ val ∧ val ≤ 2 ^ 15 - 1 ∧
      v = maskBits val 16 := by
  unfold parse_immediate at h
  split at h
  · exact Except.noConfusion h
  · split at h
    · exact Except.noConfusion h
    · rw [if_pos rfl] at h
      split at h
      · injection h with h2
        refine ⟨_, by assumption, ?_, ?_, h2.symm⟩ <;> omega
      · exact Except.noConfusion h

theorem parse_immediate_ok_unsigned (s : String) (bits : Nat) (v : Nat)
    (h : parse_immediate s bits false = .ok v) :
    ∃ val : Int, pyParseIntBase0 s = some val ∧ 0 ≤ val ∧ val ≤ (2 : Int) ^ bits - 1 ∧
      v = val.toNat := by
  unfold parse_immediate at h
  split at h
  · exact Except.noConfusion h
  · split at h
    · exact Except.noConfusion h
    · rw [if_neg (by simp)] at h
      split at h
      · injection h with h2
        exact ⟨_, by assumption, by omega, by omega, h2.symm⟩
      · exact Except.noConfusion h

theorem int_emod_eq_mod (a b : Int) : a.emod b = a % b := rfl

theorem int_fdiv_eq_div4 (a : Int) : a.fdiv 4 = a / 4 :=
  Int.fdiv_eq_ediv a (by norm_num)

theorem sign_extend_maskBits (x : Int) (h1 : -(2 ^ 15) ≤ x) (h2 : x ≤ 2 ^ 15 - 1) :
    sign_extend_imm (maskBits x 16) 16 = x := by
  unfold sign_extend_imm maskBits
  simp only [int_emod_eq_mod, show (16 : Nat) - 1 = 15 from rfl]
  split
  next h => omega
  next h => omega

theorem parseIOps_short (instr : String) (st : List (String × Nat)) (address : Nat) :
    ∀ (fmt ops : List String) (acc v : IVals), ops.length < fmt.length →
      parseIOps instr st address fmt ops acc = .ok v → False := by
  intro fmt
  induction fmt with
  | nil => intro ops acc v hlen _; simp at hlen
  | cons t ft ih =>
    intro ops acc v hlen hok
    cases ops with
    | nil => simp [parseIOps] at hok
    | cons o os =>
      simp only [List.length_cons, Nat.add_lt_add_iff_right] at hlen
      rw [parseIOps] at hok
      split at hok
      · split at hok
        · exact ih _ _ _ hlen hok
        · exact Except.noConfusion hok
      · split at hok
        · split at hok
          · exact ih _ _ _ hlen hok
          · exact Except.noConfusion hok
        · split at hok
          · split at hok
            · exact Except.noConfusion hok
            · dsimp only at hok
              split at hok
              · exact Except.noConfusion hok
              · split at hok
                · exact ih _ _ _ hlen hok
                · exact Except.noConfusion hok
          · exact ih _ _ _ hlen hok

end Mips

namespace Mips

/-- Round-trip lemma for `add`. -/
theorem rt_add (ops : List String) (A ln : Nat) (st : List (String × Nat)) (w : Nat)
    (hlen : ops.length ≤ 3) (hw0 : w ≠ 0)
    (henc : encode_instruction st ⟨"add", ops, A, ln⟩ = .ok w) :
    specRoundTripForm st ⟨"add", ops, A, ln⟩ = some (disassemble_instruction w A) := by
  rcases ops with _ | ⟨aS, _ | ⟨bS, _ | ⟨cS, _ | ⟨dS, rest⟩⟩⟩⟩
  · simp [encode_instruction, encode_r_type, R_TYPE_FUNCT, List.lookup] at henc
  · simp [encode_instruction, encode_r_type, R_TYPE_FUNCT, R_TYPE_FORMATS, List.lookup] at henc
  · simp [encode_instruction, encode_r_type, R_TYPE_FUNCT, R_TYPE_FORMATS, List.lookup] at henc
  · simp only [encode_instruction, encode_r_type, parseROps, RVals.setField,
      R_TYPE_FUNCT, R_TYPE_FORMATS, List.lookup] at henc
    simp at henc
    cases hra : parse_register aS with
    | error e => rw [hra] at henc; simp at henc
    | ok rd =>
    cases hrb : parse_register bS with
    | error e => rw [hra, hrb] at henc; simp at henc
    | ok rs =>
    cases hrc : parse_register cS with
    | error e => rw [hra, hrb, hrc] at henc; simp at henc
    | ok rt =>
    rw [hra, hrb, hrc] at henc
    simp at henc
    have hrd := parse_register_lt _ _ hra
    have hrs := parse_register_lt _ _ hrb
    have hrt := parse_register_lt _ _ hrc
    have hop : opcodeOf w = 0 := by unfold opcodeOf; omega
    have hfn : functOf w = 0x20 := by unfold functOf; omega
    have hrsf : rsOf w = rs := by unfold rsOf; omega
    have hrtf : rtOf w = rt := by unfold rtOf; omega
    have hrdf : rdOf w = rd := by unfold rdOf; omega
    unfold disassemble_instruction
    rw [hop, if_pos rfl, if_neg hw0, hfn]
    simp only [List.lookup]
    norm_num [R3_MNEMONICS]
    rw [hrsf, hrtf, hrdf]
    simp [specRoundTripForm, regNum, hra, hrb, hrc, R3_MNEMONICS, Except.toOption]
  · simp only [List.length_cons] at hlen; omega

/-- Round-trip lemma for `addu`. -/
theorem rt_addu (ops : List String) (A ln : Nat) (st : List (String × Nat)) (w : Nat)
    (hlen : ops.length ≤ 3) (hw0 : w ≠ 0)
    (henc : encode_instruction st ⟨"addu", ops, A, ln⟩ = .ok w) :
    specRoundTripForm st ⟨"addu", ops, A, ln⟩ = some (disassemble_instruction w A) := by
  rcases ops with _ | ⟨aS, _ | ⟨bS, _ | ⟨cS, _ | ⟨dS, rest⟩⟩⟩⟩
  · simp [encode_instruction, encode_r_type, R_TYPE_FUNCT, List.lookup] at henc
  · simp [encode_instruction, encode_r_type, R_TYPE_FUNCT, R_TYPE_FORMATS, List.lookup] at henc
  · simp [encode_instruction, encode_r_type, R_TYPE_FUNCT, R_TYPE_FORMATS, List.lookup] at henc
  · simp only [encode_instruction, encode_r_type, parseROps, RVals.setField,
      R_TYPE_FUNCT, R_TYPE_FORMATS, List.lookup] at henc
    simp at henc
    cases hra : parse_register aS with
    | error e => rw [hra] at henc; simp at henc
    | ok rd =>
    cases hrb : parse_register bS with
    | error e => rw [hra, hrb] at henc; simp at henc
    | ok rs =>
    cases hrc : parse_register cS with
    | error e => rw [hra, hrb, hrc] at henc; simp at henc
    | ok rt =>
    rw [hra, hrb, hrc] at henc
    simp at henc
    have hrd := parse_register_lt _ _ hra
    have hrs := parse_register_lt _ _ hrb
    have hrt := parse_register_lt _ _ hrc
    have hop : opcodeOf w = 0 := by unfold opcodeOf; omega
    have hfn : functOf w = 0x21 := by unfold functOf; omega
    have hrsf : rsOf w = rs := by unfold rsOf; omega
    have hrtf : rtOf w = rt := by unfold rtOf; omega
    have hrdf : rdOf w = rd := by unfold rdOf; omega
    unfold disassemble_instruction
    rw [hop, if_pos rfl, if_neg hw0, hfn]
    simp only [List.lookup]
    norm_num [R3_MNEMONICS]
    rw [hrsf, hrtf, hrdf]
    simp [specRoundTripForm, regNum, hra, hrb, hrc, R3_MNEMONICS, Except.toOption]
  · simp only [List.length_cons] at hlen; omega

/-- Round-trip lemma for `sub`. -/
theorem rt_sub (ops : List String) (A ln : Nat) (st : List (String × Nat)) (w : Nat)
    (hlen : ops.length ≤ 3) (hw0 : w ≠ 0)
    (henc : encode_instruction st ⟨"sub", ops, A, ln⟩ = .ok w) :
    specRoundTripForm st ⟨"sub", ops, A, ln⟩ = some (disassemble_instruction w A) := by
  rcases ops with _ | ⟨aS, _ | ⟨bS, _ | ⟨cS, _ | ⟨dS, rest⟩⟩⟩⟩
  · simp [encode_instruction, encode_r_type, R_TYPE_FUNCT, List.lookup] at henc
  · simp [encode_instruction, encode_r_type, R_TYPE_FUNCT, R_TYPE_FORMATS, List.lookup] at henc
  · simp [encode_instruction, encode_r_type, R_TYPE_FUNCT, R_TYPE_FORMATS, List.lookup] at henc
  · simp only [encode_instruction, encode_r_type, parseROps, RVals.setField,
      R_TYPE_FUNCT, R_TYPE_FORMATS, List.lookup] at henc
    simp at henc
    cases hra : parse_register aS with
    | error e => rw [hra] at henc; simp at henc
    | ok rd =>
    cases hrb : parse_register bS with
    | error e => rw [hra, hrb] at henc; simp at henc
    | ok rs =>
    cases hrc : parse_register cS with
    | error e => rw [hra, hrb, hrc] at henc; simp at henc
    | ok rt =>
    rw [hra, hrb, hrc] at henc
    simp at henc
    have hrd := parse_register_lt _ _ hra
    have hrs := parse_register_lt _ _ hrb
    have hrt := parse_register_lt _ _ hrc
    have hop : opcodeOf w = 0 := by unfold opcodeOf; omega
    have hfn : functOf w = 0x22 := by unfold functOf; omega
    have hrsf : rsOf w = rs := by unfold rsOf; omega
    have hrtf : rtOf w = rt := by unfold rtOf; omega
    have hrdf : rdOf w = rd := by unfold rdOf; omega
    unfold disassemble_instruction
    rw [hop, if_pos rfl, if_neg hw0, hfn]
    simp only [List.lookup]
    norm_num [R3_MNEMONICS]
    rw [hrsf, hrtf, hrdf]
    simp [specRoundTripForm, regNum, hra, hrb, hrc, R3_MNEMONICS, Except.toOption]
  · simp only [List.length_cons] at hlen; omega

/-- Round-trip lemma for `subu`. -/
theorem rt_subu (ops : List String) (A ln : Nat) (st : List (String × Nat)) (w : Nat)
    (hlen : ops.length ≤ 3) (hw0 : w ≠ 0)
    (henc : encode_instruction st ⟨"subu", ops, A, ln⟩ = .ok w) :
    specRoundTripForm st ⟨"subu", ops, A, ln⟩ = some (disassemble_instruction w A) := by
  rcases ops with _ | ⟨aS, _ | ⟨bS, _ | ⟨cS, _ | ⟨dS, rest⟩⟩⟩⟩
  · simp [encode_instruction, encode_r_type, R_TYPE_FUNCT, List.lookup] at henc
  · simp [encode_instruction, encode_r_type, R_TYPE_FUNCT, R_TYPE_FORMATS, List.lookup] at henc
  · simp [encode_instruction, encode_r_type, R_TYPE_FUNCT, R_TYPE_FORMATS, List.lookup] at henc
  · simp only [encode_instruction, encode_r_type, parseROps, RVals.setField,
      R_TYPE_FUNCT, R_TYPE_FORMATS, List.lookup] at henc
    simp at henc
    cases hra : parse_register aS with
    | error e => rw [hra] at henc; simp at henc
    | ok rd =>
    cases hrb : parse_register bS with
    | error e => rw [hra, hrb] at henc; simp at henc
    | ok rs =>
    cases hrc : parse_register cS with
    | error e => rw [hra, hrb, hrc] at henc; simp at henc
    | ok rt =>
    rw [hra, hrb, hrc] at henc
    simp at henc
    have hrd := parse_register_lt _ _ hra
    have hrs := parse_register_lt _ _ hrb
    have hrt := parse_register_lt _ _ hrc
    have hop : opcodeOf w = 0 := by unfold opcodeOf; omega
    have hfn : functOf w = 0x23 := by unfold functOf; omega
    have hrsf : rsOf w = rs := by unfold rsOf; omega
    have hrtf : rtOf w = rt := by unfold rtOf; omega
    have hrdf : rdOf w = rd := by unfold rdOf; omega
    unfold disassemble_instruction
    rw [hop, if_pos rfl, if_neg hw0, hfn]
    simp only [List.lookup]
    norm_num [R3_MNEMONICS]
    rw [hrsf, hrtf, hrdf]
    simp [specRoundTripForm, regNum, hra, hrb, hrc, R3_MNEMONICS, Except.toOption]
  · simp only [List.length_cons] at hlen; omega

/-- Round-trip lemma for `and`. -/
theorem rt_and (ops : List String) (A ln : Nat) (st : List (String × Nat)) (w : Nat)
    (hlen : ops.length ≤ 3) (hw0 : w ≠ 0)
    (henc : encode_instruction st ⟨"and", ops, A, ln⟩ = .ok w) :
    specRoundTripForm st ⟨"and", ops, A, ln⟩ = some (disassemble_instruction w A) := by
  rcases ops with _ | ⟨aS, _ | ⟨bS, _ | ⟨cS, _ | ⟨dS, rest⟩⟩⟩⟩
  · simp [encode_instruction, encode_r_type, R_TYPE_FUNCT, List.lookup] at henc
  · simp [encode_instruction, encode_r_type, R_TYPE_FUNCT, R_TYPE_FORMATS, List.lookup] at henc
  · simp [encode_instruction, encode_r_type, R_TYPE_FUNCT, R_TYPE_FORMATS, List.lookup] at henc
  · simp only [encode_instruction, encode_r_type, parseROps, RVals.setField,
      R_TYPE_FUNCT, R_TYPE_FORMATS, List.lookup] at henc
    simp at henc
    cases hra : parse_register aS with
    | error e => rw [hra] at henc; simp at henc
    | ok rd =>
    cases hrb : parse_register bS with
    | error e => rw [hra, hrb] at henc; simp at henc
    | ok rs =>
    cases hrc : parse_register cS with
    | error e => rw [hra, hrb, hrc] at henc; simp at henc
    | ok rt =>
    rw [hra, hrb, hrc] at henc
    simp at henc
    have hrd := parse_register_lt _ _ hra
    have hrs := parse_register_lt _ _ hrb
    have hrt := parse_register_lt _ _ hrc
    have hop : opcodeOf w = 0 := by unfold opcodeOf; omega
    have hfn : functOf w = 0x24 := by unfold functOf; omega
    have hrsf : rsOf w = rs := by unfold rsOf; omega
    have hrtf : rtOf w = rt := by unfold rtOf; omega
    have hrdf : rdOf w = rd := by unfold rdOf; omega
    unfold disassemble_instruction
    rw [hop, if_pos rfl, if_neg hw0, hfn]
    simp only [List.lookup]
    norm_num [R3_MNEMONICS]
    rw [hrsf, hrtf, hrdf]
    simp [specRoundTripForm, regNum, hra, hrb, hrc, R3_MNEMONICS, Except.toOption]
  · simp only [List.length_cons] at hlen; omega

/-- Round-trip lemma for `or`. -/
theorem rt_or (ops : List String) (A ln : Nat) (st : List (String × Nat)) (w : Nat)
    (hlen : ops.length ≤ 3) (hw0 : w ≠ 0)
    (henc : encode_instruction st ⟨"or", ops, A, ln⟩ = .ok w) :
    specRoundTripForm st ⟨"or", ops, A, ln⟩ = some (disassemble_instruction w A) := by
  rcases ops with _ | ⟨aS, _ | ⟨bS, _ | ⟨cS, _ | ⟨dS, rest⟩⟩⟩⟩
  · simp [encode_instruction, encode_r_type, R_TYPE_FUNCT, List.lookup] at henc
  · simp [encode_instruction, encode_r_type, R_TYPE_FUNCT, R_TYPE_FORMATS, List.lookup] at henc
  · simp [encode_instruction, encode_r_type, R_TYPE_FUNCT, R_TYPE_FORMATS, List.lookup] at henc
  · simp only [encode_instruction, encode_r_type, parseROps, RVals.setField,
      R_TYPE_FUNCT, R_TYPE_FORMATS, List.lookup] at henc
    simp at henc
    cases hra : parse_register aS with
    | error e => rw [hra] at henc; simp at henc
    | ok rd =>
    cases hrb : parse_register bS with
    | error e => rw [hra, hrb] at henc; simp at henc
    | ok rs =>
    cases hrc : parse_register cS with
    | error e => rw [hra, hrb, hrc] at henc; simp at henc
    | ok rt =>
    rw [hra, hrb, hrc] at henc
    simp at henc
    have hrd := parse_register_lt _ _ hra
    have hrs := parse_register_lt _ _ hrb
    have hrt := parse_register_lt _ _ hrc
    have hop : opcodeOf w = 0 := by unfold opcodeOf; omega
    have hfn : functOf w = 0x25 := by unfold functOf; omega
    have hrsf : rsOf w = rs := by unfold rsOf; omega
    have hrtf : rtOf w = rt := by unfold rtOf; omega
    have hrdf : rdOf w = rd := by unfold rdOf; omega
    unfold disassemble_instruction
    rw [hop, if_pos rfl, if_neg hw0, hfn]
    simp only [List.lookup]
    norm_num [R3_MNEMONICS]
    rw [hrsf, hrtf, hrdf]
    simp [specRoundTripForm, regNum, hra, hrb, hrc, R3_MNEMONICS, Except.toOption]
  · simp only [List.length_cons] at hlen; omega

/-- Round-trip lemma for `xor`. -/
theorem rt_xor (ops : List String) (A ln : Nat) (st : List (String × Nat)) (w : Nat)
    (hlen : ops.length ≤ 3) (hw0 : w ≠ 0)
    (henc : encode_instruction st ⟨"xor", ops, A, ln⟩ = .ok w) :
    specRoundTripForm st ⟨"xor", ops, A, ln⟩ = some (disassemble_instruction w A) := by
  rcases ops with _ | ⟨aS, _ | ⟨bS, _ | ⟨cS, _ | ⟨dS, rest⟩⟩⟩⟩
  · simp [encode_instruction, encode_r_type, R_TYPE_FUNCT, List.lookup] at henc
  · simp [encode_instruction, encode_r_type, R_TYPE_FUNCT, R_TYPE_FORMATS, List.lookup] at henc
  · simp [encode_instruction, encode_r_type, R_TYPE_FUNCT, R_TYPE_FORMATS, List.lookup] at henc
  · simp only [encode_instruction, encode_r_type, parseROps, RVals.setField,
      R_TYPE_FUNCT, R_TYPE_FORMATS, List.lookup] at henc
    simp at henc
    cases hra : parse_register aS with
    | error e => rw [hra] at henc; simp at henc
    | ok rd =>
    cases hrb : parse_register bS with
    | error e => rw [hra, hrb] at henc; simp at henc
    | ok rs =>
    cases hrc : parse_register cS with
    | error e => rw [hra, hrb, hrc] at henc; simp at henc
    | ok rt =>
    rw [hra, hrb, hrc] at henc
    simp at henc
    have hrd := parse_register_lt _ _ hra
    have hrs := parse_register_lt _ _ hrb
    have hrt := parse_register_lt _ _ hrc
    have hop : opcodeOf w = 0 := by unfold opcodeOf; omega
    have hfn : functOf w = 0x26 := by unfold functOf; omega
    have hrsf : rsOf w = rs := by unfold rsOf; omega
    have hrtf : rtOf w = rt := by unfold rtOf; omega
    have hrdf : rdOf w = rd := by unfold rdOf; omega
    unfold disassemble_instruction
    rw [hop, if_pos rfl, if_neg hw0, hfn]
    simp only [List.lookup]
    norm_num [R3_MNEMONICS]
    rw [hrsf, hrtf, hrdf]
    simp [specRoundTripForm, regNum, hra, hrb, hrc, R3_MNEMONICS, Except.toOption]
  · simp only [List.length_cons] at hlen; omega

/-- Round-trip lemma for `nor`. -/
theorem rt_nor (ops : List String) (A ln : Nat) (st : List (String × Nat)) (w : Nat)
    (hlen : ops.length ≤ 3) (hw0 : w ≠ 0)
    (henc : encode_instruction st ⟨"nor", ops, A, ln⟩ = .ok w) :
    specRoundTripForm st ⟨"nor", ops, A, ln⟩ = some (disassemble_instruction w A) := by
  rcases ops with _ | ⟨aS, _ | ⟨bS, _ | ⟨cS, _ | ⟨dS, rest⟩⟩⟩⟩
  · simp [encode_instruction, encode_r_type, R_TYPE_FUNCT, List.lookup] at henc
  · simp [encode_instruction, encode_r_type, R_TYPE_FUNCT, R_TYPE_FORMATS, List.lookup] at henc
  · simp [encode_instruction, encode_r_type, R_TYPE_FUNCT, R_TYPE_FORMATS, List.lookup] at henc
  · simp only [encode_instruction, encode_r_type, parseROps, RVals.setField,
      R_TYPE_FUNCT, R_TYPE_FORMATS, List.lookup] at henc
    simp at henc
    cases hra : parse_register aS with
    | error e => rw [hra] at henc; simp at henc
    | ok rd =>
    cases hrb : parse_register bS with
    | error e => rw [hra, hrb] at henc; simp at henc
    | ok rs =>
    cases hrc : parse_register cS with
    | error e => rw [hra, hrb, hrc] at henc; simp at henc
    | ok rt =>
    rw [hra, hrb, hrc] at henc
    simp at henc
    have hrd := parse_register_lt _ _ hra
    have hrs := parse_register_lt _ _ hrb
    have hrt := parse_register_lt _ _ hrc
    have hop : opcodeOf w = 0 := by unfold opcodeOf; omega
    have hfn : functOf w = 0x27 := by unfold functOf; omega
    have hrsf : rsOf w = rs := by unfold rsOf; omega
    have hrtf : rtOf w = rt := by unfold rtOf; omega
    have hrdf : rdOf w = rd := by unfold rdOf; omega
    unfold disassemble_instruction
    rw [hop, if_pos rfl, if_neg hw0, hfn]
    simp only [List.lookup]
    norm_num [R3_MNEMONICS]
    rw [hrsf, hrtf, hrdf]
    simp [specRoundTripForm, regNum, hra, hrb, hrc, R3_MNEMONICS, Except.toOption]
  · simp only [List.length_cons] at hlen; omega

/-- Round-trip lemma for `slt`. -/
theorem rt_slt (ops : List String) (A ln : Nat) (st : List (String × Nat)) (w : Nat)
    (hlen : ops.length ≤ 3) (hw0 : w ≠ 0)
    (henc : encode_instruction st ⟨"slt", ops, A, ln⟩ = .ok w) :
    specRoundTripForm st ⟨"slt", ops, A, ln⟩ = some (disassemble_instruction w A) := by
  rcases ops with _ | ⟨aS, _ | ⟨bS, _ | ⟨cS, _ | ⟨dS, rest⟩⟩⟩⟩
  · simp [encode_instruction, encode_r_type, R_TYPE_FUNCT, List.lookup] at henc
  · simp [encode_instruction, encode_r_type, R_TYPE_FUNCT, R_TYPE_FORMATS, List.lookup] at henc
  · simp [encode_instruction, encode_r_type, R_TYPE_FUNCT, R_TYPE_FORMATS, List.lookup] at henc
  · simp only [encode_instruction, encode_r_type, parseROps, RVals.setField,
      R_TYPE_FUNCT, R_TYPE_FORMATS, List.lookup] at henc
    simp at henc
    cases hra : parse_register aS with
    | error e => rw [hra] at henc; simp at henc
    | ok rd =>
    cases hrb : parse_register bS with
    | error e => rw [hra, hrb] at henc; simp at henc
    | ok rs =>
    cases hrc : parse_register cS with
    | error e => rw [hra, hrb, hrc] at henc; simp at henc
    | ok rt =>
    rw [hra, hrb, hrc] at henc
    simp at henc
    have hrd := parse_register_lt _ _ hra
    have hrs := parse_register_lt _ _ hrb
    have hrt := parse_register_lt _ _ hrc
    have hop : opcodeOf w = 0 := by unfold opcodeOf; omega
    have hfn : functOf w = 0x2a := by unfold functOf; omega
    have hrsf : rsOf w = rs := by unfold rsOf; omega
    have hrtf : rtOf w = rt := by unfold rtOf; omega
    have hrdf : rdOf w = rd := by unfold rdOf; omega
    unfold disassemble_instruction
    rw [hop, if_pos rfl, if_neg hw0, hfn]
    simp only [List.lookup]
    norm_num [R3_MNEMONICS]
    rw [hrsf, hrtf, hrdf]
    simp [specRoundTripForm, regNum, hra, hrb, hrc, R3_MNEMONICS, Except.toOption]
  · simp only [List.length_cons] at hlen; omega

/-- Round-trip lemma for `sltu`. -/
theorem rt_sltu (ops : List String) (A ln : Nat) (st : List (String × Nat)) (w : Nat)
    (hlen : ops.length ≤ 3) (hw0 : w ≠ 0)
    (henc : encode_instruction st ⟨"sltu", ops, A, ln⟩ = .ok w) :
    specRoundTripForm st ⟨"sltu", ops, A, ln⟩ = some (disassemble_instruction w A) := by
  rcases ops with _ | ⟨aS, _ | ⟨bS, _ | ⟨cS, _ | ⟨dS, rest⟩⟩⟩⟩
  · simp [encode_instruction, encode_r_type, R_TYPE_FUNCT, List.lookup] at henc
  · simp [encode_instruction, encode_r_type, R_TYPE_FUNCT, R_TYPE_FORMATS, List.lookup] at henc
  · simp [encode_instruction, encode_r_type, R_TYPE_FUNCT, R_TYPE_FORMATS, List.lookup] at henc
  · simp only [encode_instruction, encode_r_type, parseROps, RVals.setField,
      R_TYPE_FUNCT, R_TYPE_FORMATS, List.lookup] at henc
    simp at henc
    cases hra : parse_register aS with
    | error e => rw [hra] at henc; simp at henc
    | ok rd =>
    cases hrb : parse_register bS with
    | error e => rw [hra, hrb] at henc; simp at henc
    | ok rs =>
    cases hrc : parse_register cS with
    | error e => rw [hra, hrb, hrc] at henc; simp at henc
    | ok rt =>
    rw [hra, hrb, hrc] at henc
    simp at henc
    have hrd := parse_register_lt _ _ hra
    have hrs := parse_register_lt _ _ hrb
    have hrt := parse_register_lt _ _ hrc
    have hop : opcodeOf w = 0 := by unfold opcodeOf; omega
    have hfn : functOf w = 0x2b := by unfold functOf; omega
    have hrsf : rsOf w = rs := by unfold rsOf; omega
    have hrtf : rtOf w = rt := by unfold rtOf; omega
    have hrdf : rdOf w = rd := by unfold rdOf; omega
    unfold disassemble_instruction
    rw [hop, if_pos rfl, if_neg hw0, hfn]
    simp only [List.lookup]
    norm_num [R3_MNEMONICS]
    rw [hrsf, hrtf, hrdf]
    simp [specRoundTripForm, regNum, hra, hrb, hrc, R3_MNEMONICS, Except.toOption]
  · simp only [List.length_cons] at hlen; omega

/-- Round-trip lemma for `sllv`. -/
theorem rt_sllv (ops : List String) (A ln : Nat) (st : List (String × Nat)) (w : Nat)
    (hlen : ops.length ≤ 3) (hw0 : w ≠ 0)
    (henc : encode_instruction st ⟨"sllv", ops, A, ln⟩ = .ok w) :
    specRoundTripForm st ⟨"sllv", ops, A, ln⟩ = some (disassemble_instruction w A) := by
  rcases ops with _ | ⟨aS, _ | ⟨bS, _ | ⟨cS, _ | ⟨dS, rest⟩⟩⟩⟩
  · simp [encode_instruction, encode_r_type, R_TYPE_FUNCT, List.lookup] at henc
  · simp [encode_instruction, encode_r_type, R_TYPE_FUNCT, R_TYPE_FORMATS, List.lookup] at henc
  · simp [encode_instruction, encode_r_type, R_TYPE_FUNCT, R_TYPE_FORMATS, List.lookup] at henc
  · simp only [encode_instruction, encode_r_type, parseROps, RVals.setField,
      R_TYPE_FUNCT, R_TYPE_FORMATS, List.lookup] at henc
    simp at henc
    cases hra : parse_register aS with
    | error e => rw [hra] at henc; simp at henc
    | ok rd =>
    cases hrb : parse_register bS with
    | error e => rw [hra, hrb] at henc; simp at henc
    | ok rt =>
    cases hrc : parse_register cS with
    | error e => rw [hra, hrb, hrc] at henc; simp at henc
    | ok rs =>
    rw [hra, hrb, hrc] at henc
    simp at henc
    have hrd := parse_register_lt _ _ hra
    have hrt := parse_register_lt _ _ hrb
    have hrs := parse_register_lt _ _ hrc
    have hop : opcodeOf w = 0 := by unfold opcodeOf; omega
    have hfn : functOf w = 0x04 := by unfold functOf; omega
    have hrsf : rsOf w = rs := by unfold rsOf; omega
    have hrtf : rtOf w = rt := by unfold rtOf; omega
    have hrdf : rdOf w = rd := by unfold rdOf; omega
    unfold disassemble_instruction
    rw [hop, if_pos rfl, if_neg hw0, hfn]
    simp only [List.lookup]
    norm_num [R3_MNEMONICS, RSHIFTV_MNEMONICS]
    rw [hrsf, hrtf, hrdf]
    simp [specRoundTripForm, regNum, hra, hrb, hrc, R3_MNEMONICS, RSHIFTV_MNEMONICS,
      Except.toOption]
  · simp only [List.length_cons] at hlen; omega

/-- Round-trip lemma for `srlv`. -/
theorem rt_srlv (ops : List String) (A ln : Nat) (st : List (String × Nat)) (w : Nat)
    (hlen : ops.length ≤ 3) (hw0 : w ≠ 0)
    (henc : encode_instruction st ⟨"srlv", ops, A, ln⟩ = .ok w) :
    specRoundTripForm st ⟨"srlv", ops, A, ln⟩ = some (disassemble_instruction w A) := by
  rcases ops with _ | ⟨aS, _ | ⟨bS, _ | ⟨cS, _ | ⟨dS, rest⟩⟩⟩⟩
  · simp [encode_instruction, encode_r_type, R_TYPE_FUNCT, List.lookup] at henc
  · simp [encode_instruction, encode_r_type, R_TYPE_FUNCT, R_TYPE_FORMATS, List.lookup] at henc
  · simp [encode_instruction, encode_r_type, R_TYPE_FUNCT, R_TYPE_FORMATS, List.lookup] at henc
  · simp only [encode_instruction, encode_r_type, parseROps, RVals.setField,
      R_TYPE_FUNCT, R_TYPE_FORMATS, List.lookup] at henc
    simp at henc
    cases hra : parse_register aS with
    | error e => rw [hra] at henc; simp at henc
    | ok rd =>
    cases hrb : parse_register bS with
    | error e => rw [hra, hrb] at henc; simp at henc
    | ok rt =>
    cases hrc : parse_register cS with
    | error e => rw [hra, hrb, hrc] at henc; simp at henc
    | ok rs =>
    rw [hra, hrb, hrc] at henc
    simp at henc
    have hrd := parse_register_lt _ _ hra
    have hrt := parse_register_lt _ _ hrb
    have hrs := parse_register_lt _ _ hrc
    have hop : opcodeOf w = 0 := by unfold opcodeOf; omega
    have hfn : functOf w = 0x06 := by unfold functOf; omega
    have hrsf : rsOf w = rs := by unfold rsOf; omega
    have hrtf : rtOf w = rt := by unfold rtOf; omega
    have hrdf : rdOf w = rd := by unfold rdOf; omega
    unfold disassemble_instruction
    rw [hop, if_pos rfl, if_neg hw0, hfn]
    simp only [List.lookup]
    norm_num [R3_MNEMONICS, RSHIFTV_MNEMONICS]
    rw [hrsf, hrtf, hrdf]
    simp [specRoundTripForm, regNum, hra, hrb, hrc, R3_MNEMONICS, RSHIFTV_MNEMONICS,
      Except.toOption]
  · simp only [List.length_cons] at hlen; omega

/-- Round-trip lemma for `srav`. -/
theorem rt_srav (ops : List String) (A ln : Nat) (st : List (String × Nat)) (w : Nat)
    (hlen : ops.length ≤ 3) (hw0 : w ≠ 0)
    (henc : encode_instruction st ⟨"srav", ops, A, ln⟩ = .ok w) :
    specRoundTripForm st ⟨"srav", ops, A, ln⟩ = some (disassemble_instruction w A) := by
  rcases ops with _ | ⟨aS, _ | ⟨bS, _ | ⟨cS, _ | ⟨dS, rest⟩⟩⟩⟩
  · simp [encode_instruction, encode_r_type, R_TYPE_FUNCT, List.lookup] at henc
  · simp [encode_instruction, encode_r_type, R_TYPE_FUNCT, R_TYPE_FORMATS, List.lookup] at henc
  · simp [encode_instruction, encode_r_type, R_TYPE_FUNCT, R_TYPE_FORMATS, List.lookup] at henc
  · simp only [encode_instruction, encode_r_type, parseROps, RVals.setField,
      R_TYPE_FUNCT, R_TYPE_FORMATS, List.lookup] at henc
    simp at henc
    cases hra : parse_register aS with
    | error e => rw [hra] at henc; simp at henc
    | ok rd =>
    cases hrb : parse_register bS with
    | error e => rw [hra, hrb] at henc; simp at henc
    | ok rt =>
    cases hrc : parse_register cS with
    | error e => rw [hra, hrb, hrc] at henc; simp at henc
    | ok rs =>
    rw [hra, hrb, hrc] at henc
    simp at henc
    have hrd := parse_register_lt _ _ hra
    have hrt := parse_register_lt _ _ hrb
    have hrs := parse_register_lt _ _ hrc
    have hop : opcodeOf w = 0 := by unfold opcodeOf; omega
    have hfn : functOf w = 0x07 := by unfold functOf; omega
    have hrsf : rsOf w = rs := by unfold rsOf; omega
    have hrtf : rtOf w = rt := by unfold rtOf; omega
    have hrdf : rdOf w = rd := by unfold rdOf; omega
    unfold disassemble_instruction
    rw [hop, if_pos rfl, if_neg hw0, hfn]
    simp only [List.lookup]
    norm_num [R3_MNEMONICS, RSHIFTV_MNEMONICS]
    rw [hrsf, hrtf, hrdf]
    simp [specRoundTripForm, regNum, hra, hrb, hrc, R3_MNEMONICS, RSHIFTV_MNEMONICS,
      Except.toOption]
  · simp only [List.length_cons] at hlen; omega

/-- Round-trip lemma for `sll`. -/
theorem rt_sll (ops : List String) (A ln : Nat) (st : List (String × Nat)) (w : Nat)
    (hlen : ops.length ≤ 3) (hw0 : w ≠ 0)
    (henc : encode_instruction st ⟨"sll", ops, A, ln⟩ = .ok w) :
    specRoundTripForm st ⟨"sll", ops, A, ln⟩ = some (disassemble_instruction w A) := by
  rcases ops with _ | ⟨aS, _ | ⟨bS, _ | ⟨cS, _ | ⟨dS, rest⟩⟩⟩⟩
  · simp [encode_instruction, encode_r_type, R_TYPE_FUNCT, List.lookup] at henc
  · simp [encode_instruction, encode_r_type, R_TYPE_FUNCT, R_TYPE_FORMATS, List.lookup] at henc
  · simp [encode_instruction, encode_r_type, R_TYPE_FUNCT, R_TYPE_FORMATS, List.lookup] at henc
  · simp only [encode_instruction, encode_r_type, parseROps, RVals.setField,
      R_TYPE_FUNCT, R_TYPE_FORMATS, List.lookup] at henc
    simp at henc
    cases hra : parse_register aS with
    | error e => rw [hra] at henc; simp at henc
    | ok rd =>
    cases hrb : parse_register bS with
    | error e => rw [hra, hrb] at henc; simp at henc
    | ok rt =>
    cases him : parse_immediate cS 5 false with
    | error e => rw [hra, hrb, him] at henc; simp at henc
    | ok sh =>
    rw [hra, hrb, him] at henc
    simp at henc
    have hrd := parse_register_lt _ _ hra
    have hrt := parse_register_lt _ _ hrb
    have hsh : sh < 32 := by
      obtain ⟨val, hpv, h0, h1, he⟩ := parse_immediate_ok_unsigned _ _ _ him
      norm_num at h1
      omega
    have hop : opcodeOf w = 0 := by unfold opcodeOf; omega
    have hfn : functOf w = 0x00 := by unfold functOf; omega
    have hrtf : rtOf w = rt := by unfold rtOf; omega
    have hrdf : rdOf w = rd := by unfold rdOf; omega
    have hshf : shamtOf w = sh := by unfold shamtOf; omega
    unfold disassemble_instruction
    rw [hop, if_pos rfl, if_neg hw0, hfn]
    simp only [List.lookup]
    norm_num [R3_MNEMONICS, RSHIFTV_MNEMONICS, RSHIFT_MNEMONICS]
    rw [hrtf, hrdf, hshf]
    simp [specRoundTripForm, regNum, hra, hrb, him, R3_MNEMONICS, RSHIFTV_MNEMONICS,
      RSHIFT_MNEMONICS, Except.toOption]
  · simp only [List.length_cons] at hlen; omega

/-- Round-trip lemma for `srl`. -/
theorem rt_srl (ops : List String) (A ln : Nat) (st : List (String × Nat)) (w : Nat)
    (hlen : ops.length ≤ 3) (hw0 : w ≠ 0)
    (henc : encode_instruction st ⟨"srl", ops, A, ln⟩ = .ok w) :
    specRoundTripForm st ⟨"srl", ops, A, ln⟩ = some (disassemble_instruction w A) := by
  rcases ops with _ | ⟨aS, _ | ⟨bS, _ | ⟨cS, _ | ⟨dS, rest⟩⟩⟩⟩
  · simp [encode_instruction, encode_r_type, R_TYPE_FUNCT, List.lookup] at henc
  · simp [encode_instruction, encode_r_type, R_TYPE_FUNCT, R_TYPE_FORMATS, List.lookup] at henc
  · simp [encode_instruction, encode_r_type, R_TYPE_FUNCT, R_TYPE_FORMATS, List.lookup] at henc
  · simp only [encode_instruction, encode_r_type, parseROps, RVals.setField,
      R_TYPE_FUNCT, R_TYPE_FORMATS, List.lookup] at henc
    simp at henc
    cases hra : parse_register aS with
    | error e => rw [hra] at henc; simp at henc
    | ok rd =>
    cases hrb : parse_register bS with
    | error e => rw [hra, hrb] at henc; simp at henc
    | ok rt =>
    cases him : parse_immediate cS 5 false with
    | error e => rw [hra, hrb, him] at henc; simp at henc
    | ok sh =>
    rw [hra, hrb, him] at henc
    simp at henc
    have hrd := parse_register_lt _ _ hra
    have hrt := parse_register_lt _ _ hrb
    have hsh : sh < 32 := by
      obtain ⟨val, hpv, h0, h1, he⟩ := parse_immediate_ok_unsigned _ _ _ him
      norm_num at h1
      omega
    have hop : opcodeOf w = 0 := by unfold opcodeOf; omega
    have hfn : functOf w = 0x02 := by unfold functOf; omega
    have hrtf : rtOf w = rt := by unfold rtOf; omega
    have hrdf : rdOf w = rd := by unfold rdOf; omega
    have hshf : shamtOf w = sh := by unfold shamtOf; omega
    unfold disassemble_instruction
    rw [hop, if_pos rfl, if_neg hw0, hfn]
    simp only [List.lookup]
    norm_num [R3_MNEMONICS, RSHIFTV_MNEMONICS, RSHIFT_MNEMONICS]
    rw [hrtf, hrdf, hshf]
    simp [specRoundTripForm, regNum, hra, hrb, him, R3_MNEMONICS, RSHIFTV_MNEMONICS,
      RSHIFT_MNEMONICS, Except.toOption]
  · simp only [List.length_cons] at hlen; omega

/-- Round-trip lemma for `sra`. -/
theorem rt_sra (ops : List String) (A ln : Nat) (st : List (String × Nat)) (w : Nat)
    (hlen : ops.length ≤ 3) (hw0 : w ≠ 0)
    (henc : encode_instruction st ⟨"sra", ops, A, ln⟩ = .ok w) :
    specRoundTripForm st ⟨"sra", ops, A, ln⟩ = some (disassemble_instruction w A) := by
  rcases ops with _ | ⟨aS, _ | ⟨bS, _ | ⟨cS, _ | ⟨dS, rest⟩⟩⟩⟩
  · simp [encode_instruction, encode_r_type, R_TYPE_FUNCT, List.lookup] at henc
  · simp [encode_instruction, encode_r_type, R_TYPE_FUNCT, R_TYPE_FORMATS, List.lookup] at henc
  · simp [encode_instruction, encode_r_type, R_TYPE_FUNCT, R_TYPE_FORMATS, List.lookup] at henc
  · simp only [encode_instruction, encode_r_type, parseROps, RVals.setField,
      R_TYPE_FUNCT, R_TYPE_FORMATS, List.lookup] at henc
    simp at henc
    cases hra : parse_register aS with
    | error e => rw [hra] at henc; simp at henc
    | ok rd =>
    cases hrb : parse_register bS with
    | error e => rw [hra, hrb] at henc; simp at henc
    | ok rt =>
    cases him : parse_immediate cS 5 false with
    | error e => rw [hra, hrb, him] at henc; simp at henc
    | ok sh =>
    rw [hra, hrb, him] at henc
    simp at henc
    have hrd := parse_register_lt _ _ hra
    have hrt := parse_register_lt _ _ hrb
    have hsh : sh < 32 := by
      obtain ⟨val, hpv, h0, h1, he⟩ := parse_immediate_ok_unsigned _ _ _ him
      norm_num at h1
      omega
    have hop : opcodeOf w = 0 := by unfold opcodeOf; omega
    have hfn : functOf w = 0x03 := by unfold functOf; omega
    have hrtf : rtOf w = rt := by unfold rtOf; omega
    have hrdf : rdOf w = rd := by unfold rdOf; omega
    have hshf : shamtOf w = sh := by unfold shamtOf; omega
    unfold disassemble_instruction
    rw [hop, if_pos rfl, if_neg hw0, hfn]
    simp only [List.lookup]
    norm_num [R3_MNEMONICS, RSHIFTV_MNEMONICS, RSHIFT_MNEMONICS]
    rw [hrtf, hrdf, hshf]
    simp [specRoundTripForm, regNum, hra, hrb, him, R3_MNEMONICS, RSHIFTV_MNEMONICS,
      RSHIFT_MNEMONICS, Except.toOption]
  · simp only [List.length_cons] at hlen; omega

/-- Round-trip lemma for `jr`. -/
theorem rt_jr (ops : List String) (A ln : Nat) (st : List (String × Nat)) (w : Nat)
    (hlen : ops.length ≤ 1) (hw0 : w ≠ 0)
    (henc : encode_instruction st ⟨"jr", ops, A, ln⟩ = .ok w) :
    specRoundTripForm st ⟨"jr", ops, A, ln⟩ = some (disassemble_instruction w A) := by
  rcases ops with _ | ⟨aS, _ | ⟨bS, rest⟩⟩
  · simp [encode_instruction, encode_r_type, R_TYPE_FUNCT, List.lookup] at henc
  · simp only [encode_instruction, encode_r_type, parseROps, RVals.setField,
      R_TYPE_FUNCT, R_TYPE_FORMATS, List.lookup] at henc
    simp at henc
    cases hra : parse_register aS with
    | error e => rw [hra] at henc; simp at henc
    | ok rs =>
    rw [hra] at henc
    simp at henc
    have hrs := parse_register_lt _ _ hra
    have hop : opcodeOf w = 0 := by unfold opcodeOf; omega
    have hfn : functOf w = 0x08 := by unfold functOf; omega
    have hrsf : rsOf w = rs := by unfold rsOf; omega
    unfold disassemble_instruction
    rw [hop, if_pos rfl, if_neg hw0, hfn]
    simp only [List.lookup]
    norm_num [R3_MNEMONICS, RSHIFTV_MNEMONICS, RSHIFT_MNEMONICS]
    rw [hrsf]
    simp [specRoundTripForm, regNum, hra, R3_MNEMONICS, RSHIFTV_MNEMONICS, RSHIFT_MNEMONICS, Except.toOption]
  · simp only [List.length_cons] at hlen; omega

/-- Round-trip lemma for `jalr`. -/
theorem rt_jalr (ops : List String) (A ln : Nat) (st : List (String × Nat)) (w : Nat)
    (hlen : ops.length ≤ 2) (hw0 : w ≠ 0)
    (henc : encode_instruction st ⟨"jalr", ops, A, ln⟩ = .ok w) :
    specRoundTripForm st ⟨"jalr", ops, A, ln⟩ = some (disassemble_instruction w A) := by
  rcases ops with _ | ⟨aS, _ | ⟨bS, _ | ⟨cS, rest⟩⟩⟩
  · simp [encode_instruction, encode_r_type, R_TYPE_FUNCT, List.lookup] at henc
  · simp only [encode_instruction, encode_r_type, R_TYPE_FUNCT, List.lookup] at henc
    simp at henc
    cases hra : parse_register aS with
    | error e => rw [hra] at henc; simp at henc
    | ok rs =>
    rw [hra] at henc
    simp at henc
    have hrs := parse_register_lt _ _ hra
    have hop : opcodeOf w = 0 := by unfold opcodeOf; omega
    have hfn : functOf w = 0x09 := by unfold functOf; omega
    have hrsf : rsOf w = rs := by unfold rsOf; omega
    have hrdf : rdOf w = 31 := by unfold rdOf; omega
    unfold disassemble_instruction
    rw [hop, if_pos rfl, if_neg hw0, hfn]
    simp only [List.lookup]
    norm_num [R3_MNEMONICS, RSHIFTV_MNEMONICS, RSHIFT_MNEMONICS]
    rw [hrsf, hrdf]
    simp [specRoundTripForm, regNum, hra, R3_MNEMONICS, RSHIFTV_MNEMONICS,
      RSHIFT_MNEMONICS, Except.toOption]
  · simp only [encode_instruction, encode_r_type, R_TYPE_FUNCT, List.lookup] at henc
    simp at henc
    cases hra : parse_register aS with
    | error e => rw [hra] at henc; simp at henc
    | ok rd =>
    cases hrb : parse_register bS with
    | error e => rw [hra, hrb] at henc; simp at henc
    | ok rs =>
    rw [hra, hrb] at henc
    simp at henc
    have hrd := parse_register_lt _ _ hra
    have hrs := parse_register_lt _ _ hrb
    have hop : opcodeOf w = 0 := by unfold opcodeOf; omega
    have hfn : functOf w = 0x09 := by unfold functOf; omega
    have hrsf : rsOf w = rs := by unfold rsOf; omega
    have hrdf : rdOf w = rd := by unfold rdOf; omega
    unfold disassemble_instruction
    rw [hop, if_pos rfl, if_neg hw0, hfn]
    simp only [List.lookup]
    norm_num [R3_MNEMONICS, RSHIFTV_MNEMONICS, RSHIFT_MNEMONICS]
    rw [hrsf, hrdf]
    by_cases h31 : rd = 31
    · subst h31
      simp [specRoundTripForm, regNum, hra, hrb, R3_MNEMONICS, RSHIFTV_MNEMONICS,
        RSHIFT_MNEMONICS, Except.toOption]
    · rw [if_neg h31]
      simp [specRoundTripForm, regNum, hra, hrb, h31, R3_MNEMONICS, RSHIFTV_MNEMONICS,
        RSHIFT_MNEMONICS, Except.toOption]
  · simp only [List.length_cons] at hlen; omega

/-- Round-trip lemma for `mthi`. -/
theorem rt_mthi (ops : List String) (A ln : Nat) (st : List (String × Nat)) (w : Nat)
    (hlen : ops.length ≤ 1) (hw0 : w ≠ 0)
    (henc : encode_instruction st ⟨"mthi", ops, A, ln⟩ = .ok w) :
    specRoundTripForm st ⟨"mthi", ops, A, ln⟩ = some (disassemble_instruction w A) := by
  rcases ops with _ | ⟨aS, _ | ⟨bS, rest⟩⟩
  · simp [encode_instruction, encode_r_type, R_TYPE_FUNCT, List.lookup] at henc
  · simp only [encode_instruction, encode_r_type, parseROps, RVals.setField,
      R_TYPE_FUNCT, R_TYPE_FORMATS, List.lookup] at henc
    simp at henc
    cases hra : parse_register aS with
    | error e => rw [hra] at henc; simp at henc
    | ok rs =>
    rw [hra] at henc
    simp at henc
    have hrs := parse_register_lt _ _ hra
    have hop : opcodeOf w = 0 := by unfold opcodeOf; omega
    have hfn : functOf w = 0x11 := by unfold functOf; omega
    have hrsf : rsOf w = rs := by unfold rsOf; omega
    unfold disassemble_instruction
    rw [hop, if_pos rfl, if_neg hw0, hfn]
    simp only [List.lookup]
    norm_num [R3_MNEMONICS, RSHIFTV_MNEMONICS, RSHIFT_MNEMONICS, MOVETO_MNEMONICS]
    rw [hrsf]
    simp [specRoundTripForm, regNum, hra, R3_MNEMONICS, RSHIFTV_MNEMONICS, RSHIFT_MNEMONICS, MOVETO_MNEMONICS, Except.toOption]
  · simp only [List.length_cons] at hlen; omega

/-- Round-trip lemma for `mtlo`. -/
theorem rt_mtlo (ops : List String) (A ln : Nat) (st : List (String × Nat)) (w : Nat)
    (hlen : ops.length ≤ 1) (hw0 : w ≠ 0)
    (henc : encode_instruction st ⟨"mtlo", ops, A, ln⟩ = .ok w) :
    specRoundTripForm st ⟨"mtlo", ops, A, ln⟩ = some (disassemble_instruction w A) := by
  rcases ops with _ | ⟨aS, _ | ⟨bS, rest⟩⟩
  · simp [encode_instruction, encode_r_type, R_TYPE_FUNCT, List.lookup] at henc
  · simp only [encode_instruction, encode_r_type, parseROps, RVals.setField,
      R_TYPE_FUNCT, R_TYPE_FORMATS, List.lookup] at henc
    simp at henc
    cases hra : parse_register aS with
    | error e => rw [hra] at henc; simp at henc
    | ok rs =>
    rw [hra] at henc
    simp at henc
    have hrs := parse_register_lt _ _ hra
    have hop : opcodeOf w = 0 := by unfold opcodeOf; omega
    have hfn : functOf w = 0x13 := by unfold functOf; omega
    have hrsf : rsOf w = rs := by unfold rsOf; omega
    unfold disassemble_instruction
    rw [hop, if_pos rfl, if_neg hw0, hfn]
    simp only [List.lookup]
    norm_num [R3_MNEMONICS, RSHIFTV_MNEMONICS, RSHIFT_MNEMONICS, MOVETO_MNEMONICS]
    rw [hrsf]
    simp [specRoundTripForm, regNum, hra, R3_MNEMONICS, RSHIFTV_MNEMONICS, RSHIFT_MNEMONICS, MOVETO_MNEMONICS, Except.toOption]
  · simp only [List.length_cons] at hlen; omega

/-- Round-trip lemma for `mfhi`. -/
theorem rt_mfhi (ops : List String) (A ln : Nat) (st : List (String × Nat)) (w : Nat)
    (hlen : ops.length ≤ 1) (hw0 : w ≠ 0)
    (henc : encode_instruction st ⟨"mfhi", ops, A, ln⟩ = .ok w) :
    specRoundTripForm st ⟨"mfhi", ops, A, ln⟩ = some (disassemble_instruction w A) := by
  rcases ops with _ | ⟨aS, _ | ⟨bS, rest⟩⟩
  · simp [encode_instruction, encode_r_type, R_TYPE_FUNCT, List.lookup] at henc
  · simp only [encode_instruction, encode_r_type, parseROps, RVals.setField,
      R_TYPE_FUNCT, R_TYPE_FORMATS, List.lookup] at henc
    simp at henc
    cases hra : parse_register aS with
    | error e => rw [hra] at henc; simp at henc
    | ok rd =>
    rw [hra] at henc
    simp at henc
    have hrd := parse_register_lt _ _ hra
    have hop : opcodeOf w = 0 := by unfold opcodeOf; omega
    have hfn : functOf w = 0x10 := by unfold functOf; omega
    have hrdf : rdOf w = rd := by unfold rdOf; omega
    unfold disassemble_instruction
    rw [hop, if_pos rfl, if_neg hw0, hfn]
    simp only [List.lookup]
    norm_num [R3_MNEMONICS, RSHIFTV_MNEMONICS, RSHIFT_MNEMONICS, MOVETO_MNEMONICS,
      MOVEFROM_MNEMONICS]
    rw [hrdf]
    simp [specRoundTripForm, regNum, hra, R3_MNEMONICS, RSHIFTV_MNEMONICS, RSHIFT_MNEMONICS, MOVETO_MNEMONICS,
      MOVEFROM_MNEMONICS, Except.toOption]
  · simp only [List.length_cons] at hlen; omega

/-- Round-trip lemma for `mflo`. -/
theorem rt_mflo (ops : List String) (A ln : Nat) (st : List (String × Nat)) (w : Nat)
    (hlen : ops.length ≤ 1) (hw0 : w ≠ 0)
    (henc : encode_instruction st ⟨"mflo", ops, A, ln⟩ = .ok w) :
    specRoundTripForm st ⟨"mflo", ops, A, ln⟩ = some (disassemble_instruction w A) := by
  rcases ops with _ | ⟨aS, _ | ⟨bS, rest⟩⟩
  · simp [encode_instruction, encode_r_type, R_TYPE_FUNCT, List.lookup] at henc
  · simp only [encode_instruction, encode_r_type, parseROps, RVals.setField,
      R_TYPE_FUNCT, R_TYPE_FORMATS, List.lookup] at henc
    simp at henc
    cases hra : parse_register aS with
    | error e => rw [hra] at henc; simp at henc
    | ok rd =>
    rw [hra] at henc
    simp at henc
    have hrd := parse_register_lt _ _ hra
    have hop : opcodeOf w = 0 := by unfold opcodeOf; omega
    have hfn : functOf w = 0x12 := by unfold functOf; omega
    have hrdf : rdOf w = rd := by unfold rdOf; omega
    unfold disassemble_instruction
    rw [hop, if_pos rfl, if_neg hw0, hfn]
    simp only [List.lookup]
    norm_num [R3_MNEMONICS, RSHIFTV_MNEMONICS, RSHIFT_MNEMONICS, MOVETO_MNEMONICS,
      MOVEFROM_MNEMONICS]
    rw [hrdf]
    simp [specRoundTripForm, regNum, hra, R3_MNEMONICS, RSHIFTV_MNEMONICS, RSHIFT_MNEMONICS, MOVETO_MNEMONICS,
      MOVEFROM_MNEMONICS, Except.toOption]
  · simp only [List.length_cons] at hlen; omega

/-- Round-trip lemma for `mult`. -/
theorem rt_mult (ops : List String) (A ln : Nat) (st : List (String × Nat)) (w : Nat)
    (hlen : ops.length ≤ 2) (hw0 : w ≠ 0)
    (henc : encode_instruction st ⟨"mult", ops, A, ln⟩ = .ok w) :
    specRoundTripForm st ⟨"mult", ops, A, ln⟩ = some (disassemble_instruction w A) := by
  rcases ops with _ | ⟨aS, _ | ⟨bS, _ | ⟨cS, rest⟩⟩⟩
  · simp [encode_instruction, encode_r_type, R_TYPE_FUNCT, List.lookup] at henc
  · simp [encode_instruction, encode_r_type, R_TYPE_FUNCT, R_TYPE_FORMATS, List.lookup] at henc
  · simp only [encode_instruction, encode_r_type, parseROps, RVals.setField,
      R_TYPE_FUNCT, R_TYPE_FORMATS, List.lookup] at henc
    simp at henc
    cases hra : parse_register aS with
    | error e => rw [hra] at henc; simp at henc
    | ok rs =>
    cases hrb : parse_register bS with
    | error e => rw [hra, hrb] at henc; simp at henc
    | ok rt =>
    rw [hra, hrb] at henc
    simp at henc
    have hrs := parse_register_lt _ _ hra
    have hrt := parse_register_lt _ _ hrb
    have hop : opcodeOf w = 0 := by unfold opcodeOf; omega
    have hfn : functOf w = 0x18 := by unfold functOf; omega
    have hrsf : rsOf w = rs := by unfold rsOf; omega
    have hrtf : rtOf w = rt := by unfold rtOf; omega
    unfold disassemble_instruction
    rw [hop, if_pos rfl, if_neg hw0, hfn]
    simp only [List.lookup]
    norm_num [R3_MNEMONICS, RSHIFTV_MNEMONICS, RSHIFT_MNEMONICS, MOVETO_MNEMONICS,
      MOVEFROM_MNEMONICS, MULTDIV_MNEMONICS]
    rw [hrsf, hrtf]
    simp [specRoundTripForm, regNum, hra, hrb, R3_MNEMONICS, RSHIFTV_MNEMONICS, RSHIFT_MNEMONICS, MOVETO_MNEMONICS,
      MOVEFROM_MNEMONICS, MULTDIV_MNEMONICS,
      Except.toOption]
  · simp only [List.length_cons] at hlen; omega

/-- Round-trip lemma for `multu`. -/
theorem rt_multu (ops : List String) (A ln : Nat) (st : List (String × Nat)) (w : Nat)
    (hlen : ops.length ≤ 2) (hw0 : w ≠ 0)
    (henc : encode_instruction st ⟨"multu", ops, A, ln⟩ = .ok w) :
    specRoundTripForm st ⟨"multu", ops, A, ln⟩ = some (disassemble_instruction w A) := by
  rcases ops with _ | ⟨aS, _ | ⟨bS, _ | ⟨cS, rest⟩⟩⟩
  · simp [encode_instruction, encode_r_type, R_TYPE_FUNCT, List.lookup] at henc
  · simp [encode_instruction, encode_r_type, R_TYPE_FUNCT, R_TYPE_FORMATS, List.lookup] at henc
  · simp only [encode_instruction, encode_r_type, parseROps, RVals.setField,
      R_TYPE_FUNCT, R_TYPE_FORMATS, List.lookup] at henc
    simp at henc
    cases hra : parse_register aS with
    | error e => rw [hra] at henc; simp at henc
    | ok rs =>
    cases hrb : parse_register bS with
    | error e => rw [hra, hrb] at henc; simp at henc
    | ok rt =>
    rw [hra, hrb] at henc
    simp at henc
    have hrs := parse_register_lt _ _ hra
    have hrt := parse_register_lt _ _ hrb
    have hop : opcodeOf w = 0 := by unfold opcodeOf; omega
    have hfn : functOf w = 0x19 := by unfold functOf; omega
    have hrsf : rsOf w = rs := by unfold rsOf; omega
    have hrtf : rtOf w = rt := by unfold rtOf; omega
    unfold disassemble_instruction
    rw [hop, if_pos rfl, if_neg hw0, hfn]
    simp only [List.lookup]
    norm_num [R3_MNEMONICS, RSHIFTV_MNEMONICS, RSHIFT_MNEMONICS, MOVETO_MNEMONICS,
      MOVEFROM_MNEMONICS, MULTDIV_MNEMONICS]
    rw [hrsf, hrtf]
    simp [specRoundTripForm, regNum, hra, hrb, R3_MNEMONICS, RSHIFTV_MNEMONICS, RSHIFT_MNEMONICS, MOVETO_MNEMONICS,
      MOVEFROM_MNEMONICS, MULTDIV_MNEMONICS,
      Except.toOption]
  · simp only [List.length_cons] at hlen; omega

/-- Round-trip lemma for `div`. -/
theorem rt_div (ops : List String) (A ln : Nat) (st : List (String × Nat)) (w : Nat)
    (hlen : ops.length ≤ 2) (hw0 : w ≠ 0)
    (henc : encode_instruction st ⟨"div", ops, A, ln⟩ = .ok w) :
    specRoundTripForm st ⟨"div", ops, A, ln⟩ = some (disassemble_instruction w A) := by
  rcases ops with _ | ⟨aS, _ | ⟨bS, _ | ⟨cS, rest⟩⟩⟩
  · simp [encode_instruction, encode_r_type, R_TYPE_FUNCT, List.lookup] at henc
  · simp [encode_instruction, encode_r_type, R_TYPE_FUNCT, R_TYPE_FORMATS, List.lookup] at henc
  · simp only [encode_instruction, encode_r_type, parseROps, RVals.setField,
      R_TYPE_FUNCT, R_TYPE_FORMATS, List.lookup] at henc
    simp at henc
    cases hra : parse_register aS with
    | error e => rw [hra] at henc; simp at henc
    | ok rs =>
    cases hrb : parse_register bS with
    | error e => rw [hra, hrb] at henc; simp at henc
    | ok rt =>
    rw [hra, hrb] at henc
    simp at henc
    have hrs := parse_register_lt _ _ hra
    have hrt := parse_register_lt _ _ hrb
    have hop : opcodeOf w = 0 := by unfold opcodeOf; omega
    have hfn : functOf w = 0x1a := by unfold functOf; omega
    have hrsf : rsOf w = rs := by unfold rsOf; omega
    have hrtf : rtOf w = rt := by unfold rtOf; omega
    unfold disassemble_instruction
    rw [hop, if_pos rfl, if_neg hw0, hfn]
    simp only [List.lookup]
    norm_num [R3_MNEMONICS, RSHIFTV_MNEMONICS, RSHIFT_MNEMONICS, MOVETO_MNEMONICS,
      MOVEFROM_MNEMONICS, MULTDIV_MNEMONICS]
    rw [hrsf, hrtf]
    simp [specRoundTripForm, regNum, hra, hrb, R3_MNEMONICS, RSHIFTV_MNEMONICS, RSHIFT_MNEMONICS, MOVETO_MNEMONICS,
      MOVEFROM_MNEMONICS, MULTDIV_MNEMONICS,
      Except.toOption]
  · simp only [List.length_cons] at hlen; omega

/-- Round-trip lemma for `divu`. -/
theorem rt_divu (ops : List String) (A ln : Nat) (st : List (String × Nat)) (w : Nat)
    (hlen : ops.length ≤ 2) (hw0 : w ≠ 0)
    (henc : encode_instruction st ⟨"divu", ops, A, ln⟩ = .ok w) :
    specRoundTripForm st ⟨"divu", ops, A, ln⟩ = some (disassemble_instruction w A) := by
  rcases ops with _ | ⟨aS, _ | ⟨bS, _ | ⟨cS, rest⟩⟩⟩
  · simp [encode_instruction, encode_r_type, R_TYPE_FUNCT, List.lookup] at henc
  · simp [encode_instruction, encode_r_type, R_TYPE_FUNCT, R_TYPE_FORMATS, List.lookup] at henc
  · simp only [encode_instruction, encode_r_type, parseROps, RVals.setField,
      R_TYPE_FUNCT, R_TYPE_FORMATS, List.lookup] at henc
    simp at henc
    cases hra : parse_register aS with
    | error e => rw [hra] at henc; simp at henc
    | ok rs =>
    cases hrb : parse_register bS with
    | error e => rw [hra, hrb] at henc; simp at henc
    | ok rt =>
    rw [hra, hrb] at henc
    simp at henc
    have hrs := parse_register_lt _ _ hra
    have hrt := parse_register_lt _ _ hrb
    have hop : opcodeOf w = 0 := by unfold opcodeOf; omega
    have hfn : functOf w = 0x1b := by unfold functOf; omega
    have hrsf : rsOf w = rs := by unfold rsOf; omega
    have hrtf : rtOf w = rt := by unfold rtOf; omega
    unfold disassemble_instruction
    rw [hop, if_pos rfl, if_neg hw0, hfn]
    simp only [List.lookup]
    norm_num [R3_MNEMONICS, RSHIFTV_MNEMONICS, RSHIFT_MNEMONICS, MOVETO_MNEMONICS,
      MOVEFROM_MNEMONICS, MULTDIV_MNEMONICS]
    rw [hrsf, hrtf]
    simp [specRoundTripForm, regNum, hra, hrb, R3_MNEMONICS, RSHIFTV_MNEMONICS, RSHIFT_MNEMONICS, MOVETO_MNEMONICS,
      MOVEFROM_MNEMONICS, MULTDIV_MNEMONICS,
      Except.toOption]
  · simp only [List.length_cons] at hlen; omega

/-- Round-trip lemma for `syscall`. -/
theorem rt_syscall (ops : List String) (A ln : Nat) (st : List (String × Nat)) (w : Nat)
    (hlen : ops.length ≤ 0) (hw0 : w ≠ 0)
    (henc : encode_instruction st ⟨"syscall", ops, A, ln⟩ = .ok w) :
    specRoundTripForm st ⟨"syscall", ops, A, ln⟩ = some (disassemble_instruction w A) := by
  rcases ops with _ | ⟨aS, rest⟩
  · simp only [encode_instruction, encode_r_type, parseROps,
      R_TYPE_FUNCT, R_TYPE_FORMATS, List.lookup] at henc
    simp at henc
    subst henc
    have hd : disassemble_instruction 12 A = Disasm.syscall := rfl
    rw [hd]
    simp [specRoundTripForm]
  · simp only [List.length_cons] at hlen; omega

/-- Round-trip lemma for `break`. -/
theorem rt_breakI (ops : List String) (A ln : Nat) (st : List (String × Nat)) (w : Nat)
    (hlen : ops.length ≤ 0) (hw0 : w ≠ 0)
    (henc : encode_instruction st ⟨"break", ops, A, ln⟩ = .ok w) :
    specRoundTripForm st ⟨"break", ops, A, ln⟩ = some (disassemble_instruction w A) := by
  rcases ops with _ | ⟨aS, rest⟩
  · simp only [encode_instruction, encode_r_type, parseROps,
      R_TYPE_FUNCT, R_TYPE_FORMATS, List.lookup] at henc
    simp at henc
    subst henc
    have hd : disassemble_instruction 13 A = Disasm.breakI := rfl
    rw [hd]
    simp [specRoundTripForm]
  · simp only [List.length_cons] at hlen; omega

/-- Round-trip lemma for `addi`. -/
theorem rt_addi (ops : List String) (A ln : Nat) (st : List (String × Nat)) (w : Nat)
    (hlen : ops.length ≤ 3)
    (henc : encode_instruction st ⟨"addi", ops, A, ln⟩ = .ok w) :
    specRoundTripForm st ⟨"addi", ops, A, ln⟩ = some (disassemble_instruction w A) := by
  rcases ops with _ | ⟨aS, _ | ⟨bS, _ | ⟨cS, _ | ⟨dS, rest⟩⟩⟩⟩
  · simp [encode_instruction, encode_i_type, R_TYPE_FUNCT, I_TYPE_OPCODE,
      I_TYPE_FORMATS, I_MEM_MNEMONICS, List.lookup] at henc
  · simp [encode_instruction, encode_i_type, R_TYPE_FUNCT, I_TYPE_OPCODE,
      I_TYPE_FORMATS, I_MEM_MNEMONICS, List.lookup] at henc
  · simp [encode_instruction, encode_i_type, R_TYPE_FUNCT, I_TYPE_OPCODE,
      I_TYPE_FORMATS, I_MEM_MNEMONICS, List.lookup] at henc
  · simp only [encode_instruction, encode_i_type, parseIOps, IVals.setField,
      UNSIGNED_IMM_MNEMONICS, R_TYPE_FUNCT, I_TYPE_OPCODE, I_TYPE_FORMATS,
      I_MEM_MNEMONICS, List.lookup] at henc
    simp at henc
    cases hra : parse_register aS with
    | error e => rw [hra] at henc; simp at henc
    | ok rt =>
    cases hrb : parse_register bS with
    | error e => rw [hra, hrb] at henc; simp at henc
    | ok rs =>
    cases him : parse_immediate cS 16 true with
    | error e => rw [hra, hrb, him] at henc; simp at henc
    | ok iv =>
    rw [hra, hrb, him] at henc
    simp at henc
    have hrt := parse_register_lt _ _ hra
    have hrs := parse_register_lt _ _ hrb
    obtain ⟨val, hpv, hlo, hhi, hive⟩ := parse_immediate_ok_signed16 _ _ him
    have hivlt : iv < 2 ^ 16 := hive ▸ maskBits_lt val 16
    norm_num at hivlt
    have hop : opcodeOf w = 8 := by unfold opcodeOf; omega
    have hrsf : rsOf w = rs := by unfold rsOf; omega
    have hrtf : rtOf w = rt := by unfold rtOf; omega
    have himf : immOf w = iv := by unfold immOf; omega
    unfold disassemble_instruction
    rw [hop]
    rw [if_neg (by norm_num), if_neg (by norm_num), if_neg (by norm_num)]
    simp only [List.lookup]
    norm_num [ISIGNED_MNEMONICS]
    rw [hrsf, hrtf, himf, hive, sign_extend_maskBits val hlo hhi]
    simp [specRoundTripForm, regNum, hra, hrb, hpv, R3_MNEMONICS, RSHIFTV_MNEMONICS,
      RSHIFT_MNEMONICS, MOVETO_MNEMONICS, MOVEFROM_MNEMONICS, MULTDIV_MNEMONICS,
      Except.toOption]
  · simp only [List.length_cons] at hlen; omega

/-- Round-trip lemma for `addiu`. -/
theorem rt_addiu (ops : List String) (A ln : Nat) (st : List (String × Nat)) (w : Nat)
    (hlen : ops.length ≤ 3)
    (henc : encode_instruction st ⟨"addiu", ops, A, ln⟩ = .ok w) :
    specRoundTripForm st ⟨"addiu", ops, A, ln⟩ = some (disassemble_instruction w A) := by
  rcases ops with _ | ⟨aS, _ | ⟨bS, _ | ⟨cS, _ | ⟨dS, rest⟩⟩⟩⟩
  · simp [encode_instruction, encode_i_type, R_TYPE_FUNCT, I_TYPE_OPCODE,
      I_TYPE_FORMATS, I_MEM_MNEMONICS, List.lookup] at henc
  · simp [encode_instruction, encode_i_type, R_TYPE_FUNCT, I_TYPE_OPCODE,
      I_TYPE_FORMATS, I_MEM_MNEMONICS, List.lookup] at henc
  · simp [encode_instruction, encode_i_type, R_TYPE_FUNCT, I_TYPE_OPCODE,
      I_TYPE_FORMATS, I_MEM_MNEMONICS, List.lookup] at henc
  · simp only [encode_instruction, encode_i_type, parseIOps, IVals.setField,
      UNSIGNED_IMM_MNEMONICS, R_TYPE_FUNCT, I_TYPE_OPCODE, I_TYPE_FORMATS,
      I_MEM_MNEMONICS, List.lookup] at henc
    simp at henc
    cases hra : parse_register aS with
    | error e => rw [hra] at henc; simp at henc
    | ok rt =>
    cases hrb : parse_register bS with
    | error e => rw [hra, hrb] at henc; simp at henc
    | ok rs =>
    cases him : parse_immediate cS 16 true with
    | error e => rw [hra, hrb, him] at henc; simp at henc
    | ok iv =>
    rw [hra, hrb, him] at henc
    simp at henc
    have hrt := parse_register_lt _ _ hra
    have hrs := parse_register_lt _ _ hrb
    obtain ⟨val, hpv, hlo, hhi, hive⟩ := parse_immediate_ok_signed16 _ _ him
    have hivlt : iv < 2 ^ 16 := hive ▸ maskBits_lt val 16
    norm_num at hivlt
    have hop : opcodeOf w = 9 := by unfold opcodeOf; omega
    have hrsf : rsOf w = rs := by unfold rsOf; omega
    have hrtf : rtOf w = rt := by unfold rtOf; omega
    have himf : immOf w = iv := by unfold immOf; omega
    unfold disassemble_instruction
    rw [hop]
    rw [if_neg (by norm_num), if_neg (by norm_num), if_neg (by norm_num)]
    simp only [List.lookup]
    norm_num [ISIGNED_MNEMONICS]
    rw [hrsf, hrtf, himf, hive, sign_extend_maskBits val hlo hhi]
    simp [specRoundTripForm, regNum, hra, hrb, hpv, R3_MNEMONICS, RSHIFTV_MNEMONICS,
      RSHIFT_MNEMONICS, MOVETO_MNEMONICS, MOVEFROM_MNEMONICS, MULTDIV_MNEMONICS,
      Except.toOption]
  · simp only [List.length_cons] at hlen; omega

/-- Round-trip lemma for `slti`. -/
theorem rt_slti (ops : List String) (A ln : Nat) (st : List (String × Nat)) (w : Nat)
    (hlen : ops.length ≤ 3)
    (henc : encode_instruction st ⟨"slti", ops, A, ln⟩ = .ok w) :
    specRoundTripForm st ⟨"slti", ops, A, ln⟩ = some (disassemble_instruction w A) := by
  rcases ops with _ | ⟨aS, _ | ⟨bS, _ | ⟨cS, _ | ⟨dS, rest⟩⟩⟩⟩
  · simp [encode_instruction, encode_i_type, R_TYPE_FUNCT, I_TYPE_OPCODE,
      I_TYPE_FORMATS, I_MEM_MNEMONICS, List.lookup] at henc
  · simp [encode_instruction, encode_i_type, R_TYPE_FUNCT, I_TYPE_OPCODE,
      I_TYPE_FORMATS, I_MEM_MNEMONICS, List.lookup] at henc
  · simp [encode_instruction, encode_i_type, R_TYPE_FUNCT, I_TYPE_OPCODE,
      I_TYPE_FORMATS, I_MEM_MNEMONICS, List.lookup] at henc
  · simp only [encode_instruction, encode_i_type, parseIOps, IVals.setField,
      UNSIGNED_IMM_MNEMONICS, R_TYPE_FUNCT, I_TYPE_OPCODE, I_TYPE_FORMATS,
      I_MEM_MNEMONICS, List.lookup] at henc
    simp at henc
    cases hra : parse_register aS with
    | error e => rw [hra] at henc; simp at henc
    | ok rt =>
    cases hrb : parse_register bS with
    | error e => rw [hra, hrb] at henc; simp at henc
    | ok rs =>
    cases him : parse_immediate cS 16 true with
    | error e => rw [hra, hrb, him] at henc; simp at henc
    | ok iv =>
    rw [hra, hrb, him] at henc
    simp at henc
    have hrt := parse_register_lt _ _ hra
    have hrs := parse_register_lt _ _ hrb
    obtain ⟨val, hpv, hlo, hhi, hive⟩ := parse_immediate_ok_signed16 _ _ him
    have hivlt : iv < 2 ^ 16 := hive ▸ maskBits_lt val 16
    norm_num at hivlt
    have hop : opcodeOf w = 0xa := by unfold opcodeOf; omega
    have hrsf : rsOf w = rs := by unfold rsOf; omega
    have hrtf : rtOf w = rt := by unfold rtOf; omega
    have himf : immOf w = iv := by unfold immOf; omega
    unfold disassemble_instruction
    rw [hop]
    rw [if_neg (by norm_num), if_neg (by norm_num), if_neg (by norm_num)]
    simp only [List.lookup]
    norm_num [ISIGNED_MNEMONICS]
    rw [hrsf, hrtf, himf, hive, sign_extend_maskBits val hlo hhi]
    simp [specRoundTripForm, regNum, hra, hrb, hpv, R3_MNEMONICS, RSHIFTV_MNEMONICS,
      RSHIFT_MNEMONICS, MOVETO_MNEMONICS, MOVEFROM_MNEMONICS, MULTDIV_MNEMONICS,
      Except.toOption]
  · simp only [List.length_cons] at hlen; omega

/-- Round-trip lemma for `sltiu`. -/
theorem rt_sltiu (ops : List String) (A ln : Nat) (st : List (String × Nat)) (w : Nat)
    (hlen : ops.length ≤ 3)
    (henc : encode_instruction st ⟨"sltiu", ops, A, ln⟩ = .ok w) :
    specRoundTripForm st ⟨"sltiu", ops, A, ln⟩ = some (disassemble_instruction w A) := by
  rcases ops with _ | ⟨aS, _ | ⟨bS, _ | ⟨cS, _ | ⟨dS, rest⟩⟩⟩⟩
  · simp [encode_instruction, encode_i_type, R_TYPE_FUNCT, I_TYPE_OPCODE,
      I_TYPE_FORMATS, I_MEM_MNEMONICS, List.lookup] at henc
  · simp [encode_instruction, encode_i_type, R_TYPE_FUNCT, I_TYPE_OPCODE,
      I_TYPE_FORMATS, I_MEM_MNEMONICS, List.lookup] at henc
  · simp [encode_instruction, encode_i_type, R_TYPE_FUNCT, I_TYPE_OPCODE,
      I_TYPE_FORMATS, I_MEM_MNEMONICS, List.lookup] at henc
  · simp only [encode_instruction, encode_i_type, parseIOps, IVals.setField,
      UNSIGNED_IMM_MNEMONICS, R_TYPE_FUNCT, I_TYPE_OPCODE, I_TYPE_FORMATS,
      I_MEM_MNEMONICS, List.lookup] at henc
    simp at henc
    cases hra : parse_register aS with
    | error e => rw [hra] at henc; simp at henc
    | ok rt =>
    cases hrb : parse_register bS with
    | error e => rw [hra, hrb] at henc; simp at henc
    | ok rs =>
    cases him : parse_immediate cS 16 false with
    | error e => rw [hra, hrb, him] at henc; simp at henc
    | ok iv =>
    rw [hra, hrb, him] at henc
    simp at henc
    have hrt := parse_register_lt _ _ hra
    have hrs := parse_register_lt _ _ hrb
    obtain ⟨val, hpv, hlo, hhi, hive⟩ := parse_immediate_ok_unsigned _ _ _ him
    norm_num at hhi
    have hivlt : iv < 65536 := by omega
    have hop : opcodeOf w = 0xb := by unfold opcodeOf; omega
    have hrsf : rsOf w = rs := by unfold rsOf; omega
    have hrtf : rtOf w = rt := by unfold rtOf; omega
    have himf : immOf w = iv := by unfold immOf; omega
    unfold disassemble_instruction
    rw [hop]
    rw [if_neg (by norm_num), if_neg (by norm_num), if_neg (by norm_num)]
    simp only [List.lookup]
    norm_num [ISIGNED_MNEMONICS]
    rw [hrsf, hrtf, himf]
    have hvt : iv = val.toNat := hive
    simp [specRoundTripForm, regNum, hra, hrb, hpv, hvt, R3_MNEMONICS, RSHIFTV_MNEMONICS,
      RSHIFT_MNEMONICS, MOVETO_MNEMONICS, MOVEFROM_MNEMONICS, MULTDIV_MNEMONICS,
      IHEX_MNEMONICS, Except.toOption]
  · simp only [List.length_cons] at hlen; omega

/-- Round-trip lemma for `andi`. -/
theorem rt_andi (ops : List String) (A ln : Nat) (st : List (String × Nat)) (w : Nat)
    (hlen : ops.length ≤ 3)
    (henc : encode_instruction st ⟨"andi", ops, A, ln⟩ = .ok w) :
    specRoundTripForm st ⟨"andi", ops, A, ln⟩ = some (disassemble_instruction w A) := by
  rcases ops with _ | ⟨aS, _ | ⟨bS, _ | ⟨cS, _ | ⟨dS, rest⟩⟩⟩⟩
  · simp [encode_instruction, encode_i_type, R_TYPE_FUNCT, I_TYPE_OPCODE,
      I_TYPE_FORMATS, I_MEM_MNEMONICS, List.lookup] at henc
  · simp [encode_instruction, encode_i_type, R_TYPE_FUNCT, I_TYPE_OPCODE,
      I_TYPE_FORMATS, I_MEM_MNEMONICS, List.lookup] at henc
  · simp [encode_instruction, encode_i_type, R_TYPE_FUNCT, I_TYPE_OPCODE,
      I_TYPE_FORMATS, I_MEM_MNEMONICS, List.lookup] at henc
  · simp only [encode_instruction, encode_i_type, parseIOps, IVals.setField,
      UNSIGNED_IMM_MNEMONICS, R_TYPE_FUNCT, I_TYPE_OPCODE, I_TYPE_FORMATS,
      I_MEM_MNEMONICS, List.lookup] at henc
    simp at henc
    cases hra : parse_register aS with
    | error e => rw [hra] at henc; simp at henc
    | ok rt =>
    cases hrb : parse_register bS with
    | error e => rw [hra, hrb] at henc; simp at henc
    | ok rs =>
    cases him : parse_immediate cS 16 false with
    | error e => rw [hra, hrb, him] at henc; simp at henc
    | ok iv =>
    rw [hra, hrb, him] at henc
    simp at henc
    have hrt := parse_register_lt _ _ hra
    have hrs := parse_register_lt _ _ hrb
    obtain ⟨val, hpv, hlo, hhi, hive⟩ := parse_immediate_ok_unsigned _ _ _ him
    norm_num at hhi
    have hivlt : iv < 65536 := by omega
    have hop : opcodeOf w = 0xc := by unfold opcodeOf; omega
    have hrsf : rsOf w = rs := by unfold rsOf; omega
    have hrtf : rtOf w = rt := by unfold rtOf; omega
    have himf : immOf w = iv := by unfold immOf; omega
    unfold disassemble_instruction
    rw [hop]
    rw [if_neg (by norm_num), if_neg (by norm_num), if_neg (by norm_num)]
    simp only [List.lookup]
    norm_num [ISIGNED_MNEMONICS, IHEX_MNEMONICS]
    rw [hrsf, hrtf, himf]
    have hvt : iv = val.toNat := hive
    simp [specRoundTripForm, regNum, hra, hrb, hpv, hvt, R3_MNEMONICS, RSHIFTV_MNEMONICS,
      RSHIFT_MNEMONICS, MOVETO_MNEMONICS, MOVEFROM_MNEMONICS, MULTDIV_MNEMONICS,
      IHEX_MNEMONICS, Except.toOption]
  · simp only [List.length_cons] at hlen; omega

/-- Round-trip lemma for `ori`. -/
theorem rt_ori (ops : List String) (A ln : Nat) (st : List (String × Nat)) (w : Nat)
    (hlen : ops.length ≤ 3)
    (henc : encode_instruction st ⟨"ori", ops, A, ln⟩ = .ok w) :
    specRoundTripForm st ⟨"ori", ops, A, ln⟩ = some (disassemble_instruction w A) := by
  rcases ops with _ | ⟨aS, _ | ⟨bS, _ | ⟨cS, _ | ⟨dS, rest⟩⟩⟩⟩
  · simp [encode_instruction, encode_i_type, R_TYPE_FUNCT, I_TYPE_OPCODE,
      I_TYPE_FORMATS, I_MEM_MNEMONICS, List.lookup] at henc
  · simp [encode_instruction, encode_i_type, R_TYPE_FUNCT, I_TYPE_OPCODE,
      I_TYPE_FORMATS, I_MEM_MNEMONICS, List.lookup] at henc
  · simp [encode_instruction, encode_i_type, R_TYPE_FUNCT, I_TYPE_OPCODE,
      I_TYPE_FORMATS, I_MEM_MNEMONICS, List.lookup] at henc
  · simp only [encode_instruction, encode_i_type, parseIOps, IVals.setField,
      UNSIGNED_IMM_MNEMONICS, R_TYPE_FUNCT, I_TYPE_OPCODE, I_TYPE_FORMATS,
      I_MEM_MNEMONICS, List.lookup] at henc
    simp at henc
    cases hra : parse_register aS with
    | error e => rw [hra] at henc; simp at henc
    | ok rt =>
    cases hrb : parse_register bS with
    | error e => rw [hra, hrb] at henc; simp at henc
    | ok rs =>
    cases him : parse_immediate cS 16 false with
    | error e => rw [hra, hrb, him] at henc; simp at henc
    | ok iv =>
    rw [hra, hrb, him] at henc
    simp at henc
    have hrt := parse_register_lt _ _ hra
    have hrs := parse_register_lt _ _ hrb
    obtain ⟨val, hpv, hlo, hhi, hive⟩ := parse_immediate_ok_unsigned _ _ _ him
    norm_num at hhi
    have hivlt : iv < 65536 := by omega
    have hop : opcodeOf w = 0xd := by unfold opcodeOf; omega
    have hrsf : rsOf w = rs := by unfold rsOf; omega
    have hrtf : rtOf w = rt := by unfold rtOf; omega
    have himf : immOf w = iv := by unfold immOf; omega
    unfold disassemble_instruction
    rw [hop]
    rw [if_neg (by norm_num), if_neg (by norm_num), if_neg (by norm_num)]
    simp only [List.lookup]
    norm_num [ISIGNED_MNEMONICS, IHEX_MNEMONICS]
    rw [hrsf, hrtf, himf]
    have hvt : iv = val.toNat := hive
    simp [specRoundTripForm, regNum, hra, hrb, hpv, hvt, R3_MNEMONICS, RSHIFTV_MNEMONICS,
      RSHIFT_MNEMONICS, MOVETO_MNEMONICS, MOVEFROM_MNEMONICS, MULTDIV_MNEMONICS,
      IHEX_MNEMONICS, Except.toOption]
  · simp only [List.length_cons] at hlen; omega

/-- Round-trip lemma for `xori`. -/
theorem rt_xori (ops : List String) (A ln : Nat) (st : List (String × Nat)) (w : Nat)
    (hlen : ops.length ≤ 3)
    (henc : encode_instruction st ⟨"xori", ops, A, ln⟩ = .ok w) :
    specRoundTripForm st ⟨"xori", ops, A, ln⟩ = some (disassemble_instruction w A) := by
  rcases ops with _ | ⟨aS, _ | ⟨bS, _ | ⟨cS, _ | ⟨dS, rest⟩⟩⟩⟩
  · simp [encode_instruction, encode_i_type, R_TYPE_FUNCT, I_TYPE_OPCODE,
      I_TYPE_FORMATS, I_MEM_MNEMONICS, List.lookup] at henc
  · simp [encode_instruction, encode_i_type, R_TYPE_FUNCT, I_TYPE_OPCODE,
      I_TYPE_FORMATS, I_MEM_MNEMONICS, List.lookup] at henc
  · simp [encode_instruction, encode_i_type, R_TYPE_FUNCT, I_TYPE_OPCODE,
      I_TYPE_FORMATS, I_MEM_MNEMONICS, List.lookup] at henc
  · simp only [encode_instruction, encode_i_type, parseIOps, IVals.setField,
      UNSIGNED_IMM_MNEMONICS, R_TYPE_FUNCT, I_TYPE_OPCODE, I_TYPE_FORMATS,
      I_MEM_MNEMONICS, List.lookup] at henc
    simp at henc
    cases hra : parse_register aS with
    | error e => rw [hra] at henc; simp at henc
    | ok rt =>
    cases hrb : parse_register bS with
    | error e => rw [hra, hrb] at henc; simp at henc
    | ok rs =>
    cases him : parse_immediate cS 16 false with
    | error e => rw [hra, hrb, him] at henc; simp at henc
    | ok iv =>
    rw [hra, hrb, him] at henc
    simp at henc
    have hrt := parse_register_lt _ _ hra
    have hrs := parse_register_lt _ _ hrb
    obtain ⟨val, hpv, hlo, hhi, hive⟩ := parse_immediate_ok_unsigned _ _ _ him
    norm_num at hhi
    have hivlt : iv < 65536 := by omega
    have hop : opcodeOf w = 0xe := by unfold opcodeOf; omega
    have hrsf : rsOf w = rs := by unfold rsOf; omega
    have hrtf : rtOf w = rt := by unfold rtOf; omega
    have himf : immOf w = iv := by unfold immOf; omega
    unfold disassemble_instruction
    rw [hop]
    rw [if_neg (by norm_num), if_neg (by norm_num), if_neg (by norm_num)]
    simp only [List.lookup]
    norm_num [ISIGNED_MNEMONICS, IHEX_MNEMONICS]
    rw [hrsf, hrtf, himf]
    have hvt : iv = val.toNat := hive
    simp [specRoundTripForm, regNum, hra, hrb, hpv, hvt, R3_MNEMONICS, RSHIFTV_MNEMONICS,
      RSHIFT_MNEMONICS, MOVETO_MNEMONICS, MOVEFROM_MNEMONICS, MULTDIV_MNEMONICS,
      IHEX_MNEMONICS, Except.toOption]
  · simp only [List.length_cons] at hlen; omega

/-- Round-trip lemma for `lui`. -/
theorem rt_lui (ops : List String) (A ln : Nat) (st : List (String × Nat)) (w : Nat)
    (hlen : ops.length ≤ 2)
    (henc : encode_instruction st ⟨"lui", ops, A, ln⟩ = .ok w) :
    specRoundTripForm st ⟨"lui", ops, A, ln⟩ = some (disassemble_instruction w A) := by
  rcases ops with _ | ⟨aS, _ | ⟨bS, _ | ⟨cS, rest⟩⟩⟩
  · simp [encode_instruction, encode_i_type, R_TYPE_FUNCT, I_TYPE_OPCODE,
      I_TYPE_FORMATS, I_MEM_MNEMONICS, List.lookup] at henc
  · simp [encode_instruction, encode_i_type, R_TYPE_FUNCT, I_TYPE_OPCODE,
      I_TYPE_FORMATS, I_MEM_MNEMONICS, List.lookup] at henc
  · simp only [encode_instruction, encode_i_type, parseIOps, IVals.setField,
      UNSIGNED_IMM_MNEMONICS, R_TYPE_FUNCT, I_TYPE_OPCODE, I_TYPE_FORMATS,
      I_MEM_MNEMONICS, List.lookup] at henc
    simp at henc
    cases hra : parse_register aS with
    | error e => rw [hra] at henc; simp at henc
    | ok rt =>
    cases him : parse_immediate bS 16 false with
    | error e => rw [hra, him] at henc; simp at henc
    | ok iv =>
    rw [hra, him] at henc
    simp at henc
    have hrt := parse_register_lt _ _ hra
    obtain ⟨val, hpv, hlo, hhi, hive⟩ := parse_immediate_ok_unsigned _ _ _ him
    norm_num at hhi
    have hivlt : iv < 65536 := by omega
    have hop : opcodeOf w = 0xf := by unfold opcodeOf; omega
    have hrtf : rtOf w = rt := by unfold rtOf; omega
    have himf : immOf w = iv := by unfold immOf; omega
    unfold disassemble_instruction
    rw [hop]
    rw [if_neg (by norm_num), if_neg (by norm_num), if_neg (by norm_num)]
    simp only [List.lookup]
    norm_num [ISIGNED_MNEMONICS, IHEX_MNEMONICS]
    rw [hrtf, himf]
    have hvt : iv = val.toNat := hive
    simp [specRoundTripForm, regNum, hra, hpv, hvt, R3_MNEMONICS, RSHIFTV_MNEMONICS,
      RSHIFT_MNEMONICS, MOVETO_MNEMONICS, MOVEFROM_MNEMONICS, MULTDIV_MNEMONICS,
      IHEX_MNEMONICS, Except.toOption]
  · simp only [List.length_cons] at hlen; omega

/-- Round-trip lemma for `lw`. -/
theorem rt_lw (ops : List String) (A ln : Nat) (st : List (String × Nat)) (w : Nat)
    (hlen : ops.length ≤ 3)
    (henc : encode_instruction st ⟨"lw", ops, A, ln⟩ = .ok w) :
    specRoundTripForm st ⟨"lw", ops, A, ln⟩ = some (disassemble_instruction w A) := by
  rcases ops with _ | ⟨aS, _ | ⟨bS, _ | ⟨cS, _ | ⟨dS, rest⟩⟩⟩⟩
  · simp [encode_instruction, encode_i_type, R_TYPE_FUNCT, I_TYPE_OPCODE,
      I_TYPE_FORMATS, I_MEM_MNEMONICS, List.lookup] at henc
  · simp only [encode_instruction, encode_i_type, R_TYPE_FUNCT, I_TYPE_OPCODE,
      I_TYPE_FORMATS, I_MEM_MNEMONICS, List.lookup] at henc
    simp at henc
    cases hpp : parseIOps "lw" st A ["rt", "imm", "rs"] [aS] {} with
    | error e => rw [hpp] at henc; simp at henc
    | ok vals => exact (parseIOps_short _ _ _ _ _ _ _ (by norm_num) hpp).elim
  · simp only [encode_instruction, encode_i_type, R_TYPE_FUNCT, I_TYPE_OPCODE,
      I_TYPE_FORMATS, I_MEM_MNEMONICS, List.lookup] at henc
    simp at henc
    cases hpp : parseIOps "lw" st A ["rt", "imm", "rs"] [aS, bS] {} with
    | error e => rw [hpp] at henc; simp at henc
    | ok vals => exact (parseIOps_short _ _ _ _ _ _ _ (by norm_num) hpp).elim
  · simp only [encode_instruction, encode_i_type, parseIOps, IVals.setField,
      UNSIGNED_IMM_MNEMONICS, R_TYPE_FUNCT, I_TYPE_OPCODE, I_TYPE_FORMATS,
      I_MEM_MNEMONICS, List.lookup] at henc
    simp at henc
    cases hra : parse_register aS with
    | error e => rw [hra] at henc; simp at henc
    | ok rt =>
    cases him : parse_immediate bS 16 true with
    | error e => rw [hra, him] at henc; simp at henc
    | ok iv =>
    cases hrc : parse_register cS with
    | error e => rw [hra, him, hrc] at henc; simp at henc
    | ok rs =>
    rw [hra, him, hrc] at henc
    simp at henc
    have hrt := parse_register_lt _ _ hra
    have hrs := parse_register_lt _ _ hrc
    obtain ⟨val, hpv, hlo, hhi, hive⟩ := parse_immediate_ok_signed16 _ _ him
    have hivlt : iv < 2 ^ 16 := hive ▸ maskBits_lt val 16
    norm_num at hivlt
    have hop : opcodeOf w = 0x23 := by unfold opcodeOf; omega
    have hrsf : rsOf w = rs := by unfold rsOf; omega
    have hrtf : rtOf w = rt := by unfold rtOf; omega
    have himf : immOf w = iv := by unfold immOf; omega
    unfold disassemble_instruction
    rw [hop]
    rw [if_neg (by norm_num), if_neg (by norm_num), if_neg (by norm_num)]
    simp only [List.lookup]
    norm_num [ISIGNED_MNEMONICS, IHEX_MNEMONICS, DISASM_MEM_MNEMONICS]
    rw [hrsf, hrtf, himf, hive, sign_extend_maskBits val hlo hhi]
    simp [specRoundTripForm, regNum, hra, hrc, hpv, R3_MNEMONICS, RSHIFTV_MNEMONICS,
      RSHIFT_MNEMONICS, MOVETO_MNEMONICS, MOVEFROM_MNEMONICS, MULTDIV_MNEMONICS,
      IHEX_MNEMONICS, I_MEM_MNEMONICS, Except.toOption]
  · simp only [List.length_cons] at hlen; omega

/-- Round-trip lemma for `sw`. -/
theorem rt_sw (ops : List String) (A ln : Nat) (st : List (String × Nat)) (w : Nat)
    (hlen : ops.length ≤ 3)
    (henc : encode_instruction st ⟨"sw", ops, A, ln⟩ = .ok w) :
    specRoundTripForm st ⟨"sw", ops, A, ln⟩ = some (disassemble_instruction w A) := by
  rcases ops with _ | ⟨aS, _ | ⟨bS, _ | ⟨cS, _ | ⟨dS, rest⟩⟩⟩⟩
  · simp [encode_instruction, encode_i_type, R_TYPE_FUNCT, I_TYPE_OPCODE,
      I_TYPE_FORMATS, I_MEM_MNEMONICS, List.lookup] at henc
  · simp only [encode_instruction, encode_i_type, R_TYPE_FUNCT, I_TYPE_OPCODE,
      I_TYPE_FORMATS, I_MEM_MNEMONICS, List.lookup] at henc
    simp at henc
    cases hpp : parseIOps "sw" st A ["rt", "imm", "rs"] [aS] {} with
    | error e => rw [hpp] at henc; simp at henc
    | ok vals => exact (parseIOps_short _ _ _ _ _ _ _ (by norm_num) hpp).elim
  · simp only [encode_instruction, encode_i_type, R_TYPE_FUNCT, I_TYPE_OPCODE,
      I_TYPE_FORMATS, I_MEM_MNEMONICS, List.lookup] at henc
    simp at henc
    cases hpp : parseIOps "sw" st A ["rt", "imm", "rs"] [aS, bS] {} with
    | error e => rw [hpp] at henc; simp at henc
    | ok vals => exact (parseIOps_short _ _ _ _ _ _ _ (by norm_num) hpp).elim
  · simp only [encode_instruction, encode_i_type, parseIOps, IVals.setField,
      UNSIGNED_IMM_MNEMONICS, R_TYPE_FUNCT, I_TYPE_OPCODE, I_TYPE_FORMATS,
      I_MEM_MNEMONICS, List.lookup] at henc
    simp at henc
    cases hra : parse_register aS with
    | error e => rw [hra] at henc; simp at henc
    | ok rt =>
    cases him : parse_immediate bS 16 true with
    | error e => rw [hra, him] at henc; simp at henc
    | ok iv =>
    cases hrc : parse_register cS with
    | error e => rw [hra, him, hrc] at henc; simp at henc
    | ok rs =>
    rw [hra, him, hrc] at henc
    simp at henc
    have hrt := parse_register_lt _ _ hra
    have hrs := parse_register_lt _ _ hrc
    obtain ⟨val, hpv, hlo, hhi, hive⟩ := parse_immediate_ok_signed16 _ _ him
    have hivlt : iv < 2 ^ 16 := hive ▸ maskBits_lt val 16
    norm_num at hivlt
    have hop : opcodeOf w = 0x2b := by unfold opcodeOf; omega
    have hrsf : rsOf w = rs := by unfold rsOf; omega
    have hrtf : rtOf w = rt := by unfold rtOf; omega
    have himf : immOf w = iv := by unfold immOf; omega
    unfold disassemble_instruction
    rw [hop]
    rw [if_neg (by norm_num), if_neg (by norm_num), if_neg (by norm_num)]
    simp only [List.lookup]
    norm_num [ISIGNED_MNEMONICS, IHEX_MNEMONICS, DISASM_MEM_MNEMONICS]
    rw [hrsf, hrtf, himf, hive, sign_extend_maskBits val hlo hhi]
    simp [specRoundTripForm, regNum, hra, hrc, hpv, R3_MNEMONICS, RSHIFTV_MNEMONICS,
      RSHIFT_MNEMONICS, MOVETO_MNEMONICS, MOVEFROM_MNEMONICS, MULTDIV_MNEMONICS,
      IHEX_MNEMONICS, I_MEM_MNEMONICS, Except.toOption]
  · simp only [List.length_cons] at hlen; omega

/-- Round-trip lemma for `lb`. -/
theorem rt_lb (ops : List String) (A ln : Nat) (st : List (String × Nat)) (w : Nat)
    (hlen : ops.length ≤ 3)
    (henc : encode_instruction st ⟨"lb", ops, A, ln⟩ = .ok w) :
    specRoundTripForm st ⟨"lb", ops, A, ln⟩ = some (disassemble_instruction w A) := by
  rcases ops with _ | ⟨aS, _ | ⟨bS, _ | ⟨cS, _ | ⟨dS, rest⟩⟩⟩⟩
  · simp [encode_instruction, encode_i_type, R_TYPE_FUNCT, I_TYPE_OPCODE,
      I_TYPE_FORMATS, I_MEM_MNEMONICS, List.lookup] at henc
  · simp only [encode_instruction, encode_i_type, R_TYPE_FUNCT, I_TYPE_OPCODE,
      I_TYPE_FORMATS, I_MEM_MNEMONICS, List.lookup] at henc
    simp at henc
    cases hpp : parseIOps "lb" st A ["rt", "imm", "rs"] [aS] {} with
    | error e => rw [hpp] at henc; simp at henc
    | ok vals => exact (parseIOps_short _ _ _ _ _ _ _ (by norm_num) hpp).elim
  · simp only [encode_instruction, encode_i_type, R_TYPE_FUNCT, I_TYPE_OPCODE,
      I_TYPE_FORMATS, I_MEM_MNEMONICS, List.lookup] at henc
    simp at henc
    cases hpp : parseIOps "lb" st A ["rt", "imm", "rs"] [aS, bS] {} with
    | error e => rw [hpp] at henc; simp at henc
    | ok vals => exact (parseIOps_short _ _ _ _ _ _ _ (by norm_num) hpp).elim
  · simp only [encode_instruction, encode_i_type, parseIOps, IVals.setField,
      UNSIGNED_IMM_MNEMONICS, R_TYPE_FUNCT, I_TYPE_OPCODE, I_TYPE_FORMATS,
      I_MEM_MNEMONICS, List.lookup] at henc
    simp at henc
    cases hra : parse_register aS with
    | error e => rw [hra] at henc; simp at henc
    | ok rt =>
    cases him : parse_immediate bS 16 true with
    | error e => rw [hra, him] at henc; simp at henc
    | ok iv =>
    cases hrc : parse_register cS with
    | error e => rw [hra, him, hrc] at henc; simp at henc
    | ok rs =>
    rw [hra, him, hrc] at henc
    simp at henc
    have hrt := parse_register_lt _ _ hra
    have hrs := parse_register_lt _ _ hrc
    obtain ⟨val, hpv, hlo, hhi, hive⟩ := parse_immediate_ok_signed16 _ _ him
    have hivlt : iv < 2 ^ 16 := hive ▸ maskBits_lt val 16
    norm_num at hivlt
    have hop : opcodeOf w = 0x20 := by unfold opcodeOf; omega
    have hrsf : rsOf w = rs := by unfold rsOf; omega
    have hrtf : rtOf w = rt := by unfold rtOf; omega
    have himf : immOf w = iv := by unfold immOf; omega
    unfold disassemble_instruction
    rw [hop]
    rw [if_neg (by norm_num), if_neg (by norm_num), if_neg (by norm_num)]
    simp only [List.lookup]
    norm_num [ISIGNED_MNEMONICS, IHEX_MNEMONICS, DISASM_MEM_MNEMONICS]
    rw [hrsf, hrtf, himf, hive, sign_extend_maskBits val hlo hhi]
    simp [specRoundTripForm, regNum, hra, hrc, hpv, R3_MNEMONICS, RSHIFTV_MNEMONICS,
      RSHIFT_MNEMONICS, MOVETO_MNEMONICS, MOVEFROM_MNEMONICS, MULTDIV_MNEMONICS,
      IHEX_MNEMONICS, I_MEM_MNEMONICS, Except.toOption]
  · simp only [List.length_cons] at hlen; omega

/-- Round-trip lemma for `lbu`. -/
theorem rt_lbu (ops : List String) (A ln : Nat) (st : List (String × Nat)) (w : Nat)
    (hlen : ops.length ≤ 3)
    (henc : encode_instruction st ⟨"lbu", ops, A, ln⟩ = .ok w) :
    specRoundTripForm st ⟨"lbu", ops, A, ln⟩ = some (disassemble_instruction w A) := by
  rcases ops with _ | ⟨aS, _ | ⟨bS, _ | ⟨cS, _ | ⟨dS, rest⟩⟩⟩⟩
  · simp [encode_instruction, encode_i_type, R_TYPE_FUNCT, I_TYPE_OPCODE,
      I_TYPE_FORMATS, I_MEM_MNEMONICS, List.lookup] at henc
  · simp only [encode_instruction, encode_i_type, R_TYPE_FUNCT, I_TYPE_OPCODE,
      I_TYPE_FORMATS, I_MEM_MNEMONICS, List.lookup] at henc
    simp at henc
    cases hpp : parseIOps "lbu" st A ["rt", "imm", "rs"] [aS] {} with
    | error e => rw [hpp] at henc; simp at henc
    | ok vals => exact (parseIOps_short _ _ _ _ _ _ _ (by norm_num) hpp).elim
  · simp only [encode_instruction, encode_i_type, R_TYPE_FUNCT, I_TYPE_OPCODE,
      I_TYPE_FORMATS, I_MEM_MNEMONICS, List.lookup] at henc
    simp at henc
    cases hpp : parseIOps "lbu" st A ["rt", "imm", "rs"] [aS, bS] {} with
    | error e => rw [hpp] at henc; simp at henc
    | ok vals => exact (parseIOps_short _ _ _ _ _ _ _ (by norm_num) hpp).elim
  · simp only [encode_instruction, encode_i_type, parseIOps, IVals.setField,
      UNSIGNED_IMM_MNEMONICS, R_TYPE_FUNCT, I_TYPE_OPCODE, I_TYPE_FORMATS,
      I_MEM_MNEMONICS, List.lookup] at henc
    simp at henc
    cases hra : parse_register aS with
    | error e => rw [hra] at henc; simp at henc
    | ok rt =>
    cases him : parse_immediate bS 16 true with
    | error e => rw [hra, him] at henc; simp at henc
    | ok iv =>
    cases hrc : parse_register cS with
    | error e => rw [hra, him, hrc] at henc; simp at henc
    | ok rs =>
    rw [hra, him, hrc] at henc
    simp at henc
    have hrt := parse_register_lt _ _ hra
    have hrs := parse_register_lt _ _ hrc
    obtain ⟨val, hpv, hlo, hhi, hive⟩ := parse_immediate_ok_signed16 _ _ him
    have hivlt : iv < 2 ^ 16 := hive ▸ maskBits_lt val 16
    norm_num at hivlt
    have hop : opcodeOf w = 0x24 := by unfold opcodeOf; omega
    have hrsf : rsOf w = rs := by unfold rsOf; omega
    have hrtf : rtOf w = rt := by unfold rtOf; omega
    have himf : immOf w = iv := by unfold immOf; omega
    unfold disassemble_instruction
    rw [hop]
    rw [if_neg (by norm_num), if_neg (by norm_num), if_neg (by norm_num)]
    simp only [List.lookup]
    norm_num [ISIGNED_MNEMONICS, IHEX_MNEMONICS, DISASM_MEM_MNEMONICS]
    rw [hrsf, hrtf, himf, hive, sign_extend_maskBits val hlo hhi]
    simp [specRoundTripForm, regNum, hra, hrc, hpv, R3_MNEMONICS, RSHIFTV_MNEMONICS,
      RSHIFT_MNEMONICS, MOVETO_MNEMONICS, MOVEFROM_MNEMONICS, MULTDIV_MNEMONICS,
      IHEX_MNEMONICS, I_MEM_MNEMONICS, Except.toOption]
  · simp only [List.length_cons] at hlen; omega

/-- Round-trip lemma for `lh`. -/
theorem rt_lh (ops : List String) (A ln : Nat) (st : List (String × Nat)) (w : Nat)
    (hlen : ops.length ≤ 3)
    (henc : encode_instruction st ⟨"lh", ops, A, ln⟩ = .ok w) :
    specRoundTripForm st ⟨"lh", ops, A, ln⟩ = some (disassemble_instruction w A) := by
  rcases ops with _ | ⟨aS, _ | ⟨bS, _ | ⟨cS, _ | ⟨dS, rest⟩⟩⟩⟩
  · simp [encode_instruction, encode_i_type, R_TYPE_FUNCT, I_TYPE_OPCODE,
      I_TYPE_FORMATS, I_MEM_MNEMONICS, List.lookup] at henc
  · simp only [encode_instruction, encode_i_type, R_TYPE_FUNCT, I_TYPE_OPCODE,
      I_TYPE_FORMATS, I_MEM_MNEMONICS, List.lookup] at henc
    simp at henc
    cases hpp : parseIOps "lh" st A ["rt", "imm", "rs"] [aS] {} with
    | error e => rw [hpp] at henc; simp at henc
    | ok vals => exact (parseIOps_short _ _ _ _ _ _ _ (by norm_num) hpp).elim
  · simp only [encode_instruction, encode_i_type, R_TYPE_FUNCT, I_TYPE_OPCODE,
      I_TYPE_FORMATS, I_MEM_MNEMONICS, List.lookup] at henc
    simp at henc
    cases hpp : parseIOps "lh" st A ["rt", "imm", "rs"] [aS, bS] {} with
    | error e => rw [hpp] at henc; simp at henc
    | ok vals => exact (parseIOps_short _ _ _ _ _ _ _ (by norm_num) hpp).elim
  · simp only [encode_instruction, encode_i_type, parseIOps, IVals.setField,
      UNSIGNED_IMM_MNEMONICS, R_TYPE_FUNCT, I_TYPE_OPCODE, I_TYPE_FORMATS,
      I_MEM_MNEMONICS, List.lookup] at henc
    simp at henc
    cases hra : parse_register aS with
    | error e => rw [hra] at henc; simp at henc
    | ok rt =>
    cases him : parse_immediate bS 16 true with
    | error e => rw [hra, him] at henc; simp at henc
    | ok iv =>
    cases hrc : parse_register cS with
    | error e => rw [hra, him, hrc] at henc; simp at henc
    | ok rs =>
    rw [hra, him, hrc] at henc
    simp at henc
    have hrt := parse_register_lt _ _ hra
    have hrs := parse_register_lt _ _ hrc
    obtain ⟨val, hpv, hlo, hhi, hive⟩ := parse_immediate_ok_signed16 _ _ him
    have hivlt : iv < 2 ^ 16 := hive ▸ maskBits_lt val 16
    norm_num at hivlt
    have hop : opcodeOf w = 0x21 := by unfold opcodeOf; omega
    have hrsf : rsOf w = rs := by unfold rsOf; omega
    have hrtf : rtOf w = rt := by unfold rtOf; omega
    have himf : immOf w = iv := by unfold immOf; omega
    unfold disassemble_instruction
    rw [hop]
    rw [if_neg (by norm_num), if_neg (by norm_num), if_neg (by norm_num)]
    simp only [List.lookup]
    norm_num [ISIGNED_MNEMONICS, IHEX_MNEMONICS, DISASM_MEM_MNEMONICS]
    rw [hrsf, hrtf, himf, hive, sign_extend_maskBits val hlo hhi]
    simp [specRoundTripForm, regNum, hra, hrc, hpv, R3_MNEMONICS, RSHIFTV_MNEMONICS,
      RSHIFT_MNEMONICS, MOVETO_MNEMONICS, MOVEFROM_MNEMONICS, MULTDIV_MNEMONICS,
      IHEX_MNEMONICS, I_MEM_MNEMONICS, Except.toOption]
  · simp only [List.length_cons] at hlen; omega

/-- Round-trip lemma for `lhu`. -/
theorem rt_lhu (ops : List String) (A ln : Nat) (st : List (String × Nat)) (w : Nat)
    (hlen : ops.length ≤ 3)
    (henc : encode_instruction st ⟨"lhu", ops, A, ln⟩ = .ok w) :
    specRoundTripForm st ⟨"lhu", ops, A, ln⟩ = some (disassemble_instruction w A) := by
  rcases ops with _ | ⟨aS, _ | ⟨bS, _ | ⟨cS, _ | ⟨dS, rest⟩⟩⟩⟩
  · simp [encode_instruction, encode_i_type, R_TYPE_FUNCT, I_TYPE_OPCODE,
      I_TYPE_FORMATS, I_MEM_MNEMONICS, List.lookup] at henc
  · simp only [encode_instruction, encode_i_type, R_TYPE_FUNCT, I_TYPE_OPCODE,
      I_TYPE_FORMATS, I_MEM_MNEMONICS, List.lookup] at henc
    simp at henc
    cases hpp : parseIOps "lhu" st A ["rt", "imm", "rs"] [aS] {} with
    | error e => rw [hpp] at henc; simp at henc
    | ok vals => exact (parseIOps_short _ _ _ _ _ _ _ (by norm_num) hpp).elim
  · simp only [encode_instruction, encode_i_type, R_TYPE_FUNCT, I_TYPE_OPCODE,
      I_TYPE_FORMATS, I_MEM_MNEMONICS, List.lookup] at henc
    simp at henc
    cases hpp : parseIOps "lhu" st A ["rt", "imm", "rs"] [aS, bS] {} with
    | error e => rw [hpp] at henc; simp at henc
    | ok vals => exact (parseIOps_short _ _ _ _ _ _ _ (by norm_num) hpp).elim
  · simp only [encode_instruction, encode_i_type, parseIOps, IVals.setField,
      UNSIGNED_IMM_MNEMONICS, R_TYPE_FUNCT, I_TYPE_OPCODE, I_TYPE_FORMATS,
      I_MEM_MNEMONICS, List.lookup] at henc
    simp at henc
    cases hra : parse_register aS with
    | error e => rw [hra] at henc; simp at henc
    | ok rt =>
    cases him : parse_immediate bS 16 true with
    | error e => rw [hra, him] at henc; simp at henc
    | ok iv =>
    cases hrc : parse_register cS with
    | error e => rw [hra, him, hrc] at henc; simp at henc
    | ok rs =>
    rw [hra, him, hrc] at henc
    simp at henc
    have hrt := parse_register_lt _ _ hra
    have hrs := parse_register_lt _ _ hrc
    obtain ⟨val, hpv, hlo, hhi, hive⟩ := parse_immediate_ok_signed16 _ _ him
    have hivlt : iv < 2 ^ 16 := hive ▸ maskBits_lt val 16
    norm_num at hivlt
    have hop : opcodeOf w = 0x25 := by unfold opcodeOf; omega
    have hrsf : rsOf w = rs := by unfold rsOf; omega
    have hrtf : rtOf w = rt := by unfold rtOf; omega
    have himf : immOf w = iv := by unfold immOf; omega
    unfold disassemble_instruction
    rw [hop]
    rw [if_neg (by norm_num), if_neg (by norm_num), if_neg (by norm_num)]
    simp only [List.lookup]
    norm_num [ISIGNED_MNEMONICS, IHEX_MNEMONICS, DISASM_MEM_MNEMONICS]
    rw [hrsf, hrtf, himf, hive, sign_extend_maskBits val hlo hhi]
    simp [specRoundTripForm, regNum, hra, hrc, hpv, R3_MNEMONICS, RSHIFTV_MNEMONICS,
      RSHIFT_MNEMONICS, MOVETO_MNEMONICS, MOVEFROM_MNEMONICS, MULTDIV_MNEMONICS,
      IHEX_MNEMONICS, I_MEM_MNEMONICS, Except.toOption]
  · simp only [List.length_cons] at hlen; omega

/-- Round-trip lemma for `sb`. -/
theorem rt_sb (ops : List String) (A ln : Nat) (st : List (String × Nat)) (w : Nat)
    (hlen : ops.length ≤ 3)
    (henc : encode_instruction st ⟨"sb", ops, A, ln⟩ = .ok w) :
    specRoundTripForm st ⟨"sb", ops, A, ln⟩ = some (disassemble_instruction w A) := by
  rcases ops with _ | ⟨aS, _ | ⟨bS, _ | ⟨cS, _ | ⟨dS, rest⟩⟩⟩⟩
  · simp [encode_instruction, encode_i_type, R_TYPE_FUNCT, I_TYPE_OPCODE,
      I_TYPE_FORMATS, I_MEM_MNEMONICS, List.lookup] at henc
  · simp only [encode_instruction, encode_i_type, R_TYPE_FUNCT, I_TYPE_OPCODE,
      I_TYPE_FORMATS, I_MEM_MNEMONICS, List.lookup] at henc
    simp at henc
    cases hpp : parseIOps "sb" st A ["rt", "imm", "rs"] [aS] {} with
    | error e => rw [hpp] at henc; simp at henc
    | ok vals => exact (parseIOps_short _ _ _ _ _ _ _ (by norm_num) hpp).elim
  · simp only [encode_instruction, encode_i_type, R_TYPE_FUNCT, I_TYPE_OPCODE,
      I_TYPE_FORMATS, I_MEM_MNEMONICS, List.lookup] at henc
    simp at henc
    cases hpp : parseIOps "sb" st A ["rt", "imm", "rs"] [aS, bS] {} with
    | error e => rw [hpp] at henc; simp at henc
    | ok vals => exact (parseIOps_short _ _ _ _ _ _ _ (by norm_num) hpp).elim
  · simp only [encode_instruction, encode_i_type, parseIOps, IVals.setField,
      UNSIGNED_IMM_MNEMONICS, R_TYPE_FUNCT, I_TYPE_OPCODE, I_TYPE_FORMATS,
      I_MEM_MNEMONICS, List.lookup] at henc
    simp at henc
    cases hra : parse_register aS with
    | error e => rw [hra] at henc; simp at henc
    | ok rt =>
    cases him : parse_immediate bS 16 true with
    | error e => rw [hra, him] at henc; simp at henc
    | ok iv =>
    cases hrc : parse_register cS with
    | error e => rw [hra, him, hrc] at henc; simp at henc
    | ok rs =>
    rw [hra, him, hrc] at henc
    simp at henc
    have hrt := parse_register_lt _ _ hra
    have hrs := parse_register_lt _ _ hrc
    obtain ⟨val, hpv, hlo, hhi, hive⟩ := parse_immediate_ok_signed16 _ _ him
    have hivlt : iv < 2 ^ 16 := hive ▸ maskBits_lt val 16
    norm_num at hivlt
    have hop : opcodeOf w = 0x28 := by unfold opcodeOf; omega
    have hrsf : rsOf w = rs := by unfold rsOf; omega
    have hrtf : rtOf w = rt := by unfold rtOf; omega
    have himf : immOf w = iv := by unfold immOf; omega
    unfold disassemble_instruction
    rw [hop]
    rw [if_neg (by norm_num), if_neg (by norm_num), if_neg (by norm_num)]
    simp only [List.lookup]
    norm_num [ISIGNED_MNEMONICS, IHEX_MNEMONICS, DISASM_MEM_MNEMONICS]
    rw [hrsf, hrtf, himf, hive, sign_extend_maskBits val hlo hhi]
    simp [specRoundTripForm, regNum, hra, hrc, hpv, R3_MNEMONICS, RSHIFTV_MNEMONICS,
      RSHIFT_MNEMONICS, MOVETO_MNEMONICS, MOVEFROM_MNEMONICS, MULTDIV_MNEMONICS,
      IHEX_MNEMONICS, I_MEM_MNEMONICS, Except.toOption]
  · simp only [List.length_cons] at hlen; omega

/-- Round-trip lemma for `sh`. -/
theorem rt_sh (ops : List String) (A ln : Nat) (st : List (String × Nat)) (w : Nat)
    (hlen : ops.length ≤ 3)
    (henc : encode_instruction st ⟨"sh", ops, A, ln⟩ = .ok w) :
    specRoundTripForm st ⟨"sh", ops, A, ln⟩ = some (disassemble_instruction w A) := by
  rcases ops with _ | ⟨aS, _ | ⟨bS, _ | ⟨cS, _ | ⟨dS, rest⟩⟩⟩⟩
  · simp [encode_instruction, encode_i_type, R_TYPE_FUNCT, I_TYPE_OPCODE,
      I_TYPE_FORMATS, I_MEM_MNEMONICS, List.lookup] at henc
  · simp only [encode_instruction, encode_i_type, R_TYPE_FUNCT, I_TYPE_OPCODE,
      I_TYPE_FORMATS, I_MEM_MNEMONICS, List.lookup] at henc
    simp at henc
    cases hpp : parseIOps "sh" st A ["rt", "imm", "rs"] [aS] {} with
    | error e => rw [hpp] at henc; simp at henc
    | ok vals => exact (parseIOps_short _ _ _ _ _ _ _ (by norm_num) hpp).elim
  · simp only [encode_instruction, encode_i_type, R_TYPE_FUNCT, I_TYPE_OPCODE,
      I_TYPE_FORMATS, I_MEM_MNEMONICS, List.lookup] at henc
    simp at henc
    cases hpp : parseIOps "sh" st A ["rt", "imm", "rs"] [aS, bS] {} with
    | error e => rw [hpp] at henc; simp at henc
    | ok vals => exact (parseIOps_short _ _ _ _ _ _ _ (by norm_num) hpp).elim
  · simp only [encode_instruction, encode_i_type, parseIOps, IVals.setField,
      UNSIGNED_IMM_MNEMONICS, R_TYPE_FUNCT, I_TYPE_OPCODE, I_TYPE_FORMATS,
      I_MEM_MNEMONICS, List.lookup] at henc
    simp at henc
    cases hra : parse_register aS with
    | error e => rw [hra] at henc; simp at henc
    | ok rt =>
    cases him : parse_immediate bS 16 true with
    | error e => rw [hra, him] at henc; simp at henc
    | ok iv =>
    cases hrc : parse_register cS with
    | error e => rw [hra, him, hrc] at henc; simp at henc
    | ok rs =>
    rw [hra, him, hrc] at henc
    simp at henc
    have hrt := parse_register_lt _ _ hra
    have hrs := parse_register_lt _ _ hrc
    obtain ⟨val, hpv, hlo, hhi, hive⟩ := parse_immediate_ok_signed16 _ _ him
    have hivlt : iv < 2 ^ 16 := hive ▸ maskBits_lt val 16
    norm_num at hivlt
    have hop : opcodeOf w = 0x29 := by unfold opcodeOf; omega
    have hrsf : rsOf w = rs := by unfold rsOf; omega
    have hrtf : rtOf w = rt := by unfold rtOf; omega
    have himf : immOf w = iv := by unfold immOf; omega
    unfold disassemble_instruction
    rw [hop]
    rw [if_neg (by norm_num), if_neg (by norm_num), if_neg (by norm_num)]
    simp only [List.lookup]
    norm_num [ISIGNED_MNEMONICS, IHEX_MNEMONICS, DISASM_MEM_MNEMONICS]
    rw [hrsf, hrtf, himf, hive, sign_extend_maskBits val hlo hhi]
    simp [specRoundTripForm, regNum, hra, hrc, hpv, R3_MNEMONICS, RSHIFTV_MNEMONICS,
      RSHIFT_MNEMONICS, MOVETO_MNEMONICS, MOVEFROM_MNEMONICS, MULTDIV_MNEMONICS,
      IHEX_MNEMONICS, I_MEM_MNEMONICS, Except.toOption]
  · simp only [List.length_cons] at hlen; omega

/-- Round-trip lemma for `beq`. -/
theorem rt_beq (ops : List String) (A ln : Nat) (st : List (String × Nat)) (w : Nat)
    (hlen : ops.length ≤ 3)
    (henc : encode_instruction st ⟨"beq", ops, A, ln⟩ = .ok w) :
    specRoundTripForm st ⟨"beq", ops, A, ln⟩ = some (disassemble_instruction w A) := by
  rcases ops with _ | ⟨aS, _ | ⟨bS, _ | ⟨cS, _ | ⟨dS, rest⟩⟩⟩⟩
  · simp [encode_instruction, encode_i_type, R_TYPE_FUNCT, I_TYPE_OPCODE,
      I_TYPE_FORMATS, I_MEM_MNEMONICS, List.lookup] at henc
  · simp [encode_instruction, encode_i_type, R_TYPE_FUNCT, I_TYPE_OPCODE,
      I_TYPE_FORMATS, I_MEM_MNEMONICS, List.lookup] at henc
  · simp [encode_instruction, encode_i_type, R_TYPE_FUNCT, I_TYPE_OPCODE,
      I_TYPE_FORMATS, I_MEM_MNEMONICS, List.lookup] at henc
  · have hdisp : encode_instruction st ⟨"beq", [aS, bS, cS], A, ln⟩ =
        encode_i_type st ⟨"beq", [aS, bS, cS], A, ln⟩ := by
      simp [encode_instruction, R_TYPE_FUNCT, I_TYPE_OPCODE, List.lookup]
    rw [hdisp] at henc
    cases hra : parse_register aS with
    | error e =>
      simp only [encode_i_type, parseIOps, I_TYPE_OPCODE, I_TYPE_FORMATS,
        I_MEM_MNEMONICS, List.lookup, hra] at henc
      simp at henc
    | ok rs =>
    cases hrb : parse_register bS with
    | error e =>
      simp only [encode_i_type, parseIOps, I_TYPE_OPCODE, I_TYPE_FORMATS,
        I_MEM_MNEMONICS, List.lookup, hra, hrb] at henc
      simp at henc
    | ok rt =>
    rw [encode_char_beq aS bS cS A ln st rs rt hra hrb] at henc
    cases hrl : resolve_label st cS with
    | none => rw [hrl] at henc; exact Except.noConfusion henc
    | some T =>
    rw [hrl] at henc
    dsimp only at henc
    split at henc
    next halign =>
      split at henc
      next hrange =>
        injection henc with hweq
        have hrs32 := parse_register_lt _ _ hra
        have hrt32 := parse_register_lt _ _ hrb
        have hmb : maskBits (((T : Int) - ((A : Int) + 4)).fdiv 4) 16 < 2 ^ 16 :=
          maskBits_lt _ 16
        norm_num at hmb
        have hop : opcodeOf w = 4 := by unfold opcodeOf; omega
        have hrsf : rsOf w = rs := by unfold rsOf; omega
        have hrtf : rtOf w = rt := by unfold rtOf; omega
        have himf : immOf w = maskBits (((T : Int) - ((A : Int) + 4)).fdiv 4) 16 := by
          unfold immOf; omega
        unfold disassemble_instruction
        rw [hop]
        rw [if_neg (by norm_num), if_neg (by norm_num), if_neg (by norm_num)]
        simp only [List.lookup]
        norm_num [ISIGNED_MNEMONICS, IHEX_MNEMONICS, DISASM_MEM_MNEMONICS,
          BRANCH2_MNEMONICS]
        rw [hrsf, hrtf, himf, sign_extend_maskBits _ hrange.1 hrange.2]
        have htgt : (A : Int) + 4 + ((T : Int) - ((A : Int) + 4)).fdiv 4 * 4 = (T : Int) := by
          rw [int_fdiv_eq_div4]
          rw [int_emod_eq_mod] at halign
          omega
        rw [htgt]
        simp [specRoundTripForm, regNum, hra, hrb,
          show List.lookup cS st = some T from hrl, R3_MNEMONICS, RSHIFTV_MNEMONICS,
          RSHIFT_MNEMONICS, MOVETO_MNEMONICS, MOVEFROM_MNEMONICS, MULTDIV_MNEMONICS,
          IHEX_MNEMONICS, I_MEM_MNEMONICS, BRANCH2_MNEMONICS, resolve_label,
          Except.toOption]
      next => exact Except.noConfusion henc
    next => exact Except.noConfusion henc
  · simp only [List.length_cons] at hlen; omega

/-- Round-trip lemma for `bne`. -/
theorem rt_bne (ops : List String) (A ln : Nat) (st : List (String × Nat)) (w : Nat)
    (hlen : ops.length ≤ 3)
    (henc : encode_instruction st ⟨"bne", ops, A, ln⟩ = .ok w) :
    specRoundTripForm st ⟨"bne", ops, A, ln⟩ = some (disassemble_instruction w A) := by
  rcases ops with _ | ⟨aS, _ | ⟨bS, _ | ⟨cS, _ | ⟨dS, rest⟩⟩⟩⟩
  · simp [encode_instruction, encode_i_type, R_TYPE_FUNCT, I_TYPE_OPCODE,
      I_TYPE_FORMATS, I_MEM_MNEMONICS, List.lookup] at henc
  · simp [encode_instruction, encode_i_type, R_TYPE_FUNCT, I_TYPE_OPCODE,
      I_TYPE_FORMATS, I_MEM_MNEMONICS, List.lookup] at henc
  · simp [encode_instruction, encode_i_type, R_TYPE_FUNCT, I_TYPE_OPCODE,
      I_TYPE_FORMATS, I_MEM_MNEMONICS, List.lookup] at henc
  · have hdisp : encode_instruction st ⟨"bne", [aS, bS, cS], A, ln⟩ =
        encode_i_type st ⟨"bne", [aS, bS, cS], A, ln⟩ := by
      simp [encode_instruction, R_TYPE_FUNCT, I_TYPE_OPCODE, List.lookup]
    rw [hdisp] at henc
    cases hra : parse_register aS with
    | error e =>
      simp only [encode_i_type, parseIOps, I_TYPE_OPCODE, I_TYPE_FORMATS,
        I_MEM_MNEMONICS, List.lookup, hra] at henc
      simp at henc
    | ok rs =>
    cases hrb : parse_register bS with
    | error e =>
      simp only [encode_i_type, parseIOps, I_TYPE_OPCODE, I_TYPE_FORMATS,
        I_MEM_MNEMONICS, List.lookup, hra, hrb] at henc
      simp at henc
    | ok rt =>
    rw [encode_char_bne aS bS cS A ln st rs rt hra hrb] at henc
    cases hrl : resolve_label st cS with
    | none => rw [hrl] at henc; exact Except.noConfusion henc
    | some T =>
    rw [hrl] at henc
    dsimp only at henc
    split at henc
    next halign =>
      split at henc
      next hrange =>
        injection henc with hweq
        have hrs32 := parse_register_lt _ _ hra
        have hrt32 := parse_register_lt _ _ hrb
        have hmb : maskBits (((T : Int) - ((A : Int) + 4)).fdiv 4) 16 < 2 ^ 16 :=
          maskBits_lt _ 16
        norm_num at hmb
        have hop : opcodeOf w = 5 := by unfold opcodeOf; omega
        have hrsf : rsOf w = rs := by unfold rsOf; omega
        have hrtf : rtOf w = rt := by unfold rtOf; omega
        have himf : immOf w = maskBits (((T : Int) - ((A : Int) + 4)).fdiv 4) 16 := by
          unfold immOf; omega
        unfold disassemble_instruction
        rw [hop]
        rw [if_neg (by norm_num), if_neg (by norm_num), if_neg (by norm_num)]
        simp only [List.lookup]
        norm_num [ISIGNED_MNEMONICS, IHEX_MNEMONICS, DISASM_MEM_MNEMONICS,
          BRANCH2_MNEMONICS]
        rw [hrsf, hrtf, himf, sign_extend_maskBits _ hrange.1 hrange.2]
        have htgt : (A : Int) + 4 + ((T : Int) - ((A : Int) + 4)).fdiv 4 * 4 = (T : Int) := by
          rw [int_fdiv_eq_div4]
          rw [int_emod_eq_mod] at halign
          omega
        rw [htgt]
        simp [specRoundTripForm, regNum, hra, hrb,
          show List.lookup cS st = some T from hrl, R3_MNEMONICS, RSHIFTV_MNEMONICS,
          RSHIFT_MNEMONICS, MOVETO_MNEMONICS, MOVEFROM_MNEMONICS, MULTDIV_MNEMONICS,
          IHEX_MNEMONICS, I_MEM_MNEMONICS, BRANCH2_MNEMONICS, resolve_label,
          Except.toOption]
      next => exact Except.noConfusion henc
    next => exact Except.noConfusion henc
  · simp only [List.length_cons] at hlen; omega

/-- Round-trip lemma for `blez`. -/
theorem rt_blez (ops : List String) (A ln : Nat) (st : List (String × Nat)) (w : Nat)
    (hlen : ops.length ≤ 2)
    (henc : encode_instruction st ⟨"blez", ops, A, ln⟩ = .ok w) :
    specRoundTripForm st ⟨"blez", ops, A, ln⟩ = some (disassemble_instruction w A) := by
  rcases ops with _ | ⟨aS, _ | ⟨bS, _ | ⟨cS, rest⟩⟩⟩
  · simp [encode_instruction, encode_i_type, R_TYPE_FUNCT, I_TYPE_OPCODE,
      I_TYPE_FORMATS, I_MEM_MNEMONICS, List.lookup] at henc
  · simp [encode_instruction, encode_i_type, R_TYPE_FUNCT, I_TYPE_OPCODE,
      I_TYPE_FORMATS, I_MEM_MNEMONICS, List.lookup] at henc
  · have hdisp : encode_instruction st ⟨"blez", [aS, bS], A, ln⟩ =
        encode_i_type st ⟨"blez", [aS, bS], A, ln⟩ := by
      simp [encode_instruction, R_TYPE_FUNCT, I_TYPE_OPCODE, List.lookup]
    rw [hdisp] at henc
    cases hra : parse_register aS with
    | error e =>
      simp only [encode_i_type, parseIOps, I_TYPE_OPCODE, I_TYPE_FORMATS,
        I_MEM_MNEMONICS, List.lookup, hra] at henc
      simp at henc
    | ok rs =>
    rw [encode_char_blez aS bS A ln st rs hra] at henc
    cases hrl : resolve_label st bS with
    | none => rw [hrl] at henc; exact Except.noConfusion henc
    | some T =>
    rw [hrl] at henc
    dsimp only at henc
    split at henc
    next halign =>
      split at henc
      next hrange =>
        injection henc with hweq
        have hrs32 := parse_register_lt _ _ hra
        have hmb : maskBits (((T : Int) - ((A : Int) + 4)).fdiv 4) 16 < 2 ^ 16 :=
          maskBits_lt _ 16
        norm_num at hmb
        have hop : opcodeOf w = 6 := by unfold opcodeOf; omega
        have hrsf : rsOf w = rs := by unfold rsOf; omega
        have himf : immOf w = maskBits (((T : Int) - ((A : Int) + 4)).fdiv 4) 16 := by
          unfold immOf; omega
        unfold disassemble_instruction
        rw [hop]
        rw [if_neg (by norm_num), if_neg (by norm_num), if_neg (by norm_num)]
        simp only [List.lookup]
        norm_num [ISIGNED_MNEMONICS, IHEX_MNEMONICS, DISASM_MEM_MNEMONICS,
          BRANCH2_MNEMONICS, BRANCH1_MNEMONICS]
        rw [hrsf, himf, sign_extend_maskBits _ hrange.1 hrange.2]
        have htgt : (A : Int) + 4 + ((T : Int) - ((A : Int) + 4)).fdiv 4 * 4 = (T : Int) := by
          rw [int_fdiv_eq_div4]
          rw [int_emod_eq_mod] at halign
          omega
        rw [htgt]
        simp [specRoundTripForm, regNum, hra,
          show List.lookup bS st = some T from hrl, R3_MNEMONICS, RSHIFTV_MNEMONICS,
          RSHIFT_MNEMONICS, MOVETO_MNEMONICS, MOVEFROM_MNEMONICS, MULTDIV_MNEMONICS,
          IHEX_MNEMONICS, I_MEM_MNEMONICS, BRANCH2_MNEMONICS, BRANCH1_MNEMONICS,
          resolve_label, Except.toOption]
      next => exact Except.noConfusion henc
    next => exact Except.noConfusion henc
  · simp only [List.length_cons] at hlen; omega

/-- Round-trip lemma for `bgtz`. -/
theorem rt_bgtz (ops : List String) (A ln : Nat) (st : List (String × Nat)) (w : Nat)
    (hlen : ops.length ≤ 2)
    (henc : encode_instruction st ⟨"bgtz", ops, A, ln⟩ = .ok w) :
    specRoundTripForm st ⟨"bgtz", ops, A, ln⟩ = some (disassemble_instruction w A) := by
  rcases ops with _ | ⟨aS, _ | ⟨bS, _ | ⟨cS, rest⟩⟩⟩
  · simp [encode_instruction, encode_i_type, R_TYPE_FUNCT, I_TYPE_OPCODE,
      I_TYPE_FORMATS, I_MEM_MNEMONICS, List.lookup] at henc
  · simp [encode_instruction, encode_i_type, R_TYPE_FUNCT, I_TYPE_OPCODE,
      I_TYPE_FORMATS, I_MEM_MNEMONICS, List.lookup] at henc
  · have hdisp : encode_instruction st ⟨"bgtz", [aS, bS], A, ln⟩ =
        encode_i_type st ⟨"bgtz", [aS, bS], A, ln⟩ := by
      simp [encode_instruction, R_TYPE_FUNCT, I_TYPE_OPCODE, List.lookup]
    rw [hdisp] at henc
    cases hra : parse_register aS with
    | error e =>
      simp only [encode_i_type, parseIOps, I_TYPE_OPCODE, I_TYPE_FORMATS,
        I_MEM_MNEMONICS, List.lookup, hra] at henc
      simp at henc
    | ok rs =>
    rw [encode_char_bgtz aS bS A ln st rs hra] at henc
    cases hrl : resolve_label st bS with
    | none => rw [hrl] at henc; exact Except.noConfusion henc
    | some T =>
    rw [hrl] at henc
    dsimp only at henc
    split at henc
    next halign =>
      split at henc
      next hrange =>
        injection henc with hweq
        have hrs32 := parse_register_lt _ _ hra
        have hmb : maskBits (((T : Int) - ((A : Int) + 4)).fdiv 4) 16 < 2 ^ 16 :=
          maskBits_lt _ 16
        norm_num at hmb
        have hop : opcodeOf w = 7 := by unfold opcodeOf; omega
        have hrsf : rsOf w = rs := by unfold rsOf; omega
        have himf : immOf w = maskBits (((T : Int) - ((A : Int) + 4)).fdiv 4) 16 := by
          unfold immOf; omega
        unfold disassemble_instruction
        rw [hop]
        rw [if_neg (by norm_num), if_neg (by norm_num), if_neg (by norm_num)]
        simp only [List.lookup]
        norm_num [ISIGNED_MNEMONICS, IHEX_MNEMONICS, DISASM_MEM_MNEMONICS,
          BRANCH2_MNEMONICS, BRANCH1_MNEMONICS]
        rw [hrsf, himf, sign_extend_maskBits _ hrange.1 hrange.2]
        have htgt : (A : Int) + 4 + ((T : Int) - ((A : Int) + 4)).fdiv 4 * 4 = (T : Int) := by
          rw [int_fdiv_eq_div4]
          rw [int_emod_eq_mod] at halign
          omega
        rw [htgt]
        simp [specRoundTripForm, regNum, hra,
          show List.lookup bS st = some T from hrl, R3_MNEMONICS, RSHIFTV_MNEMONICS,
          RSHIFT_MNEMONICS, MOVETO_MNEMONICS, MOVEFROM_MNEMONICS, MULTDIV_MNEMONICS,
          IHEX_MNEMONICS, I_MEM_MNEMONICS, BRANCH2_MNEMONICS, BRANCH1_MNEMONICS,
          resolve_label, Except.toOption]
      next => exact Except.noConfusion henc
    next => exact Except.noConfusion henc
  · simp only [List.length_cons] at hlen; omega

/-- Round-trip lemma for `bltz`. -/
theorem rt_bltz (ops : List String) (A ln : Nat) (st : List (String × Nat)) (w : Nat)
    (hlen : ops.length ≤ 2)
    (henc : encode_instruction st ⟨"bltz", ops, A, ln⟩ = .ok w) :
    specRoundTripForm st ⟨"bltz", ops, A, ln⟩ = some (disassemble_instruction w A) := by
  rcases ops with _ | ⟨aS, _ | ⟨bS, _ | ⟨cS, rest⟩⟩⟩
  · simp [encode_instruction, encode_i_type, R_TYPE_FUNCT, I_TYPE_OPCODE,
      I_TYPE_FORMATS, I_MEM_MNEMONICS, List.lookup] at henc
  · simp [encode_instruction, encode_i_type, R_TYPE_FUNCT, I_TYPE_OPCODE,
      I_TYPE_FORMATS, I_MEM_MNEMONICS, List.lookup] at henc
  · have hdisp : encode_instruction st ⟨"bltz", [aS, bS], A, ln⟩ =
        encode_i_type st ⟨"bltz", [aS, bS], A, ln⟩ := by
      simp [encode_instruction, R_TYPE_FUNCT, I_TYPE_OPCODE, List.lookup]
    rw [hdisp] at henc
    cases hra : parse_register aS with
    | error e =>
      simp only [encode_i_type, parseIOps, I_TYPE_OPCODE, I_TYPE_FORMATS,
        I_MEM_MNEMONICS, List.lookup, hra] at henc
      simp at henc
    | ok rs =>
    rw [encode_char_bltz aS bS A ln st rs hra] at henc
    cases hrl : resolve_label st bS with
    | none => rw [hrl] at henc; exact Except.noConfusion henc
    | some T =>
    rw [hrl] at henc
    dsimp only at henc
    split at henc
    next halign =>
      split at henc
      next hrange =>
        injection henc with hweq
        have hrs32 := parse_register_lt _ _ hra
        have hmb : maskBits (((T : Int) - ((A : Int) + 4)).fdiv 4) 16 < 2 ^ 16 :=
          maskBits_lt _ 16
        norm_num at hmb
        have hop : opcodeOf w = 1 := by unfold opcodeOf; omega
        have hrsf : rsOf w = rs := by unfold rsOf; omega
        have hrtf : rtOf w = 0 := by unfold rtOf; omega
        have himf : immOf w = maskBits (((T : Int) - ((A : Int) + 4)).fdiv 4) 16 := by
          unfold immOf; omega
        unfold disassemble_instruction
        rw [hop]
        rw [if_neg (by norm_num), if_neg (by norm_num), if_pos rfl, hrtf]
        simp only [List.lookup]
        norm_num
        rw [hrsf, himf, sign_extend_maskBits _ hrange.1 hrange.2]
        have htgt : (A : Int) + 4 + ((T : Int) - ((A : Int) + 4)).fdiv 4 * 4 = (T : Int) := by
          rw [int_fdiv_eq_div4]
          rw [int_emod_eq_mod] at halign
          omega
        rw [htgt]
        simp [specRoundTripForm, regNum, hra,
          show List.lookup bS st = some T from hrl, R3_MNEMONICS, RSHIFTV_MNEMONICS,
          RSHIFT_MNEMONICS, MOVETO_MNEMONICS, MOVEFROM_MNEMONICS, MULTDIV_MNEMONICS,
          IHEX_MNEMONICS, I_MEM_MNEMONICS, BRANCH2_MNEMONICS, BRANCH1_MNEMONICS,
          REGIMM_MNEMONICS, resolve_label, Except.toOption]
      next => exact Except.noConfusion henc
    next => exact Except.noConfusion henc
  · simp only [List.length_cons] at hlen; omega

/-- Round-trip lemma for `bgez`. -/
theorem rt_bgez (ops : List String) (A ln : Nat) (st : List (String × Nat)) (w : Nat)
    (hlen : ops.length ≤ 2)
    (henc : encode_instruction st ⟨"bgez", ops, A, ln⟩ = .ok w) :
    specRoundTripForm st ⟨"bgez", ops, A, ln⟩ = some (disassemble_instruction w A) := by
  rcases ops with _ | ⟨aS, _ | ⟨bS, _ | ⟨cS, rest⟩⟩⟩
  · simp [encode_instruction, encode_i_type, R_TYPE_FUNCT, I_TYPE_OPCODE,
      I_TYPE_FORMATS, I_MEM_MNEMONICS, List.lookup] at henc
  · simp [encode_instruction, encode_i_type, R_TYPE_FUNCT, I_TYPE_OPCODE,
      I_TYPE_FORMATS, I_MEM_MNEMONICS, List.lookup] at henc
  · have hdisp : encode_instruction st ⟨"bgez", [aS, bS], A, ln⟩ =
        encode_i_type st ⟨"bgez", [aS, bS], A, ln⟩ := by
      simp [encode_instruction, R_TYPE_FUNCT, I_TYPE_OPCODE, List.lookup]
    rw [hdisp] at henc
    cases hra : parse_register aS with
    | error e =>
      simp only [encode_i_type, parseIOps, I_TYPE_OPCODE, I_TYPE_FORMATS,
        I_MEM_MNEMONICS, List.lookup, hra] at henc
      simp at henc
    | ok rs =>
    rw [encode_char_bgez aS bS A ln st rs hra] at henc
    cases hrl : resolve_label st bS with
    | none => rw [hrl] at henc; exact Except.noConfusion henc
    | some T =>
    rw [hrl] at henc
    dsimp only at henc
    split at henc
    next halign =>
      split at henc
      next hrange =>
        injection henc with hweq
        have hrs32 := parse_register_lt _ _ hra
        have hmb : maskBits (((T : Int) - ((A : Int) + 4)).fdiv 4) 16 < 2 ^ 16 :=
          maskBits_lt _ 16
        norm_num at hmb
        have hop : opcodeOf w = 1 := by unfold opcodeOf; omega
        have hrsf : rsOf w = rs := by unfold rsOf; omega
        have hrtf : rtOf w = 1 := by unfold rtOf; omega
        have himf : immOf w = maskBits (((T : Int) - ((A : Int) + 4)).fdiv 4) 16 := by
          unfold immOf; omega
        unfold disassemble_instruction
        rw [hop]
        rw [if_neg (by norm_num), if_neg (by norm_num), if_pos rfl, hrtf]
        simp only [List.lookup]
        norm_num
        rw [hrsf, himf, sign_extend_maskBits _ hrange.1 hrange.2]
        have htgt : (A : Int) + 4 + ((T : Int) - ((A : Int) + 4)).fdiv 4 * 4 = (T : Int) := by
          rw [int_fdiv_eq_div4]
          rw [int_emod_eq_mod] at halign
          omega
        rw [htgt]
        simp [specRoundTripForm, regNum, hra,
          show List.lookup bS st = some T from hrl, R3_MNEMONICS, RSHIFTV_MNEMONICS,
          RSHIFT_MNEMONICS, MOVETO_MNEMONICS, MOVEFROM_MNEMONICS, MULTDIV_MNEMONICS,
          IHEX_MNEMONICS, I_MEM_MNEMONICS, BRANCH2_MNEMONICS, BRANCH1_MNEMONICS,
          REGIMM_MNEMONICS, resolve_label, Except.toOption]
      next => exact Except.noConfusion henc
    next => exact Except.noConfusion henc
  · simp only [List.length_cons] at hlen; omega

/-- Round-trip lemma for `bltzal`. -/
theorem rt_bltzal (ops : List String) (A ln : Nat) (st : List (String × Nat)) (w : Nat)
    (hlen : ops.length ≤ 2)
    (henc : encode_instruction st ⟨"bltzal", ops, A, ln⟩ = .ok w) :
    specRoundTripForm st ⟨"bltzal", ops, A, ln⟩ = some (disassemble_instruction w A) := by
  rcases ops with _ | ⟨aS, _ | ⟨bS, _ | ⟨cS, rest⟩⟩⟩
  · simp [encode_instruction, encode_i_type, R_TYPE_FUNCT, I_TYPE_OPCODE,
      I_TYPE_FORMATS, I_MEM_MNEMONICS, List.lookup] at henc
  · simp [encode_instruction, encode_i_type, R_TYPE_FUNCT, I_TYPE_OPCODE,
      I_TYPE_FORMATS, I_MEM_MNEMONICS, List.lookup] at henc
  · have hdisp : encode_instruction st ⟨"bltzal", [aS, bS], A, ln⟩ =
        encode_i_type st ⟨"bltzal", [aS, bS], A, ln⟩ := by
      simp [encode_instruction, R_TYPE_FUNCT, I_TYPE_OPCODE, List.lookup]
    rw [hdisp] at henc
    cases hra : parse_register aS with
    | error e =>
      simp only [encode_i_type, parseIOps, I_TYPE_OPCODE, I_TYPE_FORMATS,
        I_MEM_MNEMONICS, List.lookup, hra] at henc
      simp at henc
    | ok rs =>
    rw [encode_char_bltzal aS bS A ln st rs hra] at henc
    cases hrl : resolve_label st bS with
    | none => rw [hrl] at henc; exact Except.noConfusion henc
    | some T =>
    rw [hrl] at henc
    dsimp only at henc
    split at henc
    next halign =>
      split at henc
      next hrange =>
        injection henc with hweq
        have hrs32 := parse_register_lt _ _ hra
        have hmb : maskBits (((T : Int) - ((A : Int) + 4)).fdiv 4) 16 < 2 ^ 16 :=
          maskBits_lt _ 16
        norm_num at hmb
        have hop : opcodeOf w = 1 := by unfold opcodeOf; omega
        have hrsf : rsOf w = rs := by unfold rsOf; omega
        have hrtf : rtOf w = 16 := by unfold rtOf; omega
        have himf : immOf w = maskBits (((T : Int) - ((A : Int) + 4)).fdiv 4) 16 := by
          unfold immOf; omega
        unfold disassemble_instruction
        rw [hop]
        rw [if_neg (by norm_num), if_neg (by norm_num), if_pos rfl, hrtf]
        simp only [List.lookup]
        norm_num
        rw [hrsf, himf, sign_extend_maskBits _ hrange.1 hrange.2]
        have htgt : (A : Int) + 4 + ((T : Int) - ((A : Int) + 4)).fdiv 4 * 4 = (T : Int) := by
          rw [int_fdiv_eq_div4]
          rw [int_emod_eq_mod] at halign
          omega
        rw [htgt]
        simp [specRoundTripForm, regNum, hra,
          show List.lookup bS st = some T from hrl, R3_MNEMONICS, RSHIFTV_MNEMONICS,
          RSHIFT_MNEMONICS, MOVETO_MNEMONICS, MOVEFROM_MNEMONICS, MULTDIV_MNEMONICS,
          IHEX_MNEMONICS, I_MEM_MNEMONICS, BRANCH2_MNEMONICS, BRANCH1_MNEMONICS,
          REGIMM_MNEMONICS, resolve_label, Except.toOption]
      next => exact Except.noConfusion henc
    next => exact Except.noConfusion henc
  · simp only [List.length_cons] at hlen; omega

/-- Round-trip lemma for `bgezal`. -/
theorem rt_bgezal (ops : List String) (A ln : Nat) (st : List (String × Nat)) (w : Nat)
    (hlen : ops.length ≤ 2)
    (henc : encode_instruction st ⟨"bgezal", ops, A, ln⟩ = .ok w) :
    specRoundTripForm st ⟨"bgezal", ops, A, ln⟩ = some (disassemble_instruction w A) := by
  rcases ops with _ | ⟨aS, _ | ⟨bS, _ | ⟨cS, rest⟩⟩⟩
  · simp [encode_instruction, encode_i_type, R_TYPE_FUNCT, I_TYPE_OPCODE,
      I_TYPE_FORMATS, I_MEM_MNEMONICS, List.lookup] at henc
  · simp [encode_instruction, encode_i_type, R_TYPE_FUNCT, I_TYPE_OPCODE,
      I_TYPE_FORMATS, I_MEM_MNEMONICS, List.lookup] at henc
  · have hdisp : encode_instruction st ⟨"bgezal", [aS, bS], A, ln⟩ =
        encode_i_type st ⟨"bgezal", [aS, bS], A, ln⟩ := by
      simp [encode_instruction, R_TYPE_FUNCT, I_TYPE_OPCODE, List.lookup]
    rw [hdisp] at henc
    cases hra : parse_register aS with
    | error e =>
      simp only [encode_i_type, parseIOps, I_TYPE_OPCODE, I_TYPE_FORMATS,
        I_MEM_MNEMONICS, List.lookup, hra] at henc
      simp at henc
    | ok rs =>
    rw [encode_char_bgezal aS bS A ln st rs hra] at henc
    cases hrl : resolve_label st bS with
    | none => rw [hrl] at henc; exact Except.noConfusion henc
    | some T =>
    rw [hrl] at henc
    dsimp only at henc
    split at henc
    next halign =>
      split at henc
      next hrange =>
        injection henc with hweq
        have hrs32 := parse_register_lt _ _ hra
        have hmb : maskBits (((T : Int) - ((A : Int) + 4)).fdiv 4) 16 < 2 ^ 16 :=
          maskBits_lt _ 16
        norm_num at hmb
        have hop : opcodeOf w = 1 := by unfold opcodeOf; omega
        have hrsf : rsOf w = rs := by unfold rsOf; omega
        have hrtf : rtOf w = 17 := by unfold rtOf; omega
        have himf : immOf w = maskBits (((T : Int) - ((A : Int) + 4)).fdiv 4) 16 := by
          unfold immOf; omega
        unfold disassemble_instruction
        rw [hop]
        rw [if_neg (by norm_num), if_neg (by norm_num), if_pos rfl, hrtf]
        simp only [List.lookup]
        norm_num
        rw [hrsf, himf, sign_extend_maskBits _ hrange.1 hrange.2]
        have htgt : (A : Int) + 4 + ((T : Int) - ((A : Int) + 4)).fdiv 4 * 4 = (T : Int) := by
          rw [int_fdiv_eq_div4]
          rw [int_emod_eq_mod] at halign
          omega
        rw [htgt]
        simp [specRoundTripForm, regNum, hra,
          show List.lookup bS st = some T from hrl, R3_MNEMONICS, RSHIFTV_MNEMONICS,
          RSHIFT_MNEMONICS, MOVETO_MNEMONICS, MOVEFROM_MNEMONICS, MULTDIV_MNEMONICS,
          IHEX_MNEMONICS, I_MEM_MNEMONICS, BRANCH2_MNEMONICS, BRANCH1_MNEMONICS,
          REGIMM_MNEMONICS, resolve_label, Except.toOption]
      next => exact Except.noConfusion henc
    next => exact Except.noConfusion henc
  · simp only [List.length_cons] at hlen; omega

/-- Round-trip lemma for `j`. -/
theorem rt_j (ops : List String) (A ln : Nat) (st : List (String × Nat)) (w : Nat)
    (hlen : ops.length ≤ 1)
    (hj : ∀ T : Int, resolveJTarget st ops = some T →
      0 ≤ T ∧ T.toNat < 2 ^ 32 ∧ T.toNat / 2 ^ 28 = A / 2 ^ 28 % 16)
    (henc : encode_instruction st ⟨"j", ops, A, ln⟩ = .ok w) :
    specRoundTripForm st ⟨"j", ops, A, ln⟩ = some (disassemble_instruction w A) := by
  rcases ops with _ | ⟨tS, _ | ⟨bS, rest⟩⟩
  · simp [encode_instruction, encode_j_type, R_TYPE_FUNCT, I_TYPE_OPCODE,
      J_TYPE_OPCODE, J_TYPE_FORMATS, List.lookup] at henc
  · simp only [encode_instruction, encode_j_type, R_TYPE_FUNCT, I_TYPE_OPCODE,
      J_TYPE_OPCODE, J_TYPE_FORMATS, List.lookup] at henc
    simp at henc
    cases hlk : List.lookup tS st with
    | some a =>
      rw [hlk] at henc
      dsimp only at henc
      split at henc
      next halign =>
        injection henc with hweq
        obtain ⟨hT0, hTlt, hTseg⟩ := hj (a : Int) (by simp [resolveJTarget, hlk])
        have hmb : maskBits ((a : Int).fdiv 4) 26 < 2 ^ 26 := maskBits_lt _ 26
        norm_num at hmb
        have hop : opcodeOf w = 2 := by unfold opcodeOf; omega
        have hja : jaddrOf w = maskBits ((a : Int).fdiv 4) 26 := by unfold jaddrOf; omega
        unfold disassemble_instruction
        rw [hop]
        rw [if_neg (by norm_num), if_pos (by norm_num), hja]
        have hlkop : (List.lookup 2 OPCODE_MAP_REV).getD "?" = "j" := rfl
        rw [hlkop]
        have hta : ((a : Int)).toNat = a := Int.toNat_natCast a
        rw [hta] at hTlt hTseg
        have htv : maskBits ((a : Int).fdiv 4) 26 * 4 + A / 2 ^ 28 % 16 * 2 ^ 28 = a := by
          unfold maskBits
          rw [int_fdiv_eq_div4]
          simp only [int_emod_eq_mod]
          rw [int_emod_eq_mod] at halign
          norm_num at halign hTlt hTseg ⊢
          omega
        rw [htv]
        simp [specRoundTripForm, hlk, R3_MNEMONICS, RSHIFTV_MNEMONICS, RSHIFT_MNEMONICS,
          MOVETO_MNEMONICS, MOVEFROM_MNEMONICS, MULTDIV_MNEMONICS, IHEX_MNEMONICS,
          I_MEM_MNEMONICS, BRANCH2_MNEMONICS, BRANCH1_MNEMONICS, REGIMM_MNEMONICS]
      next => exact Except.noConfusion henc
    | none =>
      rw [hlk] at henc
      dsimp only at henc
      cases hpv : pyParseIntBase0 tS with
      | none => rw [hpv] at henc; exact Except.noConfusion henc
      | some v =>
        rw [hpv] at henc
        dsimp only at henc
        split at henc
        next halign =>
          injection henc with hweq
          obtain ⟨hT0, hTlt, hTseg⟩ := hj v (by simp [resolveJTarget, hlk, hpv])
          have hmb : maskBits (v.fdiv 4) 26 < 2 ^ 26 := maskBits_lt _ 26
          norm_num at hmb
          have hop : opcodeOf w = 2 := by unfold opcodeOf; omega
          have hja : jaddrOf w = maskBits (v.fdiv 4) 26 := by unfold jaddrOf; omega
          unfold disassemble_instruction
          rw [hop]
          rw [if_neg (by norm_num), if_pos (by norm_num), hja]
          have hlkop : (List.lookup 2 OPCODE_MAP_REV).getD "?" = "j" := rfl
          rw [hlkop]
          have htv : maskBits (v.fdiv 4) 26 * 4 + A / 2 ^ 28 % 16 * 2 ^ 28 = v.toNat := by
            unfold maskBits
            rw [int_fdiv_eq_div4]
            simp only [int_emod_eq_mod]
            rw [int_emod_eq_mod] at halign
            norm_num at halign hTlt hTseg ⊢
            omega
          rw [htv]
          simp [specRoundTripForm, hlk, hpv, hT0, R3_MNEMONICS, RSHIFTV_MNEMONICS,
            RSHIFT_MNEMONICS, MOVETO_MNEMONICS, MOVEFROM_MNEMONICS, MULTDIV_MNEMONICS,
            IHEX_MNEMONICS, I_MEM_MNEMONICS, BRANCH2_MNEMONICS, BRANCH1_MNEMONICS,
            REGIMM_MNEMONICS]
        next => exact Except.noConfusion henc
  · simp only [List.length_cons] at hlen; omega

/-- Round-trip lemma for `jal`. -/
theorem rt_jal (ops : List String) (A ln : Nat) (st : List (String × Nat)) (w : Nat)
    (hlen : ops.length ≤ 1)
    (hj : ∀ T : Int, resolveJTarget st ops = some T →
      0 ≤ T ∧ T.toNat < 2 ^ 32 ∧ T.toNat / 2 ^ 28 = A / 2 ^ 28 % 16)
    (henc : encode_instruction st ⟨"jal", ops, A, ln⟩ = .ok w) :
    specRoundTripForm st ⟨"jal", ops, A, ln⟩ = some (disassemble_instruction w A) := by
  rcases ops with _ | ⟨tS, _ | ⟨bS, rest⟩⟩
  · simp [encode_instruction, encode_j_type, R_TYPE_FUNCT, I_TYPE_OPCODE,
      J_TYPE_OPCODE, J_TYPE_FORMATS, List.lookup] at henc
  · simp only [encode_instruction, encode_j_type, R_TYPE_FUNCT, I_TYPE_OPCODE,
      J_TYPE_OPCODE, J_TYPE_FORMATS, List.lookup] at henc
    simp at henc
    cases hlk : List.lookup tS st with
    | some a =>
      rw [hlk] at henc
      dsimp only at henc
      split at henc
      next halign =>
        injection henc with hweq
        obtain ⟨hT0, hTlt, hTseg⟩ := hj (a : Int) (by simp [resolveJTarget, hlk])
        have hmb : maskBits ((a : Int).fdiv 4) 26 < 2 ^ 26 := maskBits_lt _ 26
        norm_num at hmb
        have hop : opcodeOf w = 3 := by unfold opcodeOf; omega
        have hja : jaddrOf w = maskBits ((a : Int).fdiv 4) 26 := by unfold jaddrOf; omega
        unfold disassemble_instruction
        rw [hop]
        rw [if_neg (by norm_num), if_pos (by norm_num), hja]
        have hlkop : (List.lookup 3 OPCODE_MAP_REV).getD "?" = "jal" := rfl
        rw [hlkop]
        have hta : ((a : Int)).toNat = a := Int.toNat_natCast a
        rw [hta] at hTlt hTseg
        have htv : maskBits ((a : Int).fdiv 4) 26 * 4 + A / 2 ^ 28 % 16 * 2 ^ 28 = a := by
          unfold maskBits
          rw [int_fdiv_eq_div4]
          simp only [int_emod_eq_mod]
          rw [int_emod_eq_mod] at halign
          norm_num at halign hTlt hTseg ⊢
          omega
        rw [htv]
        simp [specRoundTripForm, hlk, R3_MNEMONICS, RSHIFTV_MNEMONICS, RSHIFT_MNEMONICS,
          MOVETO_MNEMONICS, MOVEFROM_MNEMONICS, MULTDIV_MNEMONICS, IHEX_MNEMONICS,
          I_MEM_MNEMONICS, BRANCH2_MNEMONICS, BRANCH1_MNEMONICS, REGIMM_MNEMONICS]
      next => exact Except.noConfusion henc
    | none =>
      rw [hlk] at henc
      dsimp only at henc
      cases hpv : pyParseIntBase0 tS with
      | none => rw [hpv] at henc; exact Except.noConfusion henc
      | some v =>
        rw [hpv] at henc
        dsimp only at henc
        split at henc
        next halign =>
          injection henc with hweq
          obtain ⟨hT0, hTlt, hTseg⟩ := hj v (by simp [resolveJTarget, hlk, hpv])
          have hmb : maskBits (v.fdiv 4) 26 < 2 ^ 26 := maskBits_lt _ 26
          norm_num at hmb
          have hop : opcodeOf w = 3 := by unfold opcodeOf; omega
          have hja : jaddrOf w = maskBits (v.fdiv 4) 26 := by unfold jaddrOf; omega
          unfold disassemble_instruction
          rw [hop]
          rw [if_neg (by norm_num), if_pos (by norm_num), hja]
          have hlkop : (List.lookup 3 OPCODE_MAP_REV).getD "?" = "jal" := rfl
          rw [hlkop]
          have htv : maskBits (v.fdiv 4) 26 * 4 + A / 2 ^ 28 % 16 * 2 ^ 28 = v.toNat := by
            unfold maskBits
            rw [int_fdiv_eq_div4]
            simp only [int_emod_eq_mod]
            rw [int_emod_eq_mod] at halign
            norm_num at halign hTlt hTseg ⊢
            omega
          rw [htv]
          simp [specRoundTripForm, hlk, hpv, hT0, R3_MNEMONICS, RSHIFTV_MNEMONICS,
            RSHIFT_MNEMONICS, MOVETO_MNEMONICS, MOVEFROM_MNEMONICS, MULTDIV_MNEMONICS,
            IHEX_MNEMONICS, I_MEM_MNEMONICS, BRANCH2_MNEMONICS, BRANCH1_MNEMONICS,
            REGIMM_MNEMONICS]
        next => exact Except.noConfusion henc
  · simp only [List.length_cons] at hlen; omega

end Mips

namespace Mips

/-- A successful association-list lookup means the key occurs among the
keys of the list. -/
theorem lookup_isSome_key {β : Type} (l : List (String × β)) (a : String)
    (h : (List.lookup a l).isSome = true) : a ∈ l.map Prod.fst := by
  induction l with
  | nil => simp [List.lookup] at h
  | cons p rest ih =>
    rw [List.lookup] at h
    cases he : (a == p.1) with
    | true =>
      have hae : a = p.1 := eq_of_beq he
      simp [hae]
    | false =>
      rw [he] at h
      simp only [List.map_cons, List.mem_cons]
      exact Or.inr (ih h)

/-- A base mnemonic is a key of one of the three encoder tables. -/
theorem base_mnemonic_mem (m : String) (h : isBaseMnemonic m = true) :
    m ∈ BASE_MNEMONIC_LIST := by
  simp only [isBaseMnemonic, Bool.or_eq_true] at h
  simp only [BASE_MNEMONIC_LIST, List.mem_append]
  rcases h with (h | h) | h
  · exact Or.inl (Or.inl (lookup_isSome_key _ _ h))
  · exact Or.inl (Or.inr (lookup_isSome_key _ _ h))
  · exact Or.inr (lookup_isSome_key _ _ h)

/-- C1 (counterexample): `sll $zero, $zero, 0` is a base instruction with
valid operands that the assembler encodes as the word `0x00000000`; the
disassembler renders that word as `nop`, not as an `sll` instruction, so
the round trip does not return a semantically equivalent instruction. -/
theorem round_trip_counterexample :
    encode_instruction [] ⟨"sll", ["$zero", "$zero", "0"], 0x00400000, 1⟩ =
        .ok 0 ∧
    disassemble_instruction 0 0x00400000 = Disasm.nop ∧
    specRoundTripForm [] ⟨"sll", ["$zero", "$zero", "0"], 0x00400000, 1⟩ =
      some (Disasm.rshift "sll" 0 0 0) ∧
    specRoundTripForm [] ⟨"sll", ["$zero", "$zero", "0"], 0x00400000, 1⟩ ≠
      some (disassemble_instruction 0 0x00400000) := by
  refine ⟨by decide, by decide, by decide, by decide⟩

/-- C1 (amended): for every base (non-pseudo) mnemonic with valid
operands (operand-list arity bounded by the mnemonic's format), if the
encoder succeeds with a non-zero machine word, and — for `j`/`jal` — the
resolved jump target is a non-negative address below `2^32` in the same
256MB segment as the instruction, then disassembling the word at the
instruction's own address yields the semantically equivalent instruction
(same mnemonic, operand registers, and immediate/target value).  The zero
word (`sll $zero, $zero, 0`) and segment-crossing jumps are genuine
exceptions, so the original unconditional claim is corrected. -/
theorem round_trip_amended (st : List (String × Nat)) (d : InstrDetails) (w : Nat)
    (hbase : isBaseMnemonic d.instruction = true)
    (henc : encode_instruction st d = .ok w)
    (hw0 : w ≠ 0)
    (harity : ∀ fmt, List.lookup d.instruction
        (R_TYPE_FORMATS ++ I_TYPE_FORMATS ++ J_TYPE_FORMATS) = some fmt →
      d.operands.length ≤ fmt.length)
    (hjseg : ∀ T : Int, resolveJTarget st d.operands = some T →
      0 ≤ T ∧ T.toNat < 2 ^ 32 ∧ T.toNat / 2 ^ 28 = d.address / 2 ^ 28 % 16) :
    specRoundTripForm st d = some (disassemble_instruction w d.address) := by
  obtain ⟨m, ops, A, ln⟩ := d
  have hm := base_mnemonic_mem m hbase
  simp only [BASE_MNEMONIC_LIST, R_TYPE_FUNCT, I_TYPE_OPCODE, J_TYPE_OPCODE,
    List.map_cons, List.map_nil, List.cons_append, List.nil_append,
    List.mem_cons, List.not_mem_nil, or_false] at hm
  rcases hm with rfl | rfl | rfl | rfl | rfl | rfl | rfl | rfl | rfl | rfl | rfl | rfl | rfl | rfl | rfl | rfl | rfl | rfl | rfl | rfl | rfl | rfl | rfl | rfl | rfl | rfl | rfl | rfl | rfl | rfl | rfl | rfl | rfl | rfl | rfl | rfl | rfl | rfl | rfl | rfl | rfl | rfl | rfl | rfl | rfl | rfl | rfl | rfl | rfl | rfl | rfl | rfl | rfl | rfl

  · exact rt_add ops A ln st w (by simpa using harity _ rfl) hw0 henc
  · exact rt_addu ops A ln st w (by simpa using harity _ rfl) hw0 henc
  · exact rt_sub ops A ln st w (by simpa using harity _ rfl) hw0 henc
  · exact rt_subu ops A ln st w (by simpa using harity _ rfl) hw0 henc
  · exact rt_and ops A ln st w (by simpa using harity _ rfl) hw0 henc
  · exact rt_or ops A ln st w (by simpa using harity _ rfl) hw0 henc
  · exact rt_xor ops A ln st w (by simpa using harity _ rfl) hw0 henc
  · exact rt_nor ops A ln st w (by simpa using harity _ rfl) hw0 henc
  · exact rt_slt ops A ln st w (by simpa using harity _ rfl) hw0 henc
  · exact rt_sltu ops A ln st w (by simpa using harity _ rfl) hw0 henc
  · exact rt_sll ops A ln st w (by simpa using harity _ rfl) hw0 henc
  · exact rt_srl ops A ln st w (by simpa using harity _ rfl) hw0 henc
  · exact rt_sra ops A ln st w (by simpa using harity _ rfl) hw0 henc
  · exact rt_sllv ops A ln st w (by simpa using harity _ rfl) hw0 henc
  · exact rt_srlv ops A ln st w (by simpa using harity _ rfl) hw0 henc
  · exact rt_srav ops A ln st w (by simpa using harity _ rfl) hw0 henc
  · exact rt_jr ops A ln st w (by simpa using harity _ rfl) hw0 henc
  · exact rt_jalr ops A ln st w (by simpa using harity _ rfl) hw0 henc
  · exact rt_syscall ops A ln st w (by simpa using harity _ rfl) hw0 henc
  · exact rt_breakI ops A ln st w (by simpa using harity _ rfl) hw0 henc
  · exact rt_mfhi ops A ln st w (by simpa using harity _ rfl) hw0 henc
  · exact rt_mthi ops A ln st w (by simpa using harity _ rfl) hw0 henc
  · exact rt_mflo ops A ln st w (by simpa using harity _ rfl) hw0 henc
  · exact rt_mtlo ops A ln st w (by simpa using harity _ rfl) hw0 henc
  · exact rt_mult ops A ln st w (by simpa using harity _ rfl) hw0 henc
  · exact rt_multu ops A ln st w (by simpa using harity _ rfl) hw0 henc
  · exact rt_div ops A ln st w (by simpa using harity _ rfl) hw0 henc
  · exact rt_divu ops A ln st w (by simpa using harity _ rfl) hw0 henc
  · exact rt_addi ops A ln st w (by simpa using harity _ rfl) henc
  · exact rt_addiu ops A ln st w (by simpa using harity _ rfl) henc
  · exact rt_slti ops A ln st w (by simpa using harity _ rfl) henc
  · exact rt_sltiu ops A ln st w (by simpa using harity _ rfl) henc
  · exact rt_andi ops A ln st w (by simpa using harity _ rfl) henc
  · exact rt_ori ops A ln st w (by simpa using harity _ rfl) henc
  · exact rt_xori ops A ln st w (by simpa using harity _ rfl) henc
  · exact rt_lui ops A ln st w (by simpa using harity _ rfl) henc
  · exact rt_lw ops A ln st w (by simpa using harity _ rfl) henc
  · exact rt_lb ops A ln st w (by simpa using harity _ rfl) henc
  · exact rt_lh ops A ln st w (by simpa using harity _ rfl) henc
  · exact rt_lbu ops A ln st w (by simpa using harity _ rfl) henc
  · exact rt_lhu ops A ln st w (by simpa using harity _ rfl) henc
  · exact rt_sw ops A ln st w (by simpa using harity _ rfl) henc
  · exact rt_sb ops A ln st w (by simpa using harity _ rfl) henc
  · exact rt_sh ops A ln st w (by simpa using harity _ rfl) henc
  · exact rt_beq ops A ln st w (by simpa using harity _ rfl) henc
  · exact rt_bne ops A ln st w (by simpa using harity _ rfl) henc
  · exact rt_blez ops A ln st w (by simpa using harity _ rfl) henc
  · exact rt_bgtz ops A ln st w (by simpa using harity _ rfl) henc
  · exact rt_bltz ops A ln st w (by simpa using harity _ rfl) henc
  · exact rt_bgez ops A ln st w (by simpa using harity _ rfl) henc
  · exact rt_bltzal ops A ln st w (by simpa using harity _ rfl) henc
  · exact rt_bgezal ops A ln st w (by simpa using harity _ rfl) henc
  · exact rt_j ops A ln st w (by simpa using harity _ rfl) hjseg henc
  · exact rt_jal ops A ln st w (by simpa using harity _ rfl) hjseg henc


/-- C1 (witness for the amended theorem): `addiu $t0, $t0, 1` at address
`0x00400004` encodes to `0x25080001`, and the round trip reproduces the
instruction. -/
theorem round_trip_amended_witness :
    encode_instruction [] ⟨"addiu", ["$t0", "$t0", "1"], 0x00400004, 2⟩ =
        .ok 0x25080001 ∧
    specRoundTripForm [] ⟨"addiu", ["$t0", "$t0", "1"], 0x00400004, 2⟩ =
      some (disassemble_instruction 0x25080001 0x00400004) :=
  ⟨by decide,
   round_trip_amended [] ⟨"addiu", ["$t0", "$t0", "1"], 0x00400004, 2⟩ 0x25080001
     (by decide) (by decide) (by decide)
     (by
       intro fmt h
       rw [show List.lookup "addiu"
             (R_TYPE_FORMATS ++ I_TYPE_FORMATS ++ J_TYPE_FORMATS) =
           some ["rt", "rs", "imm"] from rfl] at h
       injection h with h2
       subst h2
       decide)
     (by
       intro T h
       rw [show resolveJTarget [] ["$t0", "$t0", "1"] = none from rfl] at h
       exact Option.noConfusion h)⟩

end Mips
